import Mathlib

/-! # Moonlight controller: the module lifecycle orchestrator

A shallow embedding of `src/moonlightcontroller/main.cpp`.

The class `LuaModule` (header `libmoonlightcontroller/LuaModule.h`) and the
constant `ELuaModuleLibraries_Recommended` are not part of the sources at hand,
so the embedding takes them as parameters: every function below is generic in
an arbitrary implementation `W : LuaModule σ` acting on an arbitrary state `σ`
(all Lua states together with whatever they can reach).

A `LuaModule *` is denoted by the name the object was built from.  This is
exact for `main.cpp`: a constructor is only called for a name that is not a key
of `modules`, an object that is not stored under its name is deleted on the
spot, and an object erased from `modules` is never touched again; so at any
moment at most one object per name can be the target of a call.

Every call that leaves `main.cpp` is appended to a trace, so that ordering
claims can be stated on the sequence of calls.
-/

namespace MoonlightController

/-! ## The external interface -/

/-- Modelled from the spec: the outcomes of `new LuaModule(arg, true, libraries)`
(class `LuaModule` is declared in a header that is not among the sources), as
the branches of `AddModules` tell them apart: the constructor throws something
derived from `std::exception` (with its `what()` text), throws anything else,
the pointer is null, or an object is built. -/
inductive NewResult where
  | threwException (what : String)
  | threwOther
  | null
  | built
  deriving DecidableEq, Repr

/-- Modelled from the spec: the interface of class `LuaModule` (its header and
implementation are not among the sources), with the members `main.cpp` uses.
An implementation is a parameter of everything below; it acts on a state `σ`,
and an object is named by the string it was constructed from. -/
structure LuaModule (σ : Type) where
  /-- Constructor `LuaModule(name, autoExecute, libraries)`. -/
  construct : String → Bool → Int → σ → NewResult × σ
  /-- Query `IsActive()`. -/
  IsActive : String → σ → Bool
  /-- Method `Execute()`. -/
  Execute : String → σ → σ
  /-- Method `InvokeEvent(event)`. -/
  InvokeEvent : String → String → σ → σ
  /-- Destructor, run by `delete`. -/
  destruct : String → σ → σ

/-- One observable call made by `main.cpp`. -/
inductive Event where
  /-- The call `it->second.function(args)` for the flag `flag`. -/
  | call (flag : String) (args : List String)
  /-- The value the dispatched handler returned. -/
  | ret (result : Bool)
  /-- The call `new LuaModule(name, true, libraries)` and how it ended. -/
  | construct (name : String) (libraries : Int) (result : NewResult)
  /-- The call `delete module`. -/
  | delete (name : String)
  /-- The call `module->Execute()`. -/
  | execute (name : String)
  /-- The call `module->InvokeEvent(event)`. -/
  | invokeEvent (name : String) (event : String)
  /-- One line written to `cout`. -/
  | cout (line : String)
  /-- One line written to `cerr`. -/
  | cerr (line : String)
  /-- The call `this_thread::sleep_for(milliseconds(ms))`. -/
  | sleep (ms : Nat)
  deriving DecidableEq, Repr

/-- The globals of `main.cpp` (`libraries`, `modules`), the state behind the
`LuaModule` objects, and the calls made so far (oldest first).  `modules` lists
the keys of the `std::map` in iteration order, that is in ascending order. -/
structure Host (σ : Type) where
  lua : σ
  libraries : Int
  modules : List String
  trace : List Event

/-- The globals after static initialisation: `libraries` holds
`ELuaModuleLibraries_Recommended` (passed as `recommended`) and `modules` is
empty. -/
def Host.initial {σ : Type} (recommended : Int) (w : σ) : Host σ :=
  { lua := w, libraries := recommended, modules := [], trace := [] }

/-- Append calls to the trace. -/
def Host.emit {σ : Type} (s : Host σ) (es : List Event) : Host σ :=
  { s with trace := s.trace ++ es }

/-! ## `std::map` with string keys

Keys are compared as `std::string::operator<` does, character by character. -/

/-- `m[k] = v` on the key-ordered entry list of a `std::map<string, V>`. -/
def mapAssign {V : Type} (k : String) (v : V) : List (String × V) → List (String × V)
  | [] => [(k, v)]
  | (k', v') :: rest =>
    if k.data < k'.data then (k, v) :: (k', v') :: rest
    else if k'.data < k.data then (k', v') :: mapAssign k v rest
    else (k, v) :: rest

/-- `m.find(k)` on the entry list: the mapped value, or `none` for `end()`. -/
def mapFind {V : Type} (k : String) : List (String × V) → Option V
  | [] => none
  | (k', v') :: rest => if k' = k then some v' else mapFind k rest

/-- `modules[name] = module` on the ascending key list of `modules`. -/
def insertKey (k : String) : List String → List String
  | [] => [k]
  | k' :: rest =>
    if k.data < k'.data then k :: k' :: rest
    else if k'.data < k.data then k' :: insertKey k rest
    else k :: rest

/-- `modules.erase(modules.find(name))` on the key list. -/
def eraseKey (k : String) : List String → List String
  | [] => []
  | k' :: rest => if k' = k then rest else k' :: eraseKey k rest

/-! ## The command dispatch table -/

/-- The three handler functions a `FunctionData` can point to. -/
inductive Handler where
  | renderHelp
  | addModules
  | changeLibraries
  deriving DecidableEq, Repr

/-- Modelled from the spec: the struct `FunctionData` (header `FunctionData.h`
is not among the sources): a handler, its help text, and the mark of the
canonical spelling of a flag.  The member names are those `main.cpp` uses. -/
structure FunctionData where
  function : Handler
  help : String
  isUnique : Bool
  deriving DecidableEq, Repr

/-- The initialiser list of `argumentFunctions`, in source order. -/
def argumentFunctionsInit : List (String × FunctionData) :=
  [ ("-h", ⟨Handler.renderHelp, "Shows this help topic", true⟩),
    ("--help", ⟨Handler.renderHelp, "", false⟩),
    ("-m", ⟨Handler.addModules, "Add Lua modules to load", true⟩),
    ("--modules", ⟨Handler.addModules, "", false⟩),
    ("-l", ⟨Handler.changeLibraries, "Change the required Lua libraries", true⟩),
    ("--libraries", ⟨Handler.changeLibraries, "", false⟩) ]

/-- The map `argumentFunctions`: the initialiser entries in key order. -/
def argumentFunctions : List (String × FunctionData) :=
  argumentFunctionsInit.foldl (fun m e => mapAssign e.1 e.2 m) []

/-- The test `arg[0] == '-'`; for the empty string `arg[0]` is the terminating
null character, so the test fails. -/
def isFlagToken (arg : String) : Bool :=
  match arg.data with
  | [] => false
  | c :: _ => c == '-'

/-! ## `std::stoi` -/

/-- The characters `isspace` accepts in the C locale. -/
def isSpaceC (c : Char) : Bool :=
  c == ' ' || c == '\t' || c == '\n' || c == '\x0b' || c == '\x0c' || c == '\r'

/-- Value of a run of decimal digits, most significant first. -/
def digitsValue (ds : List Char) : Nat :=
  ds.foldl (fun acc c => 10 * acc + (c.toNat - '0'.toNat)) 0

/-- The library function `std::stoi(str)` (base 10, 32-bit `int`): leading
white space is skipped, an optional sign is read, then the longest run of
digits; what follows is ignored.  `none` stands for a thrown
`std::invalid_argument` (no digit) or `std::out_of_range`. -/
def stoi (str : String) : Option Int :=
  let cs := str.data.dropWhile isSpaceC
  let signed : Bool × List Char :=
    match cs with
    | '-' :: r => (true, r)
    | '+' :: r => (false, r)
    | r => (false, r)
  let ds := signed.2.takeWhile Char.isDigit
  if ds.isEmpty then none
  else
    let v : Int := if signed.1 then -(digitsValue ds : Int) else (digitsValue ds : Int)
    if -2147483648 ≤ v ∧ v ≤ 2147483647 then some v else none

/-! ## The functions of `main.cpp` -/

/-- `ClearModules`, the `delete` loop over `modules`. -/
def deleteAll {σ : Type} (W : LuaModule σ) : List String → Host σ → Host σ
  | [], s => s
  | name :: rest, s =>
    deleteAll W rest { s with lua := W.destruct name s.lua, trace := s.trace ++ [Event.delete name] }

/-- `ClearModules`: delete every registered object, then `modules.clear()`. -/
def ClearModules {σ : Type} (W : LuaModule σ) (s : Host σ) : Host σ :=
  { deleteAll W s.modules s with modules := [] }

/-- The lines `RenderHelp` writes for the entries of the table, in map order:
two lines for every entry with `isUnique`. -/
def helpEntries : List (String × FunctionData) → List String
  | [] => []
  | (flag, fd) :: rest =>
    if fd.isUnique then ("\t" ++ flag) :: ("\t\t" ++ fd.help) :: helpEntries rest
    else helpEntries rest

/-- Everything `RenderHelp` writes to `cout`, line by line. -/
def helpTopic : List Event :=
  ([ "Moonlight controller help:" ] ++ helpEntries argumentFunctions ++ [ "End of help topic" ]).map Event.cout

/-- `RenderHelp`: write the help topic, return `false`. -/
def RenderHelp {σ : Type} (_args : List String) (s : Host σ) : Bool × Host σ :=
  (false, s.emit helpTopic)

/-- `AddModules`, the loop `for (string arg : args)`. -/
def addEach {σ : Type} (W : LuaModule σ) : List String → Host σ → Host σ
  | [], s => s
  | arg :: rest, s =>
    if arg ∈ s.modules then addEach W rest s
    else
      let r := W.construct arg true s.libraries s.lua
      let s1 : Host σ := { s with lua := r.2, trace := s.trace ++ [Event.construct arg s.libraries r.1] }
      match r.1 with
      | NewResult.built =>
        if W.IsActive arg s1.lua then
          addEach W rest { s1 with modules := insertKey arg s1.modules }
        else
          addEach W rest { s1 with lua := W.destruct arg s1.lua, trace := s1.trace ++ [Event.delete arg] }
      | NewResult.null => s1
      | NewResult.threwException what => s1.emit [Event.cerr what]
      | NewResult.threwOther => s1.emit [Event.cerr "A fatal error has occured."]

/-- `AddModules`. -/
def AddModules {σ : Type} (W : LuaModule σ) (args : List String) (s : Host σ) : Bool × Host σ :=
  if args.length > 0 then (true, addEach W args s) else (false, s)

/-- `ChangeLibraries`; `none` when `std::stoi` throws (nothing catches it). -/
def ChangeLibraries {σ : Type} (args : List String) (s : Host σ) : Option (Bool × Host σ) :=
  match args with
  | [a] =>
    match stoi a with
    | some n => some (true, { s with libraries := n })
    | none => none
  | _ => some (false, s)

/-- The call through the function pointer of a table entry. -/
def Handler.run {σ : Type} (W : LuaModule σ) (h : Handler) (args : List String) (s : Host σ) :
    Option (Bool × Host σ) :=
  match h with
  | Handler.renderHelp => some (RenderHelp args s)
  | Handler.addModules => some (AddModules W args s)
  | Handler.changeLibraries => ChangeLibraries args s

/-- The inner loop of `Main` over `arguments[j]`, `j = i + 1, ...`, given the
tokens from index `i + 1` on: the collected `args`, and the tokens from the
first flag token on (empty exactly when `end_reached` stays `true`). -/
def collectArgs : List String → List String → List String × List String
  | [], args => (args, [])
  | s_arg :: rest, args =>
    if isFlagToken s_arg then (args, s_arg :: rest)
    else collectArgs rest (args ++ [s_arg])

/-- How the argument loop of `Main` ends: normally, or by an exception that
nothing catches. -/
inductive Parsed (σ : Type) where
  | done (s : Host σ)
  | uncaught (s : Host σ)

/-- The state the argument loop ended in. -/
def Parsed.host {σ : Type} : Parsed σ → Host σ
  | Parsed.done s => s
  | Parsed.uncaught s => s

/-- The argument loop of `Main`, given the tokens from index `i` on.  The
first argument bounds the number of iterations; `arguments.size()` is always
enough, since `i` grows in every iteration. -/
def argumentLoop {σ : Type} (W : LuaModule σ) : Nat → List String → Host σ → Parsed σ
  | 0, _, s => Parsed.done s
  | _ + 1, [], s => Parsed.done s
  | fuel + 1, arg :: rest, s =>
    if isFlagToken arg then
      match mapFind arg argumentFunctions with
      | none => Parsed.done (RenderHelp [] (ClearModules W s)).2
      | some fd =>
        let scan := collectArgs rest []
        let s1 := s.emit [Event.call arg scan.1]
        match fd.function.run W scan.1 s1 with
        | none => Parsed.uncaught s1
        | some (result, s2) =>
          let s3 := s2.emit [Event.ret result]
          if !result then Parsed.done s3
          else if scan.2.isEmpty then Parsed.done s3
          else argumentLoop W fuel scan.2 s3
    else Parsed.done (RenderHelp [] (ClearModules W s)).2

/-- The loop calling `Execute()` on every registered module. -/
def executeAll {σ : Type} (W : LuaModule σ) : List String → Host σ → Host σ
  | [], s => s
  | name :: rest, s =>
    executeAll W rest { s with lua := W.Execute name s.lua, trace := s.trace ++ [Event.execute name] }

/-- The loops calling `InvokeEvent(event)` on every registered module. -/
def invokeAll {σ : Type} (W : LuaModule σ) (event : String) : List String → Host σ → Host σ
  | [], s => s
  | name :: rest, s =>
    invokeAll W event rest
      { s with lua := W.InvokeEvent name event s.lua, trace := s.trace ++ [Event.invokeEvent name event] }

/-- The dispatch loop of one tick pass over the registered modules; the second
component accumulates `disabled_modules`. -/
def tickEach {σ : Type} (W : LuaModule σ) : List String → Host σ → List String → Host σ × List String
  | [], s, disabled => (s, disabled)
  | name :: rest, s, disabled =>
    if W.IsActive name s.lua then
      let s1 : Host σ :=
        { s with lua := W.InvokeEvent name "tick" s.lua, trace := s.trace ++ [Event.invokeEvent name "tick"] }
      if !W.IsActive name s1.lua then tickEach W rest s1 (disabled ++ [name])
      else tickEach W rest s1 disabled
    else tickEach W rest s (disabled ++ [name])

/-- The loop erasing every name of `disabled_modules` from `modules`. -/
def eraseEach : List String → List String → List String
  | [], modules => modules
  | name :: rest, modules =>
    if name ∈ modules then eraseEach rest (eraseKey name modules)
    else eraseEach rest modules

/-- One pass of the body of `while (modules.size() > 0)`. -/
def tickPass {σ : Type} (W : LuaModule σ) (s : Host σ) : Host σ :=
  let r := tickEach W s.modules s []
  { r.1 with modules := eraseEach r.2 r.1.modules, trace := r.1.trace ++ [Event.sleep 5] }

/-- The loop `while (modules.size() > 0)`, for at most `fuel` passes.  The flag
tells whether the loop was left (`true`) or is still running when the passes
are used up. -/
def tickLoop {σ : Type} (W : LuaModule σ) : Nat → Host σ → Bool × Host σ
  | fuel, s =>
    if s.modules.length > 0 then
      match fuel with
      | 0 => (false, s)
      | fuel' + 1 => tickLoop W fuel' (tickPass W s)
    else (true, s)

/-- How a run of `Main` stands after at most `fuel` tick passes. -/
inductive Outcome (σ : Type) where
  /-- `Main` returned `code`. -/
  | returned (code : Int) (s : Host σ)
  /-- An exception left `Main`. -/
  | uncaught (s : Host σ)
  /-- The tick loop is still running. -/
  | running (s : Host σ)

/-- The value `Main` returned, if it did. -/
def Outcome.code {σ : Type} : Outcome σ → Option Int
  | Outcome.returned code _ => some code
  | _ => none

/-- The state a run has reached. -/
def Outcome.host {σ : Type} : Outcome σ → Host σ
  | Outcome.returned _ s => s
  | Outcome.uncaught s => s
  | Outcome.running s => s

/-- The part of `Main` after the tick loop: the `exit` loop, `ClearModules`,
and the help topic when there was no argument at all. -/
def finish {σ : Type} (W : LuaModule σ) (arguments : List String) (s4 : Host σ) : Host σ :=
  let s5 := invokeAll W "exit" s4.modules s4
  let s6 := ClearModules W s5
  if arguments.length = 0 then (RenderHelp [] s6).2 else s6

/-- The tick loop of `Main` and what follows it, from a state `s3` at the
head of the loop. -/
def runTicks {σ : Type} (W : LuaModule σ) (fuel : Nat) (arguments : List String) (s3 : Host σ) :
    Outcome σ :=
  match tickLoop W fuel s3 with
  | (false, s4) => Outcome.running s4
  | (true, s4) => Outcome.returned 0 (finish W arguments s4)

/-- The part of `Main` after the argument loop. -/
def runModules {σ : Type} (W : LuaModule σ) (fuel : Nat) (arguments : List String) (s1 : Host σ) :
    Outcome σ :=
  let s2 := executeAll W s1.modules s1
  let s3 := invokeAll W "init" s2.modules s2
  runTicks W fuel arguments s3

/-- `Main(fileName, arguments)` started in state `s`, with at most `fuel`
passes of the tick loop. -/
def Main {σ : Type} (W : LuaModule σ) (fuel : Nat) (_fileName : String) (arguments : List String)
    (s : Host σ) : Outcome σ :=
  match argumentLoop W arguments.length arguments s with
  | Parsed.uncaught s1 => Outcome.uncaught s1
  | Parsed.done s1 => runModules W fuel arguments s1

/-! ## Sample modules for concrete runs -/

/-- Sample implementation: the state maps a module name to the number of `tick`
events it can still take; a module is active while that number is positive.
`budget name` is what a freshly built module gets, `none` makes the
constructor throw. -/
def sampleWorld (budget : String → Option Nat) : LuaModule (List (String × Nat)) where
  construct := fun name _ _ w =>
    match budget name with
    | none => (NewResult.threwException ("cannot open " ++ name), w)
    | some n => (NewResult.built, mapAssign name n w)
  IsActive := fun name w => decide (0 < (mapFind name w).getD 0)
  Execute := fun _ w => w
  InvokeEvent := fun name event w =>
    if event = "tick" then mapAssign name ((mapFind name w).getD 0 - 1) w else w
  destruct := fun _ w => w

/-! ## Classes of calls -/

/-- The call is an `Execute()`. -/
def Event.isExecute : Event → Bool
  | Event.execute _ => true
  | _ => false

/-- The call is an `InvokeEvent(event)` for the given event name. -/
def Event.isInvoke (event : String) : Event → Bool
  | Event.invokeEvent _ ev => ev == event
  | _ => false

/-- The call is an `InvokeEvent` on the given module, whatever the event. -/
def Event.isInvokeOn (name : String) : Event → Bool
  | Event.invokeEvent n _ => n == name
  | _ => false

/-- The call is a constructor call. -/
def Event.isConstruct : Event → Bool
  | Event.construct _ _ _ => true
  | _ => false

/-- The call is a handler dispatch. -/
def Event.isCall : Event → Bool
  | Event.call _ _ => true
  | _ => false

/-- The call belongs to argument processing: a dispatch and its return, a
constructor call, a `delete`, or output. -/
def Event.isLoading : Event → Bool
  | Event.call _ _ => true
  | Event.ret _ => true
  | Event.construct _ _ _ => true
  | Event.delete _ => true
  | Event.cout _ => true
  | Event.cerr _ => true
  | _ => false

/-- The call belongs to the tick loop: a `tick` dispatch or the sleep. -/
def Event.isTicking : Event → Bool
  | Event.invokeEvent _ ev => ev == "tick"
  | Event.sleep _ => true
  | _ => false

/-- The state `s2` continues `s1` by calls that all satisfy `p`. -/
def Extends {σ : Type} (p : Event → Bool) (s1 s2 : Host σ) : Prop :=
  ∃ es : List Event, s2.trace = s1.trace ++ es ∧ ∀ e ∈ es, p e = true

/-- The property `P` of states survives every elementary step of the loop of
`AddModules`: a constructor call for an unregistered name, the registration of
an unregistered name, a `delete`, and a line on `cerr`. -/
structure BatchInvariant {σ : Type} (W : LuaModule σ) (P : Host σ → Prop) : Prop where
  construct : ∀ (s : Host σ) (arg : String), P s → arg ∉ s.modules →
    P { s with lua := (W.construct arg true s.libraries s.lua).2,
               trace := s.trace ++ [Event.construct arg s.libraries (W.construct arg true s.libraries s.lua).1] }
  insert : ∀ (s : Host σ) (arg : String), P s → arg ∉ s.modules →
    P { s with modules := insertKey arg s.modules }
  delete : ∀ (s : Host σ) (name : String), P s →
    P { s with lua := W.destruct name s.lua, trace := s.trace ++ [Event.delete name] }
  cerr : ∀ (s : Host σ) (line : String), P s → P (s.emit [Event.cerr line])

/-- The property `P` of states survives every elementary step of argument
processing: those of `AddModules`, a change of `libraries`, `modules.clear()`,
and the logging of a dispatch, a return or lines on `cout`. -/
structure LoadInvariant {σ : Type} (W : LuaModule σ) (P : Host σ → Prop)
    extends BatchInvariant W P : Prop where
  libraries : ∀ (s : Host σ) (n : Int), P s → P { s with libraries := n }
  clear : ∀ (s : Host σ), P s → P { s with modules := [] }
  call : ∀ (s : Host σ) (flag : String) (args : List String), P s → P (s.emit [Event.call flag args])
  ret : ∀ (s : Host σ) (b : Bool), P s → P (s.emit [Event.ret b])
  cout : ∀ (s : Host σ) (lines : List String), P s → P (s.emit (lines.map Event.cout))

/-- Sample state at the head of the tick loop under `sampleWorld`: module `a`
can take one more `tick`, module `b` two. -/
def sampleTicking : Host (List (String × Nat)) :=
  { lua := [("a", 1), ("b", 2)], libraries := 0, modules := ["a", "b"], trace := [] }

/-- The call is a constructor call for the given name. -/
def Event.isConstructOf (name : String) : Event → Bool
  | Event.construct n _ _ => n == name
  | _ => false

/-! ## Notions the statements use -/

/-- The flag is `-l` or `--libraries`. -/
def isLibrariesFlag (flag : String) : Bool :=
  flag == "-l" || flag == "--libraries"

/-- The flag is `-m` or `--modules`. -/
def isModulesFlag (flag : String) : Bool :=
  flag == "-m" || flag == "--modules"

/-- The flag is `-h` or `--help`. -/
def isHelpFlag (flag : String) : Bool :=
  flag == "-h" || flag == "--help"

/-- The library bitmask that the flags dispatched so far have set: `cur`,
unless the call is the dispatch of `-l`/`--libraries` with one argument that
reads as an integer, which sets that integer. -/
def librariesStep (cur : Int) : Event → Int
  | Event.call flag [a] => if isLibrariesFlag flag then (stoi a).getD cur else cur
  | _ => cur

/-- The library bitmask set by the most recent `-l`/`--libraries` dispatch of
the trace, or `recommended` when the trace has none. -/
def librariesAfter (recommended : Int) (t : List Event) : Int :=
  t.foldl librariesStep recommended

/-- Every constructor call of the trace passes the library bitmask set by the
most recent `-l`/`--libraries` dispatch before it, or `recommended` when there
is none before it. -/
def ConstructsUseLatest (recommended : Int) (t : List Event) : Prop :=
  ∀ (t1 t2 : List Event) (name : String) (libs : Int) (r : NewResult),
    t = t1 ++ Event.construct name libs r :: t2 → libs = librariesAfter recommended t1

/-- The call belongs to what `Main` does after the argument loop: a call on a
registered module, the sleep, or a line on `cout`. -/
def Event.isRunning : Event → Bool
  | Event.execute _ => true
  | Event.invokeEvent _ _ => true
  | Event.sleep _ => true
  | Event.cout _ => true
  | _ => false

/-- The call is a call on a module: `Execute` or `InvokeEvent`. -/
def Event.isModuleCall : Event → Bool
  | Event.execute _ => true
  | Event.invokeEvent _ _ => true
  | _ => false

/-- The flag groups of a command line: every token beginning with `-` is a
flag, and the tokens that follow it up to the next token beginning with `-`
(or the end) are its arguments.  Tokens before the first flag belong to no
group. -/
def flagGroups : List String → List (String × List String)
  | [] => []
  | tok :: rest =>
    if isFlagToken tok then (tok, rest.takeWhile (fun t => !isFlagToken t)) :: flagGroups rest
    else flagGroups rest

/-- The flag is one of the six registered ones. -/
def registered (flag : String) : Bool :=
  isHelpFlag flag || isModulesFlag flag || isLibrariesFlag flag

/-- The handler of the flag returns `true` on these arguments: `-m`/`--modules`
with at least one argument, `-l`/`--libraries` with exactly one argument that
`std::stoi` reads. -/
def continues (flag : String) (args : List String) : Bool :=
  (isModulesFlag flag && !args.isEmpty) ||
    (isLibrariesFlag flag &&
      match args with
      | [a] => (stoi a).isSome
      | _ => false)

/-- Flag-by-flag processing of the groups of a command line: an unregistered
flag clears the registry and renders the help; otherwise the handler of the
flag is called with the arguments of the group, and processing goes on to the
next group when it returns `true`. -/
def dispatchGroups {σ : Type} (W : LuaModule σ) : List (String × List String) → Host σ → Parsed σ
  | [], s => Parsed.done s
  | (flag, args) :: rest, s =>
    match mapFind flag argumentFunctions with
    | none => Parsed.done (RenderHelp [] (ClearModules W s)).2
    | some fd =>
      let s1 := s.emit [Event.call flag args]
      match fd.function.run W args s1 with
      | none => Parsed.uncaught s1
      | some (result, s2) =>
        let s3 := s2.emit [Event.ret result]
        if !result then Parsed.done s3 else dispatchGroups W rest s3

/-- The call is one that processing an accepted flag can make: a dispatch and
its return, a constructor call, a `delete`, or a line on `cerr`. -/
def Event.isQuiet : Event → Bool
  | Event.call _ _ => true
  | Event.ret _ => true
  | Event.construct _ _ _ => true
  | Event.delete _ => true
  | Event.cerr _ => true
  | _ => false

/-- The constructor threw. -/
def NewResult.threw : NewResult → Bool
  | NewResult.threwException _ => true
  | NewResult.threwOther => true
  | _ => false

/-- The line `AddModules` writes to `cerr` when the constructor throws. -/
def NewResult.message : NewResult → String
  | NewResult.threwException what => what
  | _ => "A fatal error has occured."

/-- The call is a constructor call that did not yield an object. -/
def Event.isFailedConstruct : Event → Bool
  | Event.construct _ _ r => !(r == NewResult.built)
  | _ => false

/-- The calls made since the state `s`, in a state `s'` that continues it. -/
def Host.since {σ : Type} (s' s : Host σ) : List Event :=
  s'.trace.drop s.trace.length

/-- Sample implementation for scenario E: the constructor throws for
`scriptBad.lua`; every other module is built and can take one `tick`. -/
def scenarioE : LuaModule (List (String × Nat)) :=
  sampleWorld (fun n => if n = "scriptBad.lua" then none else some 1)

/-- The handler dispatches of a trace, in order: the flag and the argument
vector of every `it->second.function(args)` call. -/
def calls : List Event → List (String × List String)
  | [] => []
  | Event.call flag args :: rest => (flag, args) :: calls rest
  | _ :: rest => calls rest

/-- The flag groups whose handler gets called when the groups are taken from
left to right until an unregistered flag is met (it is not dispatched) or a
handler does not return `true` (it is the last one dispatched). -/
def dispatched : List (String × List String) → List (String × List String)
  | [] => []
  | (flag, args) :: rest =>
    if registered flag then
      (flag, args) :: (if continues flag args then dispatched rest else [])
    else []

/-- The dispatches a command line leads to: none when its first token is not
a flag, otherwise those of its flag groups. -/
def expectedDispatch : List String → List (String × List String)
  | [] => []
  | tok :: rest => if isFlagToken tok then dispatched (flagGroups (tok :: rest)) else []

/-- An exception left `Main`. -/
def Outcome.isUncaught {σ : Type} : Outcome σ → Bool
  | Outcome.uncaught _ => true
  | _ => false

/-- The call is a `delete`. -/
def Event.isDelete : Event → Bool
  | Event.delete _ => true
  | _ => false

/-! ## The capability snapshot (`XInputCapabilities.cpp`) -/

/-- Modelled from the spec: the fields of class `XInputCapabilities` (header
`XInputCapabilities.h` is not among the sources), as its constructors name
them.  The two device enumerations and the two flag sets are held as their
integer values; the eight `float` fields are values of a type `F` that is left
open, since the code only copies them. -/
structure XInputCapabilities (F : Type) where
  deviceType : Nat
  deviceSubType : Nat
  deviceFeatures : Nat
  buttons : Nat
  leftTrigger : F
  rightTrigger : F
  thumbLX : F
  thumbLY : F
  thumbRX : F
  thumbRY : F
  leftMotor : F
  rightMotor : F

/-- The default constructor.  `gamepadType` and `gamepadSubType` stand for the
enumerators `EXInputDeviceType_Gamepad` and `EXInputDeviceSubType_Gamepad`, and
`0` in `F` for the literal `0.0f`. -/
def XInputCapabilities.default {F : Type} [Zero F] (gamepadType gamepadSubType : Nat) :
    XInputCapabilities F :=
  { deviceType := gamepadType,
    deviceSubType := gamepadSubType,
    deviceFeatures := 0,
    buttons := 0,
    leftTrigger := 0,
    rightTrigger := 0,
    thumbLX := 0,
    thumbLY := 0,
    thumbRX := 0,
    thumbRY := 0,
    leftMotor := 0,
    rightMotor := 0 }

/-- The copy constructor. -/
def XInputCapabilities.copy {F : Type} (capabilities : XInputCapabilities F) :
    XInputCapabilities F :=
  { deviceType := capabilities.deviceType,
    deviceSubType := capabilities.deviceSubType,
    deviceFeatures := capabilities.deviceFeatures,
    buttons := capabilities.buttons,
    leftTrigger := capabilities.leftTrigger,
    rightTrigger := capabilities.rightTrigger,
    thumbLX := capabilities.thumbLX,
    thumbLY := capabilities.thumbLY,
    thumbRX := capabilities.thumbRX,
    thumbRY := capabilities.thumbRY,
    leftMotor := capabilities.leftMotor,
    rightMotor := capabilities.rightMotor }

/-- The constructor with twelve parameters. -/
def XInputCapabilities.make {F : Type} (_deviceType _deviceSubType _deviceFeatures _buttons : Nat)
    (_leftTrigger _rightTrigger _thumbLX _thumbLY _thumbRX _thumbRY _leftMotor _rightMotor : F) :
    XInputCapabilities F :=
  { deviceType := _deviceType,
    deviceSubType := _deviceSubType,
    deviceFeatures := _deviceFeatures,
    buttons := _buttons,
    leftTrigger := _leftTrigger,
    rightTrigger := _rightTrigger,
    thumbLX := _thumbLX,
    thumbLY := _thumbLY,
    thumbRX := _thumbRX,
    thumbRY := _thumbRY,
    leftMotor := _leftMotor,
    rightMotor := _rightMotor }

/-- `operator=`: the twelve assignments to the fields of `*this`, in source
order; the result is `*this`. -/
def XInputCapabilities.assign {F : Type} (self capabilities : XInputCapabilities F) :
    XInputCapabilities F :=
  let t1 := { self with deviceType := capabilities.deviceType }
  let t2 := { t1 with deviceSubType := capabilities.deviceSubType }
  let t3 := { t2 with deviceFeatures := capabilities.deviceFeatures }
  let t4 := { t3 with buttons := capabilities.buttons }
  let t5 := { t4 with leftTrigger := capabilities.leftTrigger }
  let t6 := { t5 with rightTrigger := capabilities.rightTrigger }
  let t7 := { t6 with thumbLX := capabilities.thumbLX }
  let t8 := { t7 with thumbLY := capabilities.thumbLY }
  let t9 := { t8 with thumbRX := capabilities.thumbRX }
  let t10 := { t9 with thumbRY := capabilities.thumbRY }
  let t11 := { t10 with leftMotor := capabilities.leftMotor }
  { t11 with rightMotor := capabilities.rightMotor }

/-- Sample implementation for a batch with one bad script: the constructor
throws for `bad.lua`; every other module is built and can take one `tick`. -/
def badLuaWorld : LuaModule (List (String × Nat)) :=
  sampleWorld (fun n => if n = "bad.lua" then none else some 1)

/-! ## Notions for the tick passes -/

/-- The Lua state in which the turn of `name` comes, in the tick pass that
starts in `s`: the dispatch loop has dealt with the modules registered before
`name`. -/
def turnState {σ : Type} (W : LuaModule σ) (name : String) (s : Host σ) : σ :=
  (tickEach W (s.modules.takeWhile (fun n => n != name)) s []).1.lua

/-- The Lua state right after the turn of `name`, given the state `w` in which
the turn came: a module found active has received `tick`, one found inactive
has been left alone. -/
def afterTurn {σ : Type} (W : LuaModule σ) (name : String) (w : σ) : σ :=
  if W.IsActive name w then W.InvokeEvent name "tick" w else w

/-- The number of `InvokeEvent("tick")` calls on `name` among the calls. -/
def tickCount (name : String) (es : List Event) : Nat :=
  es.countP (fun e => e == Event.invokeEvent name "tick")

/-- The number of tick passes among the calls: every pass ends with the
sleep. -/
def passCount (es : List Event) : Nat :=
  es.countP (fun e => e == Event.sleep 5)

/-- In the tick passes that start in `s`, the module `name` needs `k` tick
invocations to become inactive: at each of its first `k` turns it is found
active, after each of the first `k - 1` tick invocations it is still active,
and after the `k`-th it is inactive.  For `k = 0` it is found inactive at its
first turn. -/
def StopsAtTick {σ : Type} (W : LuaModule σ) (name : String) (k : Nat) (s : Host σ) : Prop :=
  (∀ p, p < k →
    W.IsActive name (turnState W name ((tickPass W)^[p] s)) = true ∧
    W.IsActive name (W.InvokeEvent name "tick" (turnState W name ((tickPass W)^[p] s)))
      = decide (p + 1 < k)) ∧
  (k = 0 → W.IsActive name (turnState W name s) = false)

/-- The largest number of tick invocations a registered module needs, where
`need` gives the number for each module; at least one when a module is
registered, and zero for an empty registry. -/
def passesNeeded (need : String → Nat) (modules : List String) : Nat :=
  if modules = [] then 0 else max 1 ((modules.map need).foldr max 0)

/-- The state at the head of the tick loop, when the argument loop has ended in
`s1`: every registered module has been executed and has received `init`. -/
def tickHead {σ : Type} (W : LuaModule σ) (s1 : Host σ) : Host σ :=
  invokeAll W "init" (executeAll W s1.modules s1).modules (executeAll W s1.modules s1)

/-- Sample implementation that keeps a journal: the state lists, oldest first,
every constructor call, `Execute()`, `InvokeEvent` and `delete` with the name
of its module; a module is active until it has received a `tick`. -/
def journalWorld : LuaModule (List (String × String)) where
  construct := fun name _ _ w => (NewResult.built, w ++ [(name, "new")])
  IsActive := fun name w => decide ((name, "tick") ∉ w)
  Execute := fun name w => w ++ [(name, "Execute")]
  InvokeEvent := fun name event w => w ++ [(name, event)]
  destruct := fun name w => w ++ [(name, "delete")]

/-! # Theorems -/



/-! ## Basic facts about the trace -/

theorem Extends.refl {σ : Type} (p : Event → Bool) (s : Host σ) : Extends p s s :=
  ⟨[], by simp, by simp⟩

theorem Extends.trans {σ : Type} {p : Event → Bool} {s1 s2 s3 : Host σ}
    (h12 : Extends p s1 s2) (h23 : Extends p s2 s3) : Extends p s1 s3 := by
  obtain ⟨es, he, hp⟩ := h12
  obtain ⟨fs, hf, hq⟩ := h23
  refine ⟨es ++ fs, by rw [hf, he, List.append_assoc], ?_⟩
  intro e hmem
  rcases List.mem_append.mp hmem with h | h
  · exact hp e h
  · exact hq e h

theorem Extends.mono {σ : Type} {p q : Event → Bool} {s1 s2 : Host σ}
    (hpq : ∀ e, p e = true → q e = true) (h : Extends p s1 s2) : Extends q s1 s2 := by
  obtain ⟨es, he, hp⟩ := h
  exact ⟨es, he, fun e hmem => hpq e (hp e hmem)⟩

theorem Extends.of_trace {σ : Type} {p : Event → Bool} {s1 s2 : Host σ} (es : List Event)
    (he : s2.trace = s1.trace ++ es) (hp : ∀ e ∈ es, p e = true) : Extends p s1 s2 :=
  ⟨es, he, hp⟩

/-! ## The simple loops -/

theorem executeAll_trace {σ : Type} (W : LuaModule σ) (l : List String) (s : Host σ) :
    (executeAll W l s).trace = s.trace ++ l.map Event.execute := by
  induction l generalizing s with
  | nil => simp [executeAll]
  | cons name rest ih => simp [executeAll, ih]

theorem executeAll_modules {σ : Type} (W : LuaModule σ) (l : List String) (s : Host σ) :
    (executeAll W l s).modules = s.modules := by
  induction l generalizing s with
  | nil => simp [executeAll]
  | cons name rest ih => simp [executeAll, ih]

theorem executeAll_libraries {σ : Type} (W : LuaModule σ) (l : List String) (s : Host σ) :
    (executeAll W l s).libraries = s.libraries := by
  induction l generalizing s with
  | nil => simp [executeAll]
  | cons name rest ih => simp [executeAll, ih]

theorem invokeAll_trace {σ : Type} (W : LuaModule σ) (event : String) (l : List String)
    (s : Host σ) :
    (invokeAll W event l s).trace = s.trace ++ l.map (fun n => Event.invokeEvent n event) := by
  induction l generalizing s with
  | nil => simp [invokeAll]
  | cons name rest ih => simp [invokeAll, ih]

theorem invokeAll_modules {σ : Type} (W : LuaModule σ) (event : String) (l : List String)
    (s : Host σ) : (invokeAll W event l s).modules = s.modules := by
  induction l generalizing s with
  | nil => simp [invokeAll]
  | cons name rest ih => simp [invokeAll, ih]

theorem invokeAll_libraries {σ : Type} (W : LuaModule σ) (event : String) (l : List String)
    (s : Host σ) : (invokeAll W event l s).libraries = s.libraries := by
  induction l generalizing s with
  | nil => simp [invokeAll]
  | cons name rest ih => simp [invokeAll, ih]

theorem deleteAll_trace {σ : Type} (W : LuaModule σ) (l : List String) (s : Host σ) :
    (deleteAll W l s).trace = s.trace ++ l.map Event.delete := by
  induction l generalizing s with
  | nil => simp [deleteAll]
  | cons name rest ih => simp [deleteAll, ih]

theorem deleteAll_libraries {σ : Type} (W : LuaModule σ) (l : List String) (s : Host σ) :
    (deleteAll W l s).libraries = s.libraries := by
  induction l generalizing s with
  | nil => simp [deleteAll]
  | cons name rest ih => simp [deleteAll, ih]

theorem ClearModules_trace {σ : Type} (W : LuaModule σ) (s : Host σ) :
    (ClearModules W s).trace = s.trace ++ s.modules.map Event.delete := by
  simp [ClearModules, deleteAll_trace]

theorem ClearModules_modules {σ : Type} (W : LuaModule σ) (s : Host σ) :
    (ClearModules W s).modules = [] := rfl

theorem ClearModules_libraries {σ : Type} (W : LuaModule σ) (s : Host σ) :
    (ClearModules W s).libraries = s.libraries := by
  simp [ClearModules, deleteAll_libraries]

theorem RenderHelp_trace {σ : Type} (args : List String) (s : Host σ) :
    (RenderHelp args s).2.trace = s.trace ++ helpTopic := rfl

theorem RenderHelp_modules {σ : Type} (args : List String) (s : Host σ) :
    (RenderHelp args s).2.modules = s.modules := rfl

theorem RenderHelp_libraries {σ : Type} (args : List String) (s : Host σ) :
    (RenderHelp args s).2.libraries = s.libraries := rfl

theorem helpTopic_cout : ∀ e ∈ helpTopic, ∃ line, e = Event.cout line := by
  intro e he
  simp only [helpTopic, List.mem_map] at he
  obtain ⟨line, _, rfl⟩ := he
  exact ⟨line, rfl⟩

/-! ## The tick loop -/

theorem tickEach_modules {σ : Type} (W : LuaModule σ) (l : List String) (s : Host σ)
    (d : List String) : (tickEach W l s d).1.modules = s.modules := by
  induction l generalizing s d with
  | nil => simp [tickEach]
  | cons name rest ih =>
    simp only [tickEach]
    split
    · split <;> simp [ih]
    · simp [ih]

theorem tickEach_libraries {σ : Type} (W : LuaModule σ) (l : List String) (s : Host σ)
    (d : List String) : (tickEach W l s d).1.libraries = s.libraries := by
  induction l generalizing s d with
  | nil => simp [tickEach]
  | cons name rest ih =>
    simp only [tickEach]
    split
    · split <;> simp [ih]
    · simp [ih]

/-- A tick dispatch pass only calls `InvokeEvent("tick")`, and only on the
modules it iterates over. -/
theorem tickEach_trace {σ : Type} (W : LuaModule σ) (l : List String) (s : Host σ)
    (d : List String) :
    ∃ es, (tickEach W l s d).1.trace = s.trace ++ es ∧
      ∀ e ∈ es, ∃ n, n ∈ l ∧ e = Event.invokeEvent n "tick" := by
  induction l generalizing s d with
  | nil => exact ⟨[], by simp [tickEach], by simp⟩
  | cons name rest ih =>
    simp only [tickEach]
    split
    · have key : ∀ (s' : Host σ) (d' : List String),
          s'.trace = s.trace ++ [Event.invokeEvent name "tick"] →
          ∃ es, (tickEach W rest s' d').1.trace = s.trace ++ es ∧
            ∀ e ∈ es, ∃ n, n ∈ name :: rest ∧ e = Event.invokeEvent n "tick" := by
        intro s' d' hs'
        obtain ⟨es, he, hp⟩ := ih s' d'
        refine ⟨Event.invokeEvent name "tick" :: es, by simp [he, hs'], ?_⟩
        intro e hmem
        rcases List.mem_cons.mp hmem with h | h
        · exact ⟨name, by simp, h⟩
        · obtain ⟨n, hn, hne⟩ := hp e h
          exact ⟨n, List.mem_cons_of_mem _ hn, hne⟩
      split
      · exact key _ _ rfl
      · exact key _ _ rfl
    · obtain ⟨es, he, hp⟩ := ih s (d ++ [name])
      refine ⟨es, he, ?_⟩
      intro e hmem
      obtain ⟨n, hn, hne⟩ := hp e hmem
      exact ⟨n, List.mem_cons_of_mem _ hn, hne⟩

theorem mem_eraseKey {k x : String} {l : List String} (h : x ∈ eraseKey k l) : x ∈ l := by
  induction l with
  | nil => simp [eraseKey] at h
  | cons a rest ih =>
    simp only [eraseKey] at h
    split at h
    · exact List.mem_cons_of_mem _ h
    · rcases List.mem_cons.mp h with h | h
      · simp [h]
      · exact List.mem_cons_of_mem _ (ih h)

theorem mem_eraseEach {d : List String} {x : String} {l : List String}
    (h : x ∈ eraseEach d l) : x ∈ l := by
  induction d generalizing l with
  | nil => simpa [eraseEach] using h
  | cons a rest ih =>
    simp only [eraseEach] at h
    split at h
    · exact mem_eraseKey (ih h)
    · exact ih h

theorem tickPass_modules_subset {σ : Type} (W : LuaModule σ) (s : Host σ) {x : String}
    (h : x ∈ (tickPass W s).modules) : x ∈ s.modules := by
  simp only [tickPass] at h
  have := mem_eraseEach h
  rwa [tickEach_modules] at this

theorem tickPass_libraries {σ : Type} (W : LuaModule σ) (s : Host σ) :
    (tickPass W s).libraries = s.libraries := by
  simp [tickPass, tickEach_libraries]

/-- One tick pass calls `InvokeEvent("tick")` on registered modules only, then
sleeps. -/
theorem tickPass_trace {σ : Type} (W : LuaModule σ) (s : Host σ) :
    ∃ es, (tickPass W s).trace = s.trace ++ es ∧
      ∀ e ∈ es, e = Event.sleep 5 ∨ ∃ n, n ∈ s.modules ∧ e = Event.invokeEvent n "tick" := by
  obtain ⟨es, he, hp⟩ := tickEach_trace W s.modules s []
  refine ⟨es ++ [Event.sleep 5], by simp [tickPass, he], ?_⟩
  intro e hmem
  rcases List.mem_append.mp hmem with h | h
  · exact Or.inr (hp e h)
  · exact Or.inl (by simpa using h)

/-- The tick loop calls `InvokeEvent("tick")` on modules registered at its
start only, and sleeps. -/
theorem tickLoop_trace {σ : Type} (W : LuaModule σ) (fuel : Nat) (s : Host σ) :
    ∃ es, (tickLoop W fuel s).2.trace = s.trace ++ es ∧
      ∀ e ∈ es, e = Event.sleep 5 ∨ ∃ n, n ∈ s.modules ∧ e = Event.invokeEvent n "tick" := by
  induction fuel generalizing s with
  | zero =>
    refine ⟨[], ?_, by simp⟩
    unfold tickLoop
    split <;> simp
  | succ fuel ih =>
    unfold tickLoop
    split
    · obtain ⟨es, he, hp⟩ := tickPass_trace W s
      obtain ⟨fs, hf, hq⟩ := ih (tickPass W s)
      refine ⟨es ++ fs, by simp [hf, he], ?_⟩
      intro e hmem
      rcases List.mem_append.mp hmem with h | h
      · exact hp e h
      · rcases hq e h with h' | ⟨n, hn, hne⟩
        · exact Or.inl h'
        · exact Or.inr ⟨n, tickPass_modules_subset W s hn, hne⟩
    · exact ⟨[], by simp, by simp⟩

theorem tickLoop_modules_subset {σ : Type} (W : LuaModule σ) (fuel : Nat) (s : Host σ)
    {x : String} (h : x ∈ (tickLoop W fuel s).2.modules) : x ∈ s.modules := by
  induction fuel generalizing s with
  | zero =>
    unfold tickLoop at h
    split at h <;> simpa using h
  | succ fuel ih =>
    unfold tickLoop at h
    split at h
    · exact tickPass_modules_subset W s (ih _ h)
    · simpa using h

theorem tickLoop_libraries {σ : Type} (W : LuaModule σ) (fuel : Nat) (s : Host σ) :
    (tickLoop W fuel s).2.libraries = s.libraries := by
  induction fuel generalizing s with
  | zero =>
    unfold tickLoop
    split <;> simp
  | succ fuel ih =>
    unfold tickLoop
    split
    · simp [ih, tickPass_libraries]
    · simp

/-- When the tick loop is left, the registry is empty. -/
theorem tickLoop_left_modules {σ : Type} (W : LuaModule σ) (fuel : Nat) (s : Host σ)
    (h : (tickLoop W fuel s).1 = true) : (tickLoop W fuel s).2.modules = [] := by
  induction fuel generalizing s with
  | zero =>
    unfold tickLoop at h ⊢
    split
    · rename_i hpos
      simp [hpos] at h
    · rename_i hpos
      simpa using hpos
  | succ fuel ih =>
    unfold tickLoop at h ⊢
    split
    · rename_i hpos
      simp only [hpos, if_true] at h
      exact ih _ h
    · rename_i hpos
      simpa using hpos

/-! ## Invariants of argument processing -/

theorem BatchInvariant.of_addEach {σ : Type} {W : LuaModule σ} {P : Host σ → Prop}
    (inv : BatchInvariant W P) (args : List String) (s : Host σ) (h : P s) :
    P (addEach W args s) := by
  induction args generalizing s with
  | nil => simpa [addEach] using h
  | cons arg rest ih =>
    unfold addEach
    split
    · exact ih s h
    · rename_i hnot
      have h1 := inv.construct s arg h hnot
      simp only []
      split
      · split
        · exact ih _ (inv.insert _ arg h1 hnot)
        · exact ih _ (inv.delete _ arg h1)
      · exact h1
      · exact inv.cerr _ _ h1
      · exact inv.cerr _ _ h1

theorem BatchInvariant.of_AddModules {σ : Type} {W : LuaModule σ} {P : Host σ → Prop}
    (inv : BatchInvariant W P) (args : List String) (s : Host σ) (h : P s) :
    P (AddModules W args s).2 := by
  unfold AddModules
  split
  · exact inv.of_addEach args s h
  · exact h

theorem LoadInvariant.of_deleteAll {σ : Type} {W : LuaModule σ} {P : Host σ → Prop}
    (inv : LoadInvariant W P) (l : List String) (s : Host σ) (h : P s) :
    P (deleteAll W l s) := by
  induction l generalizing s with
  | nil => simpa [deleteAll] using h
  | cons name rest ih => exact ih _ (inv.delete s name h)

theorem LoadInvariant.of_ClearModules {σ : Type} {W : LuaModule σ} {P : Host σ → Prop}
    (inv : LoadInvariant W P) (s : Host σ) (h : P s) : P (ClearModules W s) :=
  inv.clear _ (inv.of_deleteAll s.modules s h)

theorem LoadInvariant.of_RenderHelp {σ : Type} {W : LuaModule σ} {P : Host σ → Prop}
    (inv : LoadInvariant W P) (args : List String) (s : Host σ) (h : P s) :
    P (RenderHelp args s).2 := by
  exact inv.cout s _ h

theorem LoadInvariant.of_run {σ : Type} {W : LuaModule σ} {P : Host σ → Prop}
    (inv : LoadInvariant W P) (f : Handler) (args : List String) (s : Host σ) (h : P s)
    (b : Bool) (s2 : Host σ) (hrun : f.run W args s = some (b, s2)) : P s2 := by
  cases f with
  | renderHelp =>
    simp only [Handler.run, Option.some.injEq] at hrun
    have hs : s2 = (RenderHelp args s).2 := by rw [hrun]
    rw [hs]
    exact inv.of_RenderHelp args s h
  | addModules =>
    simp only [Handler.run, Option.some.injEq] at hrun
    have hs : s2 = (AddModules W args s).2 := by rw [hrun]
    rw [hs]
    exact inv.toBatchInvariant.of_AddModules args s h
  | changeLibraries =>
    simp only [Handler.run, ChangeLibraries] at hrun
    split at hrun
    · split at hrun
      · simp only [Option.some.injEq, Prod.mk.injEq] at hrun
        rw [← hrun.2]
        exact inv.libraries s _ h
      · simp at hrun
    · simp only [Option.some.injEq, Prod.mk.injEq] at hrun
      rw [← hrun.2]
      exact h

theorem LoadInvariant.of_argumentLoop {σ : Type} {W : LuaModule σ} {P : Host σ → Prop}
    (inv : LoadInvariant W P) (fuel : Nat) (toks : List String) (s : Host σ) (h : P s) :
    P (argumentLoop W fuel toks s).host := by
  induction fuel generalizing toks s with
  | zero => simpa [argumentLoop, Parsed.host] using h
  | succ fuel ih =>
    cases toks with
    | nil => simpa [argumentLoop, Parsed.host] using h
    | cons arg rest =>
      have hhelp : P (RenderHelp ([] : List String) (ClearModules W s)).2 :=
        inv.of_RenderHelp _ _ (inv.of_ClearModules s h)
      unfold argumentLoop
      split
      · split
        · exact hhelp
        · rename_i fd _
          have h1 := inv.call s arg (collectArgs rest []).1 h
          simp only []
          split
          · exact h1
          · rename_i result s2 hrun
            have h3 := inv.ret s2 result (inv.of_run fd.function _ _ h1 result s2 hrun)
            split
            · exact h3
            · split
              · exact h3
              · exact ih _ _ h3
      · exact hhelp

/-! ## The registry holds every name at most once -/

theorem mem_insertKey_self (k : String) (l : List String) : k ∈ insertKey k l := by
  induction l with
  | nil => simp [insertKey]
  | cons a rest ih =>
    simp only [insertKey]
    split
    · simp
    · split
      · exact List.mem_cons_of_mem _ ih
      · simp

theorem mem_of_mem_insertKey {k x : String} {l : List String} (h : x ∈ insertKey k l) :
    x = k ∨ x ∈ l := by
  induction l with
  | nil => simpa [insertKey] using h
  | cons a rest ih =>
    simp only [insertKey] at h
    split at h
    · simpa using h
    · split at h
      · rcases List.mem_cons.mp h with h | h
        · exact Or.inr (by simp [h])
        · rcases ih h with h | h
          · exact Or.inl h
          · exact Or.inr (List.mem_cons_of_mem _ h)
      · rcases List.mem_cons.mp h with h | h
        · exact Or.inl h
        · exact Or.inr (List.mem_cons_of_mem _ h)

theorem nodup_insertKey {k : String} {l : List String} (hk : k ∉ l) (hl : l.Nodup) :
    (insertKey k l).Nodup := by
  induction l with
  | nil => simp [insertKey]
  | cons a rest ih =>
    have hka : k ≠ a := fun h => hk (by simp [h])
    have hkr : k ∉ rest := fun h => hk (List.mem_cons_of_mem _ h)
    have har : a ∉ rest := (List.nodup_cons.mp hl).1
    have hr : rest.Nodup := (List.nodup_cons.mp hl).2
    simp only [insertKey]
    split
    · exact List.nodup_cons.mpr ⟨hk, hl⟩
    · split
      · refine List.nodup_cons.mpr ⟨?_, ih hkr hr⟩
        intro hmem
        rcases mem_of_mem_insertKey hmem with h | h
        · exact hka h.symm
        · exact har h
      · exact List.nodup_cons.mpr ⟨hkr, hr⟩

/-- Argument processing keeps the registry free of duplicate names. -/
theorem nodup_loadInvariant {σ : Type} (W : LuaModule σ) :
    LoadInvariant W (fun s => s.modules.Nodup) where
  construct := fun _ _ h _ => h
  insert := fun _ _ h hnot => nodup_insertKey hnot h
  delete := fun _ _ h => h
  cerr := fun _ _ h => h
  libraries := fun _ _ h => h
  clear := fun _ _ => List.nodup_nil
  call := fun _ _ _ h => h
  ret := fun _ _ h => h
  cout := fun _ _ h => h

theorem Extends.emit {σ : Type} {p : Event → Bool} {s0 s : Host σ} (h : Extends p s0 s)
    (s' : Host σ) (es : List Event) (hs' : s'.trace = s.trace ++ es) (hp : ∀ e ∈ es, p e = true) :
    Extends p s0 s' :=
  h.trans ⟨es, hs', hp⟩

/-- Argument processing only makes calls of the loading kind. -/
theorem loading_loadInvariant {σ : Type} (W : LuaModule σ) (s0 : Host σ) :
    LoadInvariant W (fun s => Extends Event.isLoading s0 s) where
  construct := fun _ _ h _ => h.emit _ _ rfl (by simp [Event.isLoading])
  insert := fun _ _ h _ => h.emit _ [] (by simp) (by simp)
  delete := fun _ _ h => h.emit _ _ rfl (by simp [Event.isLoading])
  cerr := fun _ _ h => h.emit _ _ rfl (by simp [Event.isLoading])
  libraries := fun _ _ h => h.emit _ [] (by simp) (by simp)
  clear := fun _ h => h.emit _ [] (by simp) (by simp)
  call := fun _ _ _ h => h.emit _ _ rfl (by simp [Event.isLoading])
  ret := fun _ _ h => h.emit _ _ rfl (by simp [Event.isLoading])
  cout := fun _ _ h => h.emit _ _ rfl (by simp [Event.isLoading])

theorem argumentLoop_loading {σ : Type} (W : LuaModule σ) (fuel : Nat) (toks : List String)
    (s : Host σ) : Extends Event.isLoading s (argumentLoop W fuel toks s).host :=
  (loading_loadInvariant W s).of_argumentLoop fuel toks s (Extends.refl _ s)

theorem argumentLoop_nodup {σ : Type} (W : LuaModule σ) (fuel : Nat) (toks : List String)
    (s : Host σ) (h : s.modules.Nodup) : (argumentLoop W fuel toks s).host.modules.Nodup :=
  (nodup_loadInvariant W).of_argumentLoop fuel toks s h

/-! ## What follows the argument loop -/

/-- After the tick loop has been left, `Main` makes no call on any module: it
only writes the help topic when there was no argument. -/
theorem finish_trace {σ : Type} (W : LuaModule σ) (arguments : List String) (s4 : Host σ)
    (h : s4.modules = []) :
    ∃ es, (finish W arguments s4).trace = s4.trace ++ es ∧
      ∀ e ∈ es, arguments = [] ∧ ∃ line, e = Event.cout line := by
  unfold finish
  simp only [h]
  split
  · rename_i hlen
    exact ⟨helpTopic, by simp [RenderHelp_trace, ClearModules_trace, invokeAll, h],
      fun e he => ⟨List.length_eq_zero.mp hlen, helpTopic_cout e he⟩⟩
  · exact ⟨[], by simp [ClearModules_trace, invokeAll, h], by simp⟩

/-- The tick loop and what follows it only make tick dispatches on modules
registered at its start, sleeps and output. -/
theorem runTicks_trace {σ : Type} (W : LuaModule σ) (fuel : Nat) (arguments : List String)
    (s3 : Host σ) :
    ∃ es, (runTicks W fuel arguments s3).host.trace = s3.trace ++ es ∧
      ∀ e ∈ es, e = Event.sleep 5 ∨ (∃ n, n ∈ s3.modules ∧ e = Event.invokeEvent n "tick")
        ∨ (arguments = [] ∧ ∃ line, e = Event.cout line) := by
  obtain ⟨es, he, hp⟩ := tickLoop_trace W fuel s3
  have hleft := tickLoop_left_modules W fuel s3
  unfold runTicks
  generalize tickLoop W fuel s3 = r at he hp hleft
  obtain ⟨b, s4⟩ := r
  cases b with
  | false =>
    refine ⟨es, by simpa [Outcome.host] using he, ?_⟩
    intro e hmem
    rcases hp e hmem with h | h
    · exact Or.inl h
    · exact Or.inr (Or.inl h)
  | true =>
    obtain ⟨fs, hf, hq⟩ := finish_trace W arguments s4 (hleft rfl)
    refine ⟨es ++ fs, ?_, ?_⟩
    · simp only [Outcome.host, hf]
      simp only [] at he
      rw [he]
      simp
    · intro e hmem
      rcases List.mem_append.mp hmem with h | h
      · rcases hp e h with h | h
        · exact Or.inl h
        · exact Or.inr (Or.inl h)
      · exact Or.inr (Or.inr (hq e h))

/-- The calls of `runModules`: one `Execute` per registered module, then one
`InvokeEvent("init")` per registered module, then tick dispatches on registered
modules, sleeps and output only. -/
theorem runModules_trace {σ : Type} (W : LuaModule σ) (fuel : Nat) (arguments : List String)
    (s1 : Host σ) :
    ∃ later, (runModules W fuel arguments s1).host.trace =
        s1.trace ++ s1.modules.map Event.execute
          ++ s1.modules.map (fun n => Event.invokeEvent n "init") ++ later ∧
      ∀ e ∈ later, e = Event.sleep 5 ∨ (∃ n, n ∈ s1.modules ∧ e = Event.invokeEvent n "tick")
        ∨ (arguments = [] ∧ ∃ line, e = Event.cout line) := by
  have hm : (invokeAll W "init" (executeAll W s1.modules s1).modules
      (executeAll W s1.modules s1)).modules = s1.modules := by
    rw [invokeAll_modules, executeAll_modules]
  have ht : (invokeAll W "init" (executeAll W s1.modules s1).modules
      (executeAll W s1.modules s1)).trace = s1.trace ++ s1.modules.map Event.execute
          ++ s1.modules.map (fun n => Event.invokeEvent n "init") := by
    rw [invokeAll_trace, executeAll_trace, executeAll_modules]
  obtain ⟨es, he, hp⟩ := runTicks_trace W fuel arguments
    (invokeAll W "init" (executeAll W s1.modules s1).modules (executeAll W s1.modules s1))
  rw [ht] at he
  simp only [hm] at hp
  exact ⟨es, he, hp⟩

/-! ## Loading a name that is registered -/

/-- Keys that compare neither way are equal. -/
theorem key_eq_of_not_lt {a b : String} (h1 : ¬ a.data < b.data) (h2 : ¬ b.data < a.data) :
    a = b :=
  String.ext (le_antisymm (not_lt.mp h2) (not_lt.mp h1))

theorem mem_insertKey_of_mem {k x : String} {l : List String} (h : x ∈ l) :
    x ∈ insertKey k l := by
  induction l with
  | nil => simp at h
  | cons a rest ih =>
    simp only [insertKey]
    split
    · exact List.mem_cons_of_mem _ h
    · split
      · rcases List.mem_cons.mp h with h | h
        · simp [h]
        · exact List.mem_cons_of_mem _ (ih h)
      · rename_i h1 h2
        have hka : k = a := key_eq_of_not_lt h1 h2
        rcases List.mem_cons.mp h with h | h
        · simp [h, hka]
        · exact List.mem_cons_of_mem _ h

/-- The loop of `AddModules` over `pre ++ post` either stops within `pre`, or
goes through `pre` and carries on with `post`. -/
theorem addEach_append {σ : Type} (W : LuaModule σ) (pre post : List String) (s : Host σ) :
    addEach W (pre ++ post) s = addEach W pre s ∨
      addEach W (pre ++ post) s = addEach W post (addEach W pre s) := by
  induction pre generalizing s with
  | nil => exact Or.inr rfl
  | cons arg rest ih =>
    simp only [List.cons_append, addEach]
    by_cases hmem : arg ∈ s.modules
    · simp only [hmem, if_true]
      exact ih s
    · simp only [hmem, if_false]
      cases hres : (W.construct arg true s.libraries s.lua).1 with
      | built =>
        simp only []
        by_cases hact : W.IsActive arg (W.construct arg true s.libraries s.lua).2 = true
        · simp only [hact, if_true]
          exact ih _
        · simp only [hact]
          exact ih _
      | null => exact Or.inl rfl
      | threwException what => exact Or.inl rfl
      | threwOther => exact Or.inl rfl

/-- While a name is registered, a batch neither unregisters it nor calls the
constructor for it. -/
theorem registered_batchInvariant {σ : Type} (W : LuaModule σ) (name : String) (s0 : Host σ) :
    BatchInvariant W (fun s =>
      name ∈ s.modules ∧ Extends (fun e => !e.isConstructOf name) s0 s) where
  construct := fun s arg h hnot => by
    refine ⟨h.1, h.2.emit _ _ rfl ?_⟩
    have hne : arg ≠ name := fun heq => hnot (heq ▸ h.1)
    simpa [Event.isConstructOf] using hne
  insert := fun _ _ h _ => ⟨mem_insertKey_of_mem h.1, h.2.emit _ [] (by simp) (by simp)⟩
  delete := fun _ _ h => ⟨h.1, h.2.emit _ _ rfl (by simp [Event.isConstructOf])⟩
  cerr := fun _ _ h => ⟨h.1, h.2.emit _ _ rfl (by simp [Event.isConstructOf])⟩

/-- A batch keeps the registry free of duplicate names. -/
theorem nodup_batchInvariant {σ : Type} (W : LuaModule σ) :
    BatchInvariant W (fun s => s.modules.Nodup) :=
  (nodup_loadInvariant W).toBatchInvariant

/-! ## The dispatch table -/

theorem argumentFunctions_eq :
    argumentFunctions =
      [ ("--help", ⟨Handler.renderHelp, "", false⟩),
        ("--libraries", ⟨Handler.changeLibraries, "", false⟩),
        ("--modules", ⟨Handler.addModules, "", false⟩),
        ("-h", ⟨Handler.renderHelp, "Shows this help topic", true⟩),
        ("-l", ⟨Handler.changeLibraries, "Change the required Lua libraries", true⟩),
        ("-m", ⟨Handler.addModules, "Add Lua modules to load", true⟩) ] := by
  decide

/-- The handler a flag of the table is bound to. -/
theorem mapFind_argumentFunctions {arg : String} {fd : FunctionData}
    (h : mapFind arg argumentFunctions = some fd) :
    (isHelpFlag arg = true ∧ fd.function = Handler.renderHelp) ∨
    (isModulesFlag arg = true ∧ fd.function = Handler.addModules) ∨
    (isLibrariesFlag arg = true ∧ fd.function = Handler.changeLibraries) := by
  rw [argumentFunctions_eq] at h
  simp only [mapFind] at h
  split at h
  · rename_i heq
    simp only [Option.some.injEq] at h
    subst h; subst heq
    exact Or.inl ⟨by decide, rfl⟩
  split at h
  · rename_i heq
    simp only [Option.some.injEq] at h
    subst h; subst heq
    exact Or.inr (Or.inr ⟨by decide, rfl⟩)
  split at h
  · rename_i heq
    simp only [Option.some.injEq] at h
    subst h; subst heq
    exact Or.inr (Or.inl ⟨by decide, rfl⟩)
  split at h
  · rename_i heq
    simp only [Option.some.injEq] at h
    subst h; subst heq
    exact Or.inl ⟨by decide, rfl⟩
  split at h
  · rename_i heq
    simp only [Option.some.injEq] at h
    subst h; subst heq
    exact Or.inr (Or.inr ⟨by decide, rfl⟩)
  split at h
  · rename_i heq
    simp only [Option.some.injEq] at h
    subst h; subst heq
    exact Or.inr (Or.inl ⟨by decide, rfl⟩)
  · simp at h

/-- Induction over the argument loop: `P` holds at the head of every
iteration, `R` of the state the loop ends in. -/
theorem argumentLoop_induct {σ : Type} (W : LuaModule σ) (P R : Host σ → Prop)
    (hdone : ∀ s, P s → R s)
    (hhelp : ∀ s, P s → R (RenderHelp ([] : List String) (ClearModules W s)).2)
    (hthrow : ∀ s arg fd args, P s → mapFind arg argumentFunctions = some fd →
      fd.function.run W args (s.emit [Event.call arg args]) = none →
      R (s.emit [Event.call arg args]))
    (hstop : ∀ s arg fd args s2, P s → mapFind arg argumentFunctions = some fd →
      fd.function.run W args (s.emit [Event.call arg args]) = some (false, s2) →
      R (s2.emit [Event.ret false]))
    (hstep : ∀ s arg fd args s2, P s → mapFind arg argumentFunctions = some fd →
      fd.function.run W args (s.emit [Event.call arg args]) = some (true, s2) →
      P (s2.emit [Event.ret true]))
    (fuel : Nat) (toks : List String) (s : Host σ) (h : P s) :
    R (argumentLoop W fuel toks s).host := by
  induction fuel generalizing toks s with
  | zero => simpa [argumentLoop, Parsed.host] using hdone s h
  | succ fuel ih =>
    cases toks with
    | nil => simpa [argumentLoop, Parsed.host] using hdone s h
    | cons arg rest =>
      unfold argumentLoop
      split
      · split
        · exact hhelp s h
        · rename_i fd hfind
          simp only []
          split
          · rename_i hrun
            exact hthrow s arg fd _ h hfind hrun
          · rename_i result s2 hrun
            cases result with
            | false => exact hstop s arg fd _ s2 h hfind hrun
            | true =>
              have h3 := hstep s arg fd _ s2 h hfind hrun
              simp only [Bool.not_true, Bool.false_eq_true, if_false]
              split
              · exact hdone _ h3
              · exact ih _ _ h3
      · exact hhelp s h

/-! ## The library bitmask at construction time -/

theorem librariesAfter_snoc (recommended : Int) (t : List Event) (e : Event) :
    librariesAfter recommended (t ++ [e]) = librariesStep (librariesAfter recommended t) e := by
  simp [librariesAfter, List.foldl_append]

theorem librariesAfter_append_of_no_call (recommended : Int) (t es : List Event)
    (h : ∀ e ∈ es, e.isCall = false) :
    librariesAfter recommended (t ++ es) = librariesAfter recommended t := by
  induction es generalizing t with
  | nil => simp
  | cons e rest ih =>
    have he : e.isCall = false := h e (by simp)
    have hstep : librariesAfter recommended (t ++ [e]) = librariesAfter recommended t := by
      rw [librariesAfter_snoc]
      cases e <;> simp_all [Event.isCall, librariesStep]
    have := ih (t ++ [e]) (fun e' he' => h e' (List.mem_cons_of_mem _ he'))
    rw [List.append_assoc] at this
    simpa [hstep] using this

theorem ConstructsUseLatest.snoc {recommended : Int} {t : List Event} {e : Event}
    (hg : ConstructsUseLatest recommended t)
    (he : ∀ name libs r, e = Event.construct name libs r → libs = librariesAfter recommended t) :
    ConstructsUseLatest recommended (t ++ [e]) := by
  intro t1 t2 name libs r h
  rcases List.eq_nil_or_concat t2 with h2 | ⟨t2', x, h2⟩
  · subst h2
    have h' : t ++ [e] = t1 ++ [Event.construct name libs r] := h
    obtain ⟨ht, hx⟩ := List.append_inj' h' rfl
    subst ht
    exact he name libs r (by simpa using hx)
  · subst h2
    have h' : t ++ [e] = (t1 ++ Event.construct name libs r :: t2') ++ [x] := by
      rw [h]
      simp
    obtain ⟨ht, _⟩ := List.append_inj' h' rfl
    exact hg t1 t2' name libs r ht

theorem ConstructsUseLatest.append {recommended : Int} {t : List Event}
    (hg : ConstructsUseLatest recommended t) (es : List Event)
    (hes : ∀ e ∈ es, e.isConstruct = false) :
    ConstructsUseLatest recommended (t ++ es) := by
  induction es generalizing t with
  | nil => simpa using hg
  | cons e rest ih =>
    have h1 : ConstructsUseLatest recommended (t ++ [e]) := by
      refine hg.snoc ?_
      intro name libs r heq
      have := hes e (by simp)
      simp [heq, Event.isConstruct] at this
    have := ih h1 (fun e' he' => hes e' (List.mem_cons_of_mem _ he'))
    simpa using this

/-- A batch constructs every module with the current value of `libraries`,
which it leaves alone. -/
theorem libraries_batchInvariant {σ : Type} (W : LuaModule σ) (recommended : Int) :
    BatchInvariant W (fun s =>
      s.libraries = librariesAfter recommended s.trace ∧
        ConstructsUseLatest recommended s.trace) where
  construct := fun s arg h _ => by
    refine ⟨?_, ?_⟩
    · show s.libraries = librariesAfter recommended (s.trace ++ [_])
      rw [librariesAfter_snoc]
      simpa [librariesStep] using h.1
    · refine h.2.snoc ?_
      intro name libs r heq
      simp only [Event.construct.injEq] at heq
      rw [← heq.2.1]
      exact h.1
  insert := fun _ _ h _ => h
  delete := fun s name h => by
    refine ⟨?_, ?_⟩
    · show s.libraries = librariesAfter recommended (s.trace ++ [_])
      rw [librariesAfter_snoc]
      simpa [librariesStep] using h.1
    · exact h.2.snoc (by intro _ _ _ heq; simp at heq)
  cerr := fun s line h => by
    refine ⟨?_, ?_⟩
    · show s.libraries = librariesAfter recommended (s.trace ++ [_])
      rw [librariesAfter_snoc]
      simpa [librariesStep] using h.1
    · exact h.2.snoc (by intro _ _ _ heq; simp at heq)

theorem not_librariesFlag_of_helpFlag {arg : String} (h : isHelpFlag arg = true) :
    isLibrariesFlag arg = false := by
  simp only [isHelpFlag, Bool.or_eq_true, beq_iff_eq] at h
  rcases h with h | h <;> subst h <;> decide

theorem not_librariesFlag_of_modulesFlag {arg : String} (h : isModulesFlag arg = true) :
    isLibrariesFlag arg = false := by
  simp only [isModulesFlag, Bool.or_eq_true, beq_iff_eq] at h
  rcases h with h | h <;> subst h <;> decide

/-- The first thing a batch does for a name that is not registered is to call
the constructor with the current `libraries`. -/
theorem addEach_cons_trace {σ : Type} (W : LuaModule σ) (arg : String) (rest : List String)
    (s : Host σ) (hnot : arg ∉ s.modules) :
    ∃ es, (addEach W (arg :: rest) s).trace =
      s.trace ++ Event.construct arg s.libraries (W.construct arg true s.libraries s.lua).1 :: es := by
  simp only [addEach, hnot, if_false]
  generalize W.construct arg true s.libraries s.lua = r
  obtain ⟨res, lua'⟩ := r
  have key : ∀ (s1 s' : Host σ), s1.trace = s.trace ++ [Event.construct arg s.libraries res] →
      Extends Event.isLoading s1 s' →
      ∃ es, s'.trace = s.trace ++ Event.construct arg s.libraries res :: es := by
    intro s1 s' h1 hs'
    obtain ⟨es, he, _⟩ := hs'
    exact ⟨es, by simp [he, h1]⟩
  cases res with
  | built =>
    simp only []
    split
    · exact key _ _ rfl ((loading_loadInvariant W _).toBatchInvariant.of_addEach rest _
        (Extends.refl _ _))
    · refine key { s with lua := lua', trace := s.trace ++ [Event.construct arg s.libraries NewResult.built] }
        _ rfl ?_
      exact (loading_loadInvariant W _).toBatchInvariant.of_addEach rest _
        ⟨[Event.delete arg], rfl, by simp [Event.isLoading]⟩
  | null => exact ⟨[], by simp⟩
  | threwException what => exact ⟨[Event.cerr what], by simp [Host.emit]⟩
  | threwOther => exact ⟨[Event.cerr "A fatal error has occured."], by simp [Host.emit]⟩

/-- At the head of every iteration of the argument loop `libraries` holds the
bitmask set by the most recent `-l`/`--libraries` dispatch, and every
constructor call so far has used the bitmask in force when it was made. -/
theorem argumentLoop_constructsUseLatest {σ : Type} (W : LuaModule σ) (recommended : Int)
    (fuel : Nat) (toks : List String) (s : Host σ)
    (h : s.libraries = librariesAfter recommended s.trace ∧
      ConstructsUseLatest recommended s.trace) :
    ConstructsUseLatest recommended (argumentLoop W fuel toks s).host.trace := by
  have hany : ∀ (s : Host σ) (arg : String) (fd : FunctionData) (args : List String) (b : Bool)
      (s2 : Host σ), (s.libraries = librariesAfter recommended s.trace ∧
        ConstructsUseLatest recommended s.trace) →
      mapFind arg argumentFunctions = some fd →
      fd.function.run W args (s.emit [Event.call arg args]) = some (b, s2) →
      ((s2.emit [Event.ret b]).libraries = librariesAfter recommended (s2.emit [Event.ret b]).trace ∧
        ConstructsUseLatest recommended (s2.emit [Event.ret b]).trace) := ?_
  refine argumentLoop_induct W
    (fun s => s.libraries = librariesAfter recommended s.trace ∧
      ConstructsUseLatest recommended s.trace)
    (fun s => ConstructsUseLatest recommended s.trace) ?_ ?_ ?_
    (fun s arg fd args s2 hs hfind hrun => (hany s arg fd args false s2 hs hfind hrun).2)
    (fun s arg fd args s2 hs hfind hrun => hany s arg fd args true s2 hs hfind hrun)
    fuel toks s h
  · intro s hs
    exact hs.2
  · intro s hs
    have : (RenderHelp ([] : List String) (ClearModules W s)).2.trace
        = s.trace ++ (s.modules.map Event.delete ++ helpTopic) := by
      rw [RenderHelp_trace, ClearModules_trace, List.append_assoc]
    show ConstructsUseLatest recommended (RenderHelp ([] : List String) (ClearModules W s)).2.trace
    rw [this]
    refine hs.2.append _ ?_
    intro e he
    rcases List.mem_append.mp he with h' | h'
    · obtain ⟨n, _, rfl⟩ := List.mem_map.mp h'
      rfl
    · obtain ⟨line, rfl⟩ := helpTopic_cout e h'
      rfl
  · intro s arg fd args hs _ _
    exact hs.2.snoc (by intro _ _ _ heq; simp at heq)
  · intro s arg fd args b s2 hs hfind hrun
    have hcall : ConstructsUseLatest recommended (s.trace ++ [Event.call arg args]) :=
      hs.2.snoc (by intro _ _ _ heq; simp at heq)
    have hret : ∀ s' : Host σ, (s'.libraries = librariesAfter recommended s'.trace ∧
        ConstructsUseLatest recommended s'.trace) →
        ((s'.emit [Event.ret b]).libraries = librariesAfter recommended (s'.emit [Event.ret b]).trace ∧
          ConstructsUseLatest recommended (s'.emit [Event.ret b]).trace) := by
      intro s' hs'
      refine ⟨?_, hs'.2.snoc (by intro _ _ _ heq; simp at heq)⟩
      show s'.libraries = librariesAfter recommended (s'.trace ++ [Event.ret b])
      rw [librariesAfter_snoc]
      simpa [librariesStep] using hs'.1
    apply hret
    rcases mapFind_argumentFunctions hfind with ⟨hflag, hfun⟩ | ⟨hflag, hfun⟩ | ⟨hflag, hfun⟩
    · have hno := not_librariesFlag_of_helpFlag hflag
      rw [hfun] at hrun
      simp only [Handler.run, Option.some.injEq] at hrun
      have hs2 : s2 = (RenderHelp args (s.emit [Event.call arg args])).2 := by rw [hrun]
      have hlib : librariesAfter recommended (s.trace ++ [Event.call arg args])
          = librariesAfter recommended s.trace := by
        rw [librariesAfter_snoc]
        cases args with
        | nil => rfl
        | cons a as => cases as <;> simp [librariesStep, hno]
      subst hs2
      refine ⟨?_, ?_⟩
      · show s.libraries = librariesAfter recommended ((s.trace ++ [Event.call arg args]) ++ helpTopic)
        rw [librariesAfter_append_of_no_call, hlib]
        · exact hs.1
        · intro e he
          obtain ⟨line, rfl⟩ := helpTopic_cout e he
          rfl
      · show ConstructsUseLatest recommended ((s.trace ++ [Event.call arg args]) ++ helpTopic)
        refine hcall.append _ ?_
        intro e he
        obtain ⟨line, rfl⟩ := helpTopic_cout e he
        rfl
    · have hno := not_librariesFlag_of_modulesFlag hflag
      rw [hfun] at hrun
      simp only [Handler.run, Option.some.injEq] at hrun
      have hs2 : s2 = (AddModules W args (s.emit [Event.call arg args])).2 := by rw [hrun]
      have hlib : librariesAfter recommended (s.trace ++ [Event.call arg args])
          = librariesAfter recommended s.trace := by
        rw [librariesAfter_snoc]
        cases args with
        | nil => rfl
        | cons a as => cases as <;> simp [librariesStep, hno]
      subst hs2
      refine (libraries_batchInvariant W recommended).of_AddModules args _ ⟨?_, hcall⟩
      show s.libraries = librariesAfter recommended (s.trace ++ [Event.call arg args])
      rw [hlib]
      exact hs.1
    · rw [hfun] at hrun
      simp only [Handler.run, ChangeLibraries] at hrun
      split at hrun
      · rename_i a
        split at hrun
        · rename_i n hn
          simp only [Option.some.injEq, Prod.mk.injEq] at hrun
          rw [← hrun.2]
          refine ⟨?_, hcall⟩
          show n = librariesAfter recommended (s.trace ++ [Event.call arg [a]])
          rw [librariesAfter_snoc]
          simp [librariesStep, hflag, hn]
        · simp at hrun
      · rename_i hne
        simp only [Option.some.injEq, Prod.mk.injEq] at hrun
        rw [← hrun.2]
        refine ⟨?_, hcall⟩
        show s.libraries = librariesAfter recommended (s.trace ++ [Event.call arg args])
        rw [librariesAfter_snoc]
        rw [hs.1]
        cases args with
        | nil => rfl
        | cons a as =>
          cases as with
          | nil => exact absurd rfl (hne a)
          | cons b bs => rfl

/-- The calls of `Main` are those of the argument loop, followed by calls on
registered modules and sleeps, and by output only when there is no argument. -/
theorem Main_trace_cases {σ : Type} (W : LuaModule σ) (fuel : Nat) (fileName : String)
    (arguments : List String) (s : Host σ) :
    ∃ es, (Main W fuel fileName arguments s).host.trace =
        (argumentLoop W arguments.length arguments s).host.trace ++ es ∧
      ∀ e ∈ es, e.isModuleCall = true ∨ e = Event.sleep 5
        ∨ (arguments = [] ∧ ∃ line, e = Event.cout line) := by
  unfold Main
  cases argumentLoop W arguments.length arguments s with
  | uncaught s1 => exact ⟨[], by simp [Outcome.host, Parsed.host], by simp⟩
  | done s1 =>
    obtain ⟨later, hl, hq⟩ := runModules_trace W fuel arguments s1
    refine ⟨s1.modules.map Event.execute
          ++ s1.modules.map (fun n => Event.invokeEvent n "init") ++ later, ?_, ?_⟩
    · simp only [Parsed.host]
      rw [hl]
      simp
    · intro e hmem
      rcases List.mem_append.mp hmem with h | h
      · rcases List.mem_append.mp h with h | h
        · obtain ⟨n, _, rfl⟩ := List.mem_map.mp h
          exact Or.inl rfl
        · obtain ⟨n, _, rfl⟩ := List.mem_map.mp h
          exact Or.inl rfl
      · rcases hq e h with h | ⟨n, _, h⟩ | h
        · exact Or.inr (Or.inl h)
        · subst h
          exact Or.inl rfl
        · exact Or.inr (Or.inr h)

/-- The calls of `Main` are those of the argument loop, followed by calls on
registered modules, sleeps and output. -/
theorem Main_trace {σ : Type} (W : LuaModule σ) (fuel : Nat) (fileName : String)
    (arguments : List String) (s : Host σ) :
    ∃ es, (Main W fuel fileName arguments s).host.trace =
        (argumentLoop W arguments.length arguments s).host.trace ++ es ∧
      ∀ e ∈ es, e.isRunning = true := by
  obtain ⟨es, he, hp⟩ := Main_trace_cases W fuel fileName arguments s
  refine ⟨es, he, ?_⟩
  intro e hmem
  rcases hp e hmem with h | h | ⟨_, line, h⟩
  · cases e <;> simp_all [Event.isModuleCall, Event.isRunning]
  · subst h
    rfl
  · subst h
    rfl

/-- The argument loop on `-l 7 -m scriptC.lua`. -/
theorem argumentLoop_scenarioC {σ : Type} (W : LuaModule σ) (s : Host σ) :
    argumentLoop W 4 ["-l", "7", "-m", "scriptC.lua"] s =
      Parsed.done ((addEach W ["scriptC.lua"]
        { s with libraries := 7,
                 trace := s.trace ++ [Event.call "-l" ["7"], Event.ret true,
                   Event.call "-m" ["scriptC.lua"]] }).emit [Event.ret true]) := by
  have h1 : mapFind "-l" argumentFunctions
      = some ⟨Handler.changeLibraries, "Change the required Lua libraries", true⟩ := by decide
  have h2 : mapFind "-m" argumentFunctions
      = some ⟨Handler.addModules, "Add Lua modules to load", true⟩ := by decide
  have h3 : isFlagToken "-l" = true := by decide
  have h4 : isFlagToken "-m" = true := by decide
  have h5 : isFlagToken "7" = false := by decide
  have h6 : isFlagToken "scriptC.lua" = false := by decide
  have h7 : stoi "7" = some 7 := by decide
  simp [argumentLoop, collectArgs, h1, h2, h3, h4, h5, h6, h7, Handler.run, ChangeLibraries,
    AddModules, Host.emit]

/-! ## The argument loop, group by group -/

theorem collectArgs_eq (l acc : List String) :
    collectArgs l acc =
      (acc ++ l.takeWhile (fun t => !isFlagToken t), l.dropWhile (fun t => !isFlagToken t)) := by
  induction l generalizing acc with
  | nil => simp [collectArgs]
  | cons t rest ih =>
    simp only [collectArgs]
    by_cases ht : isFlagToken t = true
    · simp [ht, List.takeWhile, List.dropWhile]
    · simp only [Bool.not_eq_true] at ht
      simp [ht, List.takeWhile, List.dropWhile, ih]

theorem flagGroups_dropWhile (l : List String) :
    flagGroups (l.dropWhile (fun t => !isFlagToken t)) = flagGroups l := by
  induction l with
  | nil => rfl
  | cons t rest ih =>
    by_cases ht : isFlagToken t = true
    · simp [List.dropWhile, ht]
    · simp only [Bool.not_eq_true] at ht
      simp [List.dropWhile, ht, flagGroups, ih]

theorem flagGroups_of_dropWhile_nil (l : List String)
    (h : l.dropWhile (fun t => !isFlagToken t) = []) : flagGroups l = [] := by
  rw [← flagGroups_dropWhile, h]
  rfl

theorem head_dropWhile_isFlag (l : List String) (tok : String) (rest : List String)
    (h : l.dropWhile (fun t => !isFlagToken t) = tok :: rest) : isFlagToken tok = true := by
  induction l with
  | nil => simp at h
  | cons t r ih =>
    by_cases ht : isFlagToken t = true
    · simp only [List.dropWhile, ht, Bool.not_true] at h
      simp only [List.cons.injEq] at h
      rw [← h.1]
      exact ht
    · simp only [Bool.not_eq_true] at ht
      simp only [List.dropWhile, ht, Bool.not_false] at h
      exact ih h

/-- The argument loop processes the command line group by group: started on
a flag token (or on nothing) it does what `dispatchGroups` does on the flag
groups of the tokens. -/
theorem argumentLoop_eq_dispatchGroups {σ : Type} (W : LuaModule σ) (fuel : Nat)
    (toks : List String) (s : Host σ) (hfuel : toks.length ≤ fuel)
    (hhead : ∀ tok rest, toks = tok :: rest → isFlagToken tok = true) :
    argumentLoop W fuel toks s = dispatchGroups W (flagGroups toks) s := by
  induction fuel generalizing toks s with
  | zero =>
    have : toks = [] := List.length_eq_zero.mp (Nat.le_zero.mp hfuel)
    subst this
    rfl
  | succ fuel ih =>
    cases toks with
    | nil => rfl
    | cons arg rest =>
      have harg : isFlagToken arg = true := hhead arg rest rfl
      simp only [argumentLoop, flagGroups, harg, if_true, dispatchGroups, collectArgs_eq,
        List.nil_append]
      cases hfind : mapFind arg argumentFunctions with
      | none => rfl
      | some fd =>
        simp only []
        cases hrun : fd.function.run W (rest.takeWhile (fun t => !isFlagToken t))
            (s.emit [Event.call arg (rest.takeWhile (fun t => !isFlagToken t))]) with
        | none => rfl
        | some p =>
          obtain ⟨result, s2⟩ := p
          simp only []
          cases result with
          | false => rfl
          | true =>
            simp only [Bool.not_true, Bool.false_eq_true, if_false]
            cases hdrop : rest.dropWhile (fun t => !isFlagToken t) with
            | nil =>
              simp only [List.isEmpty_nil, if_true]
              rw [flagGroups_of_dropWhile_nil rest hdrop]
              rfl
            | cons tok rest' =>
              simp only [List.isEmpty_cons, Bool.false_eq_true, if_false]
              rw [← flagGroups_dropWhile rest, hdrop]
              apply ih
              · have h1 : (rest.dropWhile (fun t => !isFlagToken t)).length ≤ rest.length :=
                  (List.dropWhile_sublist _).length_le
                rw [hdrop] at h1
                simp only [List.length_cons] at hfuel h1 ⊢
                omega
              · intro tok' rest'' heq
                simp only [List.cons.injEq] at heq
                rw [← heq.1]
                exact head_dropWhile_isFlag rest tok rest' hdrop

/-- A command line whose first token is not a flag: the registry is cleared
and the help rendered at once. -/
theorem argumentLoop_of_not_flag {σ : Type} (W : LuaModule σ) (fuel : Nat) (tok : String)
    (rest : List String) (s : Host σ) (h : isFlagToken tok = false) :
    argumentLoop W (fuel + 1) (tok :: rest) s =
      Parsed.done (RenderHelp ([] : List String) (ClearModules W s)).2 := by
  simp [argumentLoop, h]

/-! ## What the handlers return -/

theorem flag_kinds_of_helpFlag {flag : String} (h : isHelpFlag flag = true) :
    isModulesFlag flag = false ∧ isLibrariesFlag flag = false := by
  simp only [isHelpFlag, Bool.or_eq_true, beq_iff_eq] at h
  rcases h with h | h <;> subst h <;> exact ⟨by decide, by decide⟩

theorem flag_kinds_of_modulesFlag {flag : String} (h : isModulesFlag flag = true) :
    isHelpFlag flag = false ∧ isLibrariesFlag flag = false := by
  simp only [isModulesFlag, Bool.or_eq_true, beq_iff_eq] at h
  rcases h with h | h <;> subst h <;> exact ⟨by decide, by decide⟩

theorem flag_kinds_of_librariesFlag {flag : String} (h : isLibrariesFlag flag = true) :
    isHelpFlag flag = false ∧ isModulesFlag flag = false := by
  simp only [isLibrariesFlag, Bool.or_eq_true, beq_iff_eq] at h
  rcases h with h | h <;> subst h <;> exact ⟨by decide, by decide⟩

/-- The table has an entry for a flag exactly when the flag is registered. -/
theorem mapFind_eq_none_iff (flag : String) :
    mapFind flag argumentFunctions = none ↔ registered flag = false := by
  constructor
  · intro h
    by_contra hreg
    simp only [Bool.not_eq_false] at hreg
    simp only [registered, isHelpFlag, isModulesFlag, isLibrariesFlag, Bool.or_eq_true,
      beq_iff_eq] at hreg
    rcases hreg with (((h' | h') | (h' | h')) | (h' | h')) <;> subst h' <;>
      exact absurd h (by decide)
  · intro h
    cases hfind : mapFind flag argumentFunctions with
    | none => rfl
    | some fd =>
      exfalso
      rcases mapFind_argumentFunctions hfind with ⟨hf, _⟩ | ⟨hf, _⟩ | ⟨hf, _⟩ <;>
        simp [registered, hf] at h

/-- Every handler only makes constructor calls, `delete`s and output, and
leaves the trace it found in place. -/
theorem run_extends {σ : Type} (W : LuaModule σ) (f : Handler) (args : List String)
    (s : Host σ) (b : Bool) (s2 : Host σ) (hrun : f.run W args s = some (b, s2)) :
    ∃ es, s2.trace = s.trace ++ es ∧
      ∀ e ∈ es, e.isCall = false ∧ e ≠ Event.ret false ∧ e ≠ Event.ret true ∧
        (f ≠ Handler.renderHelp → e.isQuiet = true) := by
  cases f with
  | renderHelp =>
    simp only [Handler.run, Option.some.injEq] at hrun
    have hs : s2 = (RenderHelp args s).2 := by rw [hrun]
    subst hs
    refine ⟨helpTopic, rfl, ?_⟩
    intro e he
    obtain ⟨line, rfl⟩ := helpTopic_cout e he
    exact ⟨rfl, by simp, by simp, fun h => absurd rfl h⟩
  | addModules =>
    simp only [Handler.run, Option.some.injEq] at hrun
    have hs : s2 = (AddModules W args s).2 := by rw [hrun]
    subst hs
    have hinv : BatchInvariant W (fun s' : Host σ => Extends
        (fun e => !e.isCall && e.isQuiet && !(e == Event.ret false) && !(e == Event.ret true))
        s s') :=
      { construct := fun _ _ h _ => h.emit _ _ rfl (by simp [Event.isCall, Event.isQuiet])
        insert := fun _ _ h _ => h.emit _ [] (by simp) (by simp)
        delete := fun _ _ h => h.emit _ _ rfl (by simp [Event.isCall, Event.isQuiet])
        cerr := fun _ _ h => h.emit _ _ rfl (by simp [Event.isCall, Event.isQuiet]) }
    obtain ⟨es, he, hp⟩ := hinv.of_AddModules args s (Extends.refl _ _)
    refine ⟨es, he, ?_⟩
    intro e hmem
    have := hp e hmem
    simp only [Bool.and_eq_true, Bool.not_eq_true', beq_eq_false_iff_ne] at this
    exact ⟨this.1.1.1, this.1.2, this.2, fun _ => this.1.1.2⟩
  | changeLibraries =>
    simp only [Handler.run, ChangeLibraries] at hrun
    refine ⟨[], ?_, by simp⟩
    split at hrun
    · split at hrun
      · simp only [Option.some.injEq, Prod.mk.injEq] at hrun
        rw [← hrun.2]
        simp
      · simp at hrun
    · simp only [Option.some.injEq, Prod.mk.injEq] at hrun
      rw [← hrun.2]
      simp

/-- What the handler of a registered flag returns is fixed by the flag and its
arguments: `continues` tells whether it is `true`; it can only throw for
`-l`/`--libraries`. -/
theorem run_result {σ : Type} (W : LuaModule σ) {flag : String} {fd : FunctionData}
    (hfind : mapFind flag argumentFunctions = some fd) (args : List String) (s : Host σ) :
    (∀ b s2, fd.function.run W args s = some (b, s2) → b = continues flag args) ∧
    (fd.function.run W args s = none → isLibrariesFlag flag = true ∧ continues flag args = false) := by
  rcases mapFind_argumentFunctions hfind with ⟨hflag, hfun⟩ | ⟨hflag, hfun⟩ | ⟨hflag, hfun⟩
  · obtain ⟨hm, hl⟩ := flag_kinds_of_helpFlag hflag
    rw [hfun]
    refine ⟨?_, by simp [Handler.run]⟩
    intro b s2 hrun
    simp only [Handler.run, RenderHelp, Option.some.injEq, Prod.mk.injEq] at hrun
    simp [continues, hm, hl, ← hrun.1]
  · obtain ⟨hh, hl⟩ := flag_kinds_of_modulesFlag hflag
    rw [hfun]
    refine ⟨?_, by simp [Handler.run]⟩
    intro b s2 hrun
    simp only [Handler.run, AddModules, Option.some.injEq] at hrun
    cases args with
    | nil =>
      simp only [List.length_nil, gt_iff_lt, Nat.lt_irrefl, if_false, Prod.mk.injEq] at hrun
      simp [continues, hflag, hl, ← hrun.1]
    | cons a as =>
      simp only [List.length_cons, gt_iff_lt, Nat.zero_lt_succ, if_true, Prod.mk.injEq] at hrun
      simp [continues, hflag, hl, ← hrun.1]
  · obtain ⟨hh, hm⟩ := flag_kinds_of_librariesFlag hflag
    rw [hfun]
    simp only [Handler.run, ChangeLibraries]
    cases args with
    | nil => simp [continues, hflag, hm]
    | cons a as =>
      cases as with
      | nil =>
        cases hst : stoi a with
        | none => simp [continues, hflag, hm, hst]
        | some n => simp [continues, hflag, hm, hst]
      | cons b bs => simp [continues, hflag, hm]

/-! ## Processing up to a given flag group -/

/-- Processing goes through any run of groups whose flags are registered and
whose handlers return `true`, making quiet calls only. -/
theorem dispatchGroups_accepted {σ : Type} (W : LuaModule σ) (gs tail : List (String × List String))
    (s : Host σ)
    (hacc : ∀ g ∈ gs, registered g.1 = true ∧ continues g.1 g.2 = true) :
    ∃ s', dispatchGroups W (gs ++ tail) s = dispatchGroups W tail s' ∧
      Extends Event.isQuiet s s' := by
  induction gs generalizing s with
  | nil => exact ⟨s, rfl, Extends.refl _ _⟩
  | cons g rest ih =>
    obtain ⟨flag, args⟩ := g
    obtain ⟨hreg, hcont⟩ := hacc (flag, args) (by simp)
    simp only [] at hreg hcont
    cases hfind : mapFind flag argumentFunctions with
    | none =>
      have := (mapFind_eq_none_iff flag).mp hfind
      rw [hreg] at this
      exact absurd this (by simp)
    | some fd =>
      obtain ⟨hres, hnone⟩ := run_result W hfind args (s.emit [Event.call flag args])
      cases hrun : fd.function.run W args (s.emit [Event.call flag args]) with
      | none =>
        have := (hnone hrun).2
        rw [hcont] at this
        exact absurd this (by simp)
      | some p =>
        obtain ⟨b, s2⟩ := p
        have hb : b = true := by rw [hres b s2 hrun, hcont]
        subst hb
        obtain ⟨s', hs', hext⟩ := ih (s2.emit [Event.ret true])
          (fun g hg => hacc g (List.mem_cons_of_mem _ hg))
        refine ⟨s', ?_, ?_⟩
        · simp only [List.cons_append, dispatchGroups, hfind, hrun]
          simpa using hs'
        · obtain ⟨es, he, hp⟩ := run_extends W fd.function args _ true s2 hrun
          have hne : fd.function ≠ Handler.renderHelp := by
            intro hf
            rw [hf] at hrun
            simp [Handler.run, RenderHelp] at hrun
          have h1 : Extends Event.isQuiet s (s2.emit [Event.ret true]) := by
            refine ⟨[Event.call flag args] ++ es ++ [Event.ret true], ?_, ?_⟩
            · simp [Host.emit, he]
            · intro e hmem
              simp only [List.mem_append, List.mem_singleton] at hmem
              rcases hmem with (h | h) | h
              · subst h; rfl
              · exact (hp e h).2.2.2 hne
              · subst h; rfl
          exact h1.trans hext

/-- With an empty registry and at least one argument, the rest of `Main` makes
no call at all and returns 0. -/
theorem runModules_of_empty {σ : Type} (W : LuaModule σ) (fuel : Nat) (arguments : List String)
    (s1 : Host σ) (hm : s1.modules = []) (hargs : arguments ≠ []) :
    (runModules W fuel arguments s1).code = some 0 ∧
      (runModules W fuel arguments s1).host.trace = s1.trace := by
  have hlen : ¬ (arguments.length = 0) := fun h => hargs (List.length_eq_zero.mp h)
  have htick : tickLoop W fuel s1 = (true, s1) := by
    unfold tickLoop
    cases fuel <;> simp [hm]
  simp [runModules, runTicks, hm, executeAll, invokeAll, htick, finish, hlen, Outcome.code,
    Outcome.host, ClearModules, deleteAll]

/-- What is common to the runs that meet an unregistered flag or start with a
token that is no flag. -/
theorem Main_of_help_after_clear {σ : Type} (W : LuaModule σ) (fuel : Nat) (fileName : String)
    (arguments : List String) (s0 s' : Host σ) (hargs : arguments ≠ [])
    (hloop : argumentLoop W arguments.length arguments s0 =
      Parsed.done (RenderHelp ([] : List String) (ClearModules W s')).2) :
    (RenderHelp ([] : List String) (ClearModules W s')).2.modules = [] ∧
    (Main W fuel fileName arguments s0).code = some 0 ∧
    helpTopic <:+: (Main W fuel fileName arguments s0).host.trace ∧
    (Main W fuel fileName arguments s0).host.trace =
      (argumentLoop W arguments.length arguments s0).host.trace := by
  have hm : (RenderHelp ([] : List String) (ClearModules W s')).2.modules = [] := rfl
  obtain ⟨hcode, htrace⟩ := runModules_of_empty W fuel arguments _ hm hargs
  refine ⟨hm, ?_, ?_, ?_⟩
  · simp only [Main, hloop]
    exact hcode
  · simp only [Main, hloop]
    rw [htrace, RenderHelp_trace]
    exact List.suffix_append _ _ |>.isInfix
  · simp only [Main, hloop, Parsed.host]
    exact htrace

/-- The argument loop ends by clearing the registry and rendering the help
when the first token is not a flag, and when processing reaches a flag that is
not registered. -/
theorem argumentLoop_of_unregistered {σ : Type} (W : LuaModule σ) (arguments : List String)
    (s : Host σ)
    (h : (∃ tok rest, arguments = tok :: rest ∧ isFlagToken tok = false) ∨
      (∃ gs x a rest, flagGroups arguments = gs ++ (x, a) :: rest ∧ registered x = false ∧
        ∀ g ∈ gs, registered g.1 = true ∧ continues g.1 g.2 = true)) :
    arguments ≠ [] ∧
    ∃ s', argumentLoop W arguments.length arguments s =
      Parsed.done (RenderHelp ([] : List String) (ClearModules W s')).2 := by
  have hargs : arguments ≠ [] := by
    rcases h with ⟨tok, rest, h, _⟩ | ⟨gs, x, a, rest, h, _⟩
    · simp [h]
    · intro h0
      rw [h0] at h
      simp [flagGroups] at h
  refine ⟨hargs, ?_⟩
  cases harg : arguments with
  | nil => exact absurd harg hargs
  | cons tok rest =>
    by_cases htok : isFlagToken tok = true
    · rcases h with ⟨tok', rest', h, hno⟩ | ⟨gs, x, a, rest', hgroups, hx, hacc⟩
      · rw [harg] at h
        simp only [List.cons.injEq] at h
        rw [← h.1, htok] at hno
        exact absurd hno (by simp)
      · rw [← harg, argumentLoop_eq_dispatchGroups W _ _ _ (Nat.le_refl _), hgroups]
        · obtain ⟨s', hs', _⟩ := dispatchGroups_accepted W gs ((x, a) :: rest') s hacc
          refine ⟨s', ?_⟩
          rw [hs']
          simp [dispatchGroups, (mapFind_eq_none_iff x).mpr hx]
        · intro tok' rest'' heq
          rw [harg] at heq
          simp only [List.cons.injEq] at heq
          rw [← heq.1]
          exact htok
    · simp only [Bool.not_eq_true] at htok
      exact ⟨_, argumentLoop_of_not_flag W rest.length tok rest _ htok⟩

/-! ## A batch cut short -/

theorem since_of_trace {σ : Type} {s s' : Host σ} {es : List Event}
    (h : s'.trace = s.trace ++ es) : s'.since s = es := by
  simp [Host.since, h]

/-- A batch only makes constructor calls, `delete`s and `cerr` output. -/
theorem addEach_loading {σ : Type} (W : LuaModule σ) (args : List String) (s : Host σ) :
    Extends Event.isLoading s (addEach W args s) :=
  (loading_loadInvariant W s).toBatchInvariant.of_addEach args s (Extends.refl _ s)

/-- A batch leaves `libraries` alone. -/
theorem addEach_libraries {σ : Type} (W : LuaModule σ) (args : List String) (s : Host σ) :
    (addEach W args s).libraries = s.libraries := by
  have hinv : BatchInvariant W (fun s' : Host σ => s'.libraries = s.libraries) :=
    { construct := fun _ _ h _ => h
      insert := fun _ _ h _ => h
      delete := fun _ _ h => h
      cerr := fun _ _ h => h }
  exact hinv.of_addEach args s rfl

/-- When no constructor call fails while the loop of `AddModules` deals with
`pre`, the loop goes on with what follows `pre`. -/
theorem addEach_through {σ : Type} (W : LuaModule σ) (pre tail : List String) (s : Host σ)
    (hpre : ∀ e ∈ (addEach W pre s).since s, e.isFailedConstruct = false) :
    addEach W (pre ++ tail) s = addEach W tail (addEach W pre s) := by
  induction pre generalizing s with
  | nil => rfl
  | cons arg rest ih =>
    simp only [List.cons_append, addEach] at hpre ⊢
    by_cases hmem : arg ∈ s.modules
    · simp only [hmem, if_true] at hpre ⊢
      exact ih s hpre
    · simp only [hmem, if_false] at hpre ⊢
      generalize W.construct arg true s.libraries s.lua = r at hpre ⊢
      obtain ⟨res, lua'⟩ := r
      have hnext : ∀ s2 : Host σ, (∃ ds, s2.trace = s.trace ++ Event.construct arg s.libraries res :: ds) →
          (∀ e ∈ (addEach W rest s2).since s, e.isFailedConstruct = false) →
          ∀ e ∈ (addEach W rest s2).since s2, e.isFailedConstruct = false := by
        intro s2 ⟨ds, hds⟩ hall e he
        obtain ⟨es, hes, _⟩ := addEach_loading W rest s2
        rw [since_of_trace hes] at he
        have hfull : (addEach W rest s2).trace
            = s.trace ++ (Event.construct arg s.libraries res :: ds ++ es) := by
          rw [hes, hds]
          simp
        apply hall
        rw [since_of_trace hfull]
        simp [he]
      cases res with
      | built =>
        simp only [] at hpre ⊢
        by_cases hact : W.IsActive arg lua' = true
        · simp only [hact, if_true] at hpre ⊢
          exact ih _ (hnext _ ⟨[], rfl⟩ hpre)
        · simp only [hact] at hpre ⊢
          exact ih _ (hnext _ ⟨[Event.delete arg], by simp⟩ hpre)
      | null =>
        exfalso
        simp only [] at hpre
        have := hpre (Event.construct arg s.libraries NewResult.null)
          (by simp [Host.since])
        simp [Event.isFailedConstruct] at this
      | threwException what =>
        exfalso
        simp only [] at hpre
        have := hpre (Event.construct arg s.libraries (NewResult.threwException what))
          (by simp [Host.since, Host.emit])
        simp [Event.isFailedConstruct] at this
      | threwOther =>
        exfalso
        simp only [] at hpre
        have := hpre (Event.construct arg s.libraries NewResult.threwOther)
          (by simp [Host.since, Host.emit])
        simp [Event.isFailedConstruct] at this

/-- A batch never unregisters a name. -/
theorem addEach_keeps_registered {σ : Type} (W : LuaModule σ) (args : List String) (s : Host σ)
    (n : String) (h : n ∈ s.modules) : n ∈ (addEach W args s).modules :=
  ((registered_batchInvariant W n s).of_addEach args s ⟨h, Extends.refl _ _⟩).1

/-! ## The handlers dispatched -/

theorem calls_append (t u : List Event) : calls (t ++ u) = calls t ++ calls u := by
  induction t with
  | nil => rfl
  | cons e rest ih => cases e <;> simp [calls, ih]

theorem calls_of_no_call (es : List Event) (h : ∀ e ∈ es, e.isCall = false) : calls es = [] := by
  induction es with
  | nil => rfl
  | cons e rest ih =>
    have he := h e (by simp)
    have hrest := ih (fun e' he' => h e' (List.mem_cons_of_mem _ he'))
    cases e <;> simp_all [calls, Event.isCall]

/-- Group-by-group processing dispatches exactly the groups `dispatched`
selects, each with the arguments of its group. -/
theorem calls_dispatchGroups {σ : Type} (W : LuaModule σ) (gs : List (String × List String))
    (s : Host σ) :
    calls (dispatchGroups W gs s).host.trace = calls s.trace ++ dispatched gs := by
  induction gs generalizing s with
  | nil => simp [dispatchGroups, Parsed.host, dispatched]
  | cons g rest ih =>
    obtain ⟨flag, args⟩ := g
    cases hfind : mapFind flag argumentFunctions with
    | none =>
      have hreg := (mapFind_eq_none_iff flag).mp hfind
      simp only [dispatchGroups, hfind, Parsed.host, dispatched, hreg, RenderHelp_trace,
        ClearModules_trace, calls_append]
      have h1 : calls (s.modules.map Event.delete) = [] :=
        calls_of_no_call _ (by
          intro e he
          obtain ⟨n, _, rfl⟩ := List.mem_map.mp he
          rfl)
      have h2 : calls helpTopic = [] :=
        calls_of_no_call _ (by
          intro e he
          obtain ⟨line, rfl⟩ := helpTopic_cout e he
          rfl)
      simp [h1, h2]
    | some fd =>
      have hreg : registered flag = true := by
        cases h : registered flag with
        | true => rfl
        | false =>
          have := (mapFind_eq_none_iff flag).mpr h
          rw [hfind] at this
          exact absurd this (by simp)
      obtain ⟨hres, hnone⟩ := run_result W hfind args (s.emit [Event.call flag args])
      cases hrun : fd.function.run W args (s.emit [Event.call flag args]) with
      | none =>
        have hc := (hnone hrun).2
        simp only [dispatchGroups, hfind, hrun, Parsed.host, dispatched, hreg, hc]
        simp [Host.emit, calls_append, calls]
      | some p =>
        obtain ⟨b, s2⟩ := p
        have hb := hres b s2 hrun
        obtain ⟨es, he, hp⟩ := run_extends W fd.function args _ b s2 hrun
        have hes : calls es = [] := calls_of_no_call es (fun e hmem => (hp e hmem).1)
        have hs2 : calls s2.trace = calls s.trace ++ [(flag, args)] := by
          rw [he]
          simp [Host.emit, calls_append, calls, hes]
        cases b with
        | false =>
          simp only [dispatchGroups, hfind, hrun, Parsed.host, dispatched, hreg, ← hb]
          simp [Host.emit, calls_append, calls, hs2]
        | true =>
          have := ih (s2.emit [Event.ret true])
          simp only [dispatchGroups, hfind, hrun, Bool.not_true, Bool.false_eq_true, if_false,
            dispatched, hreg, ← hb, if_true]
          rw [this]
          simp [Host.emit, calls_append, calls, hs2]

/-- The dispatched groups are an initial segment of the groups. -/
theorem dispatched_prefix (gs : List (String × List String)) : dispatched gs <+: gs := by
  induction gs with
  | nil => exact List.prefix_refl _
  | cons g rest ih =>
    obtain ⟨flag, args⟩ := g
    simp only [dispatched]
    split
    · split
      · exact (List.prefix_cons_inj _).mpr ih
      · exact (List.prefix_cons_inj _).mpr List.nil_prefix
    · exact List.nil_prefix

/-- The handler dispatches of a run of `Main`, read off the command line. -/
theorem calls_Main {σ : Type} (W : LuaModule σ) (fuel : Nat) (fileName : String)
    (arguments : List String) (recommended : Int) (w : σ) :
    calls (Main W fuel fileName arguments (Host.initial recommended w)).host.trace =
      expectedDispatch arguments := by
  obtain ⟨es, he, hp⟩ := Main_trace W fuel fileName arguments (Host.initial recommended w)
  have hes : calls es = [] := by
    refine calls_of_no_call es ?_
    intro e hmem
    have := hp e hmem
    cases e <;> simp_all [Event.isRunning, Event.isCall]
  rw [he, calls_append, hes, List.append_nil]
  cases arguments with
  | nil => rfl
  | cons tok rest =>
    by_cases htok : isFlagToken tok = true
    · rw [argumentLoop_eq_dispatchGroups W _ _ _ (Nat.le_refl _)
        (by
          intro tok' rest' heq
          simp only [List.cons.injEq] at heq
          rw [← heq.1]
          exact htok)]
      rw [calls_dispatchGroups]
      simp [expectedDispatch, htok, Host.initial, calls]
    · simp only [Bool.not_eq_true] at htok
      rw [List.length_cons, argumentLoop_of_not_flag W rest.length tok rest _ htok]
      simp only [Parsed.host, RenderHelp_trace, ClearModules_trace, expectedDispatch, htok]
      have h2 : calls helpTopic = [] :=
        calls_of_no_call _ (by
          intro e he
          obtain ⟨line, rfl⟩ := helpTopic_cout e he
          rfl)
      simp [Host.initial, calls_append, calls, h2]

/-! ## Handlers that reject their arguments -/

/-- Processing that reaches `-m`/`--modules` without a path, or
`-l`/`--libraries` with a number of arguments other than one, writes nothing to
`cout`. -/
theorem argumentLoop_quiet_of_rejected {σ : Type} (W : LuaModule σ) (arguments : List String)
    (s : Host σ)
    (hfirst : ∀ tok rest, arguments = tok :: rest → isFlagToken tok = true)
    (h : ∃ gs f a rest, flagGroups arguments = gs ++ (f, a) :: rest ∧
      (∀ g ∈ gs, registered g.1 = true ∧ continues g.1 g.2 = true) ∧
      ((isModulesFlag f = true ∧ a = []) ∨ (isLibrariesFlag f = true ∧ a.length ≠ 1))) :
    Extends Event.isQuiet s (argumentLoop W arguments.length arguments s).host := by
  obtain ⟨gs, f, a, rest, hgroups, hacc, hrej⟩ := h
  rw [argumentLoop_eq_dispatchGroups W _ _ _ (Nat.le_refl _) hfirst, hgroups]
  obtain ⟨s', hs', hext⟩ := dispatchGroups_accepted W gs ((f, a) :: rest) s hacc
  rw [hs']
  refine hext.trans ?_
  have hnohelp : isHelpFlag f = false := by
    rcases hrej with ⟨hf, _⟩ | ⟨hf, _⟩
    · exact (flag_kinds_of_modulesFlag hf).1
    · exact (flag_kinds_of_librariesFlag hf).1
  have hcont : continues f a = false := by
    rcases hrej with ⟨hf, ha⟩ | ⟨hf, ha⟩
    · simp [continues, hf, ha, (flag_kinds_of_modulesFlag hf).2]
    · have hm := (flag_kinds_of_librariesFlag hf).2
      cases a with
      | nil => simp [continues, hm]
      | cons x xs =>
        cases xs with
        | nil => simp at ha
        | cons y ys => simp [continues, hm]
  cases hfind : mapFind f argumentFunctions with
  | none =>
    exfalso
    have := (mapFind_eq_none_iff f).mp hfind
    rcases hrej with ⟨hf, _⟩ | ⟨hf, _⟩ <;> simp [registered, hf] at this
  | some fd =>
    have hne : fd.function ≠ Handler.renderHelp := by
      intro hfun
      rcases mapFind_argumentFunctions hfind with ⟨hflag, _⟩ | ⟨hflag, hfun'⟩ | ⟨hflag, hfun'⟩
      · rw [hflag] at hnohelp
        exact absurd hnohelp (by simp)
      · rw [hfun] at hfun'
        exact absurd hfun' (by simp)
      · rw [hfun] at hfun'
        exact absurd hfun' (by simp)
    obtain ⟨hres, _⟩ := run_result W hfind a (s'.emit [Event.call f a])
    cases hrun : fd.function.run W a (s'.emit [Event.call f a]) with
    | none =>
      simp only [dispatchGroups, hfind, hrun, Parsed.host]
      exact ⟨[Event.call f a], rfl, by simp [Event.isQuiet]⟩
    | some p =>
      obtain ⟨b, s2⟩ := p
      have hb : b = false := by rw [hres b s2 hrun, hcont]
      subst hb
      obtain ⟨es, he, hp⟩ := run_extends W fd.function a _ false s2 hrun
      simp only [dispatchGroups, hfind, hrun, Parsed.host]
      refine ⟨[Event.call f a] ++ es ++ [Event.ret false], ?_, ?_⟩
      · simp [Host.emit, he]
      · intro e hmem
        simp only [List.mem_append, List.mem_singleton] at hmem
        rcases hmem with (h | h) | h
        · subst h; rfl
        · exact (hp e h).2.2.2 hne
        · subst h; rfl

/-! ## After a `false` return -/

theorem finish_libraries {σ : Type} (W : LuaModule σ) (arguments : List String) (s4 : Host σ) :
    (finish W arguments s4).libraries = s4.libraries := by
  unfold finish
  split <;> simp [RenderHelp_libraries, ClearModules_libraries, invokeAll_libraries]

theorem runModules_libraries {σ : Type} (W : LuaModule σ) (fuel : Nat) (arguments : List String)
    (s1 : Host σ) : (runModules W fuel arguments s1).host.libraries = s1.libraries := by
  have h := tickLoop_libraries W fuel
    (invokeAll W "init" (executeAll W s1.modules s1).modules (executeAll W s1.modules s1))
  rw [invokeAll_libraries, executeAll_libraries] at h
  unfold runModules runTicks
  simp only []
  generalize tickLoop W fuel
    (invokeAll W "init" (executeAll W s1.modules s1).modules (executeAll W s1.modules s1)) = r at h
  obtain ⟨b, s4⟩ := r
  cases b with
  | false => simpa [Outcome.host] using h
  | true =>
    simp only [Outcome.host, finish_libraries]
    exact h

theorem Main_libraries {σ : Type} (W : LuaModule σ) (fuel : Nat) (fileName : String)
    (arguments : List String) (s : Host σ) :
    (Main W fuel fileName arguments s).host.libraries =
      (argumentLoop W arguments.length arguments s).host.libraries := by
  unfold Main
  cases argumentLoop W arguments.length arguments s with
  | uncaught s1 => rfl
  | done s1 => simpa [Parsed.host] using runModules_libraries W fuel arguments s1

theorem not_call_of_running {e : Event} (h : e.isRunning = true) : e.isCall = false := by
  cases e <;> simp_all [Event.isRunning, Event.isCall]

theorem not_construct_of_running {e : Event} (h : e.isRunning = true) :
    e.isConstruct = false := by
  cases e <;> simp_all [Event.isRunning, Event.isConstruct]

/-- If a call occurs once at the end of a trace and nowhere before, nothing
follows its occurrence. -/
theorem nil_of_snoc_eq {x : Event} {u t1 t2 : List Event} (hx : x ∉ u)
    (h : u ++ [x] = t1 ++ x :: t2) : t2 = [] := by
  rcases List.eq_nil_or_concat t2 with h2 | ⟨t2', y, h2⟩
  · exact h2
  · exfalso
    subst h2
    have h' : u ++ [x] = (t1 ++ x :: t2') ++ [y] := by
      rw [h]
      simp
    obtain ⟨hu, _⟩ := List.append_inj' h' rfl
    apply hx
    rw [hu]
    simp

/-- In the trace of the argument loop a `false` return is the last call. -/
theorem argumentLoop_false_return_last {σ : Type} (W : LuaModule σ) (fuel : Nat)
    (toks : List String) (s : Host σ) (h : Event.ret false ∉ s.trace) :
    ∀ t1 t2, (argumentLoop W fuel toks s).host.trace = t1 ++ Event.ret false :: t2 → t2 = [] := by
  have hvac : ∀ s' : Host σ, Event.ret false ∉ s'.trace →
      ∀ t1 t2, s'.trace = t1 ++ Event.ret false :: t2 → t2 = [] := by
    intro s' hs' t1 t2 heq
    exfalso
    apply hs'
    rw [heq]
    simp
  have hrun : ∀ (s : Host σ) (arg : String) (fd : FunctionData) (args : List String) (b : Bool)
      (s2 : Host σ), Event.ret false ∉ s.trace →
      fd.function.run W args (s.emit [Event.call arg args]) = some (b, s2) →
      Event.ret false ∉ s2.trace := by
    intro s arg fd args b s2 hs hrun
    obtain ⟨es, he, hp⟩ := run_extends W fd.function args _ b s2 hrun
    rw [he]
    simp only [Host.emit, List.mem_append, List.mem_singleton, not_or]
    refine ⟨⟨hs, by simp⟩, ?_⟩
    intro hmem
    exact (hp _ hmem).2.1 rfl
  refine argumentLoop_induct W (fun s => Event.ret false ∉ s.trace)
    (fun s => ∀ t1 t2, s.trace = t1 ++ Event.ret false :: t2 → t2 = []) ?_ ?_ ?_ ?_ ?_
    fuel toks s h
  · exact hvac
  · intro s hs
    apply hvac
    rw [RenderHelp_trace, ClearModules_trace]
    simp only [List.mem_append, List.mem_map, not_or]
    refine ⟨⟨hs, by simp⟩, ?_⟩
    intro hmem
    obtain ⟨line, hline⟩ := helpTopic_cout _ hmem
    simp at hline
  · intro s arg fd args hs _ _
    apply hvac
    simp only [Host.emit, List.mem_append, List.mem_singleton, not_or]
    exact ⟨hs, by simp⟩
  · intro s arg fd args s2 hs _ hrun'
    intro t1 t2 heq
    exact nil_of_snoc_eq (hrun s arg fd args false s2 hs hrun') heq
  · intro s arg fd args s2 hs _ hrun'
    simp only [Host.emit, List.mem_append, List.mem_singleton, not_or]
    exact ⟨hrun s arg fd args true s2 hs hrun', by simp⟩

/-- The argument loop on a command line that starts with `-h` or `--help`. -/
theorem argumentLoop_of_help {σ : Type} (W : LuaModule σ) (fuel : Nat) (flag : String)
    (rest : List String) (s : Host σ) (hflag : isHelpFlag flag = true) :
    argumentLoop W (fuel + 1) (flag :: rest) s =
      Parsed.done (s.emit ([Event.call flag (collectArgs rest []).1] ++ helpTopic
        ++ [Event.ret false])) := by
  simp only [isHelpFlag, Bool.or_eq_true, beq_iff_eq] at hflag
  have h1 : mapFind "-h" argumentFunctions
      = some ⟨Handler.renderHelp, "Shows this help topic", true⟩ := by decide
  have h2 : mapFind "--help" argumentFunctions = some ⟨Handler.renderHelp, "", false⟩ := by
    decide
  have h3 : isFlagToken "-h" = true := by decide
  have h4 : isFlagToken "--help" = true := by decide
  rcases hflag with h | h <;> subst h
  · simp [argumentLoop, h1, h3, Handler.run, RenderHelp, Host.emit]
  · simp [argumentLoop, h2, h4, Handler.run, RenderHelp, Host.emit]

/-! ## The return value of `AddModules` -/

theorem AddModules_result {σ : Type} (W : LuaModule σ) (args : List String) (s : Host σ) :
    (AddModules W args s).1 = !args.isEmpty := by
  cases args <;> simp [AddModules]

theorem takeWhile_append_flag (args : List String) (next : String) (rest : List String)
    (hargs : ∀ a ∈ args, isFlagToken a = false) (hnext : isFlagToken next = true) :
    (args ++ next :: rest).takeWhile (fun t => !isFlagToken t) = args ∧
    (args ++ next :: rest).dropWhile (fun t => !isFlagToken t) = next :: rest := by
  induction args with
  | nil => simp [List.takeWhile, List.dropWhile, hnext]
  | cons a as ih =>
    have ha : isFlagToken a = false := hargs a (by simp)
    have := ih (fun x hx => hargs x (List.mem_cons_of_mem _ hx))
    simp [List.takeWhile, List.dropWhile, ha, this]

/-- After a `-m`/`--modules` group with at least one path the argument loop
goes on with the next flag, whatever the constructors did. -/
theorem argumentLoop_after_batch {σ : Type} (W : LuaModule σ) (fuel : Nat) (flag : String)
    (args : List String) (next : String) (rest : List String) (s : Host σ)
    (hflag : isModulesFlag flag = true) (hne : args ≠ [])
    (hargs : ∀ a ∈ args, isFlagToken a = false) (hnext : isFlagToken next = true) :
    argumentLoop W (fuel + 1) (flag :: (args ++ next :: rest)) s =
      argumentLoop W fuel (next :: rest)
        ((AddModules W args (s.emit [Event.call flag args])).2.emit [Event.ret true]) := by
  obtain ⟨htake, hdrop⟩ := takeWhile_append_flag args next rest hargs hnext
  have hres := AddModules_result W args (s.emit [Event.call flag args])
  have hne' : args.isEmpty = false := by
    cases args with
    | nil => exact absurd rfl hne
    | cons a as => rfl
  rw [hne'] at hres
  have h1 : mapFind "-m" argumentFunctions
      = some ⟨Handler.addModules, "Add Lua modules to load", true⟩ := by decide
  have h2 : mapFind "--modules" argumentFunctions = some ⟨Handler.addModules, "", false⟩ := by
    decide
  have h3 : isFlagToken "-m" = true := by decide
  have h4 : isFlagToken "--modules" = true := by decide
  simp only [isModulesFlag, Bool.or_eq_true, beq_iff_eq] at hflag
  generalize hr : AddModules W args (s.emit [Event.call flag args]) = r at hres
  obtain ⟨b, s2⟩ := r
  simp only [] at hres
  subst hres
  rcases hflag with h | h <;> subst h
  · simp only [argumentLoop, h3, if_true, h1, collectArgs_eq, List.nil_append, htake, hdrop,
      Handler.run, hr]
    simp
  · simp only [argumentLoop, h4, if_true, h2, collectArgs_eq, List.nil_append, htake, hdrop,
      Handler.run, hr]
    simp


/-- A `-m`/`--modules` group that ends the command line. -/
theorem argumentLoop_last_batch {σ : Type} (W : LuaModule σ) (fuel : Nat) (flag : String)
    (args : List String) (s : Host σ) (hflag : isModulesFlag flag = true)
    (hargs : ∀ a ∈ args, isFlagToken a = false) :
    argumentLoop W (fuel + 1) (flag :: args) s =
      Parsed.done ((AddModules W args (s.emit [Event.call flag args])).2.emit
        [Event.ret (!args.isEmpty)]) := by
  have htake : args.takeWhile (fun t => !isFlagToken t) = args :=
    List.takeWhile_eq_self_iff.mpr (fun a ha => by simp [hargs a ha])
  have hdrop : args.dropWhile (fun t => !isFlagToken t) = [] :=
    List.dropWhile_eq_nil_iff.mpr (fun a ha => by simp [hargs a ha])
  have hres := AddModules_result W args (s.emit [Event.call flag args])
  have h1 : mapFind "-m" argumentFunctions
      = some ⟨Handler.addModules, "Add Lua modules to load", true⟩ := by decide
  have h2 : mapFind "--modules" argumentFunctions = some ⟨Handler.addModules, "", false⟩ := by
    decide
  have h3 : isFlagToken "-m" = true := by decide
  have h4 : isFlagToken "--modules" = true := by decide
  simp only [isModulesFlag, Bool.or_eq_true, beq_iff_eq] at hflag
  generalize hr : AddModules W args (s.emit [Event.call flag args]) = r at hres
  obtain ⟨b, s2⟩ := r
  simp only [] at hres
  subst hres
  rcases hflag with h | h <;> subst h
  · simp only [argumentLoop, h3, if_true, h1, collectArgs_eq, List.nil_append, htake, hdrop,
      Handler.run, hr]
    cases args <;> simp
  · simp only [argumentLoop, h4, if_true, h2, collectArgs_eq, List.nil_append, htake, hdrop,
      Handler.run, hr]
    cases args <;> simp

/-! ## What a batch registers -/

theorem mem_insertKey_iff {k x : String} {l : List String} :
    x ∈ insertKey k l ↔ x = k ∨ x ∈ l := by
  constructor
  · exact mem_of_mem_insertKey
  · rintro (h | h)
    · subst h
      exact mem_insertKey_self _ _
    · exact mem_insertKey_of_mem h

theorem addEach_cons_of_mem {σ : Type} (W : LuaModule σ) (a : String) (rest : List String)
    (s : Host σ) (h : a ∈ s.modules) : addEach W (a :: rest) s = addEach W rest s := by
  simp [addEach, h]

/-- The state after the constructor call for `a` in `AddModules`. -/
theorem addEach_cons_of_active {σ : Type} (W : LuaModule σ) (a : String) (rest : List String)
    (s : Host σ) (h : a ∉ s.modules)
    (hb : (W.construct a true s.libraries s.lua).1 = NewResult.built)
    (hact : W.IsActive a (W.construct a true s.libraries s.lua).2 = true) :
    addEach W (a :: rest) s = addEach W rest
      { s with lua := (W.construct a true s.libraries s.lua).2,
               modules := insertKey a s.modules,
               trace := s.trace ++ [Event.construct a s.libraries NewResult.built] } := by
  simp only [addEach, h, if_false]
  generalize W.construct a true s.libraries s.lua = r at hb hact
  obtain ⟨res, lua'⟩ := r
  simp only [] at hb hact
  subst hb
  simp [hact]

theorem addEach_cons_of_inactive {σ : Type} (W : LuaModule σ) (a : String) (rest : List String)
    (s : Host σ) (h : a ∉ s.modules)
    (hb : (W.construct a true s.libraries s.lua).1 = NewResult.built)
    (hact : W.IsActive a (W.construct a true s.libraries s.lua).2 = false) :
    addEach W (a :: rest) s = addEach W rest
      { s with lua := W.destruct a (W.construct a true s.libraries s.lua).2,
               trace := s.trace ++ [Event.construct a s.libraries NewResult.built]
                 ++ [Event.delete a] } := by
  simp only [addEach, h, if_false]
  generalize W.construct a true s.libraries s.lua = r at hb hact
  obtain ⟨res, lua'⟩ := r
  simp only [] at hb hact
  subst hb
  simp [hact]

/-- In a batch without a failed construction, the first constructor call
yields an object. -/
theorem built_of_no_failure {σ : Type} (W : LuaModule σ) (a : String) (rest : List String)
    (s : Host σ) (h : a ∉ s.modules)
    (hall : ∀ e ∈ (addEach W (a :: rest) s).since s, e.isFailedConstruct = false) :
    (W.construct a true s.libraries s.lua).1 = NewResult.built := by
  obtain ⟨es, he⟩ := addEach_cons_trace W a rest s h
  have := hall _ (by rw [since_of_trace he]; exact List.mem_cons_self _ _)
  simpa [Event.isFailedConstruct] using this

/-- The calls made after the first step of a batch are among those made since
its start. -/
theorem since_subset_of_step {σ : Type} (W : LuaModule σ) (rest : List String) (s s2 : Host σ)
    (ds : List Event) (hds : s2.trace = s.trace ++ ds) :
    ∀ e ∈ (addEach W rest s2).since s2, e ∈ (addEach W rest s2).since s := by
  intro e he
  obtain ⟨es, hes, _⟩ := addEach_loading W rest s2
  rw [since_of_trace hes] at he
  have hfull : (addEach W rest s2).trace = s.trace ++ (ds ++ es) := by
    rw [hes, hds, List.append_assoc]
  rw [since_of_trace hfull]
  exact List.mem_append_right _ he


/-- In a batch without a failed construction, a name that ends up registered
was registered before, or was built active at one of its requests. -/
theorem registered_of_batch {σ : Type} (W : LuaModule σ) (x : String) (args : List String)
    (s : Host σ)
    (hall : ∀ e ∈ (addEach W args s).since s, e.isFailedConstruct = false)
    (hx : x ∈ (addEach W args s).modules) :
    x ∈ s.modules ∨ ∃ pre post, args = pre ++ x :: post ∧ x ∉ (addEach W pre s).modules ∧
      W.IsActive x (W.construct x true s.libraries (addEach W pre s).lua).2 = true := by
  induction args generalizing s with
  | nil => exact Or.inl (by simpa [addEach] using hx)
  | cons a rest ih =>
    by_cases hmem : a ∈ s.modules
    · rw [addEach_cons_of_mem W a rest s hmem] at hall hx
      rcases ih s hall hx with h | ⟨pre, post, hsplit, hnot, hact⟩
      · exact Or.inl h
      · refine Or.inr ⟨a :: pre, post, by simp [hsplit], ?_, ?_⟩
        · rwa [addEach_cons_of_mem W a pre s hmem]
        · rwa [addEach_cons_of_mem W a pre s hmem]
    · have hb := built_of_no_failure W a rest s hmem hall
      by_cases hact : W.IsActive a (W.construct a true s.libraries s.lua).2 = true
      · have hstep := addEach_cons_of_active W a rest s hmem hb hact
        rw [hstep] at hx
        have hall' := fun e he => hall e (by
          rw [hstep]
          exact since_subset_of_step W rest s _ [Event.construct a s.libraries NewResult.built]
            rfl e he)
        rcases ih _ hall' hx with h | ⟨pre, post, hsplit, hnot, hact'⟩
        · rcases mem_insertKey_iff.mp h with h | h
          · subst h
            exact Or.inr ⟨[], rest, rfl, by simpa [addEach] using hmem,
              by simpa [addEach] using hact⟩
          · exact Or.inl h
        · refine Or.inr ⟨a :: pre, post, by simp [hsplit], ?_, ?_⟩
          · rwa [addEach_cons_of_active W a pre s hmem hb hact]
          · rwa [addEach_cons_of_active W a pre s hmem hb hact]
      · simp only [Bool.not_eq_true] at hact
        have hstep := addEach_cons_of_inactive W a rest s hmem hb hact
        rw [hstep] at hx
        have hall' := fun e he => hall e (by
          rw [hstep]
          exact since_subset_of_step W rest s _
            ([Event.construct a s.libraries NewResult.built] ++ [Event.delete a])
            (by simp) e he)
        rcases ih _ hall' hx with h | ⟨pre, post, hsplit, hnot, hact'⟩
        · exact Or.inl h
        · refine Or.inr ⟨a :: pre, post, by simp [hsplit], ?_, ?_⟩
          · rwa [addEach_cons_of_inactive W a pre s hmem hb hact]
          · rwa [addEach_cons_of_inactive W a pre s hmem hb hact]

/-- In a batch without a failed construction the loop gets through every
prefix of the batch, and no construction fails on the way. -/
theorem addEach_split_of_no_failure {σ : Type} (W : LuaModule σ) (pre post : List String)
    (s : Host σ)
    (hall : ∀ e ∈ (addEach W (pre ++ post) s).since s, e.isFailedConstruct = false) :
    addEach W (pre ++ post) s = addEach W post (addEach W pre s) ∧
      ∀ e ∈ (addEach W pre s).since s, e.isFailedConstruct = false := by
  induction pre generalizing s with
  | nil =>
    refine ⟨rfl, ?_⟩
    intro e he
    simp [addEach, Host.since] at he
  | cons a rest ih =>
    rw [List.cons_append] at hall ⊢
    by_cases hmem : a ∈ s.modules
    · rw [addEach_cons_of_mem W a _ s hmem] at hall ⊢
      rw [addEach_cons_of_mem W a rest s hmem]
      exact ih s hall
    · have hb := built_of_no_failure W a _ s hmem hall
      have key : ∀ (s2 : Host σ) (ds : List Event), s2.trace = s.trace ++ ds →
          (∀ e ∈ ds, e.isFailedConstruct = false) →
          addEach W (a :: (rest ++ post)) s = addEach W (rest ++ post) s2 →
          addEach W (a :: rest) s = addEach W rest s2 →
          addEach W (a :: (rest ++ post)) s = addEach W post (addEach W (a :: rest) s) ∧
            ∀ e ∈ (addEach W (a :: rest) s).since s, e.isFailedConstruct = false := by
        intro s2 ds hds hdsok h1 h2
        have hall' : ∀ e ∈ (addEach W (rest ++ post) s2).since s2,
            e.isFailedConstruct = false := fun e he => hall e (by
          rw [h1]
          exact since_subset_of_step W _ s s2 ds hds e he)
        obtain ⟨hsplit, hok⟩ := ih s2 hall'
        refine ⟨by rw [h1, h2, hsplit], ?_⟩
        rw [h2]
        intro e he
        obtain ⟨es, hes, _⟩ := addEach_loading W rest s2
        have hfull : (addEach W rest s2).trace = s.trace ++ (ds ++ es) := by
          rw [hes, hds, List.append_assoc]
        rw [since_of_trace hfull] at he
        rcases List.mem_append.mp he with h | h
        · exact hdsok e h
        · exact hok e (by rw [since_of_trace hes]; exact h)
      by_cases hact : W.IsActive a (W.construct a true s.libraries s.lua).2 = true
      · exact key _ [Event.construct a s.libraries NewResult.built] rfl
          (by simp [Event.isFailedConstruct])
          (addEach_cons_of_active W a _ s hmem hb hact)
          (addEach_cons_of_active W a rest s hmem hb hact)
      · simp only [Bool.not_eq_true] at hact
        exact key _ ([Event.construct a s.libraries NewResult.built] ++ [Event.delete a])
          (by simp) (by simp [Event.isFailedConstruct])
          (addEach_cons_of_inactive W a _ s hmem hb hact)
          (addEach_cons_of_inactive W a rest s hmem hb hact)


theorem AddModules_snd {σ : Type} (W : LuaModule σ) (args : List String) (s : Host σ) :
    (AddModules W args s).2 = addEach W args s := by
  cases args <;> simp [AddModules, addEach]

/-! ## One tick pass, module by module -/

theorem eraseKey_eq_erase (k : String) (l : List String) : eraseKey k l = l.erase k := by
  induction l with
  | nil => rfl
  | cons a rest ih =>
    by_cases h : a = k
    · subst h
      simp [eraseKey]
    · have h' : ¬ (a == k) = true := by simpa using h
      simp [eraseKey, h, List.erase_cons, h', ih]

theorem nodup_eraseEach (d : List String) (m : List String) (hm : m.Nodup) :
    (eraseEach d m).Nodup := by
  induction d generalizing m with
  | nil => simpa [eraseEach] using hm
  | cons a rest ih =>
    simp only [eraseEach]
    split
    · rw [eraseKey_eq_erase]
      exact ih _ (hm.erase a)
    · exact ih _ hm

/-- On a registry without duplicates the erase loop removes exactly the names
of `disabled_modules`. -/
theorem mem_eraseEach_iff (d : List String) (m : List String) (hm : m.Nodup) (x : String) :
    x ∈ eraseEach d m ↔ x ∈ m ∧ x ∉ d := by
  induction d generalizing m with
  | nil => simp [eraseEach]
  | cons a rest ih =>
    simp only [eraseEach]
    split
    · rw [eraseKey_eq_erase, ih _ (hm.erase a), hm.mem_erase_iff]
      simp only [List.mem_cons, not_or]
      tauto
    · rename_i hnot
      rw [ih _ hm]
      simp only [List.mem_cons, not_or]
      constructor
      · rintro ⟨h1, h2⟩
        exact ⟨h1, fun h => hnot (h ▸ h1), h2⟩
      · rintro ⟨h1, _, h2⟩
        exact ⟨h1, h2⟩

theorem tickEach_append {σ : Type} (W : LuaModule σ) (l1 l2 : List String) (s : Host σ)
    (d : List String) :
    tickEach W (l1 ++ l2) s d = tickEach W l2 (tickEach W l1 s d).1 (tickEach W l1 s d).2 := by
  induction l1 generalizing s d with
  | nil => rfl
  | cons a rest ih =>
    simp only [List.cons_append, tickEach]
    split
    · split <;> exact ih _ _
    · exact ih _ _

/-- The dispatch loop only adds names it iterates over to `disabled_modules`. -/
theorem tickEach_disabled {σ : Type} (W : LuaModule σ) (l : List String) (s : Host σ)
    (d : List String) :
    ∃ extra, (tickEach W l s d).2 = d ++ extra ∧ ∀ x ∈ extra, x ∈ l := by
  induction l generalizing s d with
  | nil => exact ⟨[], by simp [tickEach], by simp⟩
  | cons a rest ih =>
    have key : ∀ (s' : Host σ), ∃ extra, (tickEach W rest s' (d ++ [a])).2 = d ++ extra ∧
        ∀ x ∈ extra, x ∈ a :: rest := by
      intro s'
      obtain ⟨extra, he, hp⟩ := ih s' (d ++ [a])
      refine ⟨a :: extra, by simp [he], ?_⟩
      intro x hx
      rcases List.mem_cons.mp hx with h | h
      · simp [h]
      · exact List.mem_cons_of_mem _ (hp x h)
    have key2 : ∀ (s' : Host σ), ∃ extra, (tickEach W rest s' d).2 = d ++ extra ∧
        ∀ x ∈ extra, x ∈ a :: rest := by
      intro s'
      obtain ⟨extra, he, hp⟩ := ih s' d
      exact ⟨extra, he, fun x hx => List.mem_cons_of_mem _ (hp x hx)⟩
    simp only [tickEach]
    split
    · split
      · exact key _
      · exact key2 _
    · exact key _

theorem tickCount_append (name : String) (es fs : List Event) :
    tickCount name (es ++ fs) = tickCount name es + tickCount name fs := by
  simp [tickCount, List.countP_append]

theorem passCount_append (es fs : List Event) :
    passCount (es ++ fs) = passCount es + passCount fs := by
  simp [passCount, List.countP_append]

/-- The dispatch loop over modules other than `name` makes no call on `name`
and does not sleep. -/
theorem tickEach_counts {σ : Type} (W : LuaModule σ) (l : List String) (s : Host σ)
    (d : List String) :
    ∃ es, (tickEach W l s d).1.trace = s.trace ++ es ∧ passCount es = 0 ∧
      ∀ name, name ∉ l → tickCount name es = 0 := by
  obtain ⟨es, he, hp⟩ := tickEach_trace W l s d
  refine ⟨es, he, ?_, ?_⟩
  · simp only [passCount, List.countP_eq_zero]
    intro e hmem
    obtain ⟨n, _, rfl⟩ := hp e hmem
    simp
  · intro name hname
    simp only [tickCount, List.countP_eq_zero]
    intro e hmem
    obtain ⟨n, hn, rfl⟩ := hp e hmem
    have : n ≠ name := fun h => hname (h ▸ hn)
    simpa using this

theorem takeWhile_ne_of_split (pre post : List String) (name : String) (h : name ∉ pre) :
    (pre ++ name :: post).takeWhile (fun n => n != name) = pre := by
  induction pre with
  | nil => simp [List.takeWhile]
  | cons a rest ih =>
    have ha : a ≠ name := fun heq => h (by simp [heq])
    have hr : name ∉ rest := fun hmem => h (List.mem_cons_of_mem _ hmem)
    have hne : (a != name) = true := by simpa using ha
    rw [List.cons_append, List.takeWhile_cons, hne]
    simp only [if_true]
    rw [ih hr]

/-- What the dispatch loop over modules other than `name` does that matters
for `name`: nothing. -/
theorem tickEach_other {σ : Type} (W : LuaModule σ) (l : List String) (s : Host σ)
    (d : List String) (name : String) (hname : name ∉ l) :
    (name ∈ (tickEach W l s d).2 ↔ name ∈ d) ∧
    ∃ es, (tickEach W l s d).1.trace = s.trace ++ es ∧ tickCount name es = 0 := by
  obtain ⟨extra, hd, hextra⟩ := tickEach_disabled W l s d
  obtain ⟨es, he, _, hcount⟩ := tickEach_counts W l s d
  refine ⟨?_, es, he, hcount name hname⟩
  rw [hd, List.mem_append]
  constructor
  · rintro (h | h)
    · exact h
    · exact absurd (hextra name h) hname
  · exact Or.inl

/-- The turn of one module in a tick pass.  Let `name` be registered in `s`,
in a registry without duplicates.  In the pass that starts in `s` the module
receives one `tick` if its turn finds it active and none otherwise, and it is
registered after the pass exactly when it is active right after its turn. -/
theorem tickPass_turn {σ : Type} (W : LuaModule σ) (s : Host σ) (name : String)
    (hs : s.modules.Nodup) (hin : name ∈ s.modules) :
    tickCount name ((tickPass W s).since s)
      = (if W.IsActive name (turnState W name s) then 1 else 0) ∧
    (name ∈ (tickPass W s).modules ↔
      W.IsActive name (afterTurn W name (turnState W name s)) = true) := by
  obtain ⟨pre, post, hsplit⟩ := List.append_of_mem hin
  have hnd := hs
  rw [hsplit] at hnd
  have hpre : name ∉ pre := by
    intro h
    have := (List.nodup_append.mp hnd).2.2
    exact this h (List.mem_cons_self _ _)
  have hpost : name ∉ post :=
    (List.nodup_cons.mp (List.nodup_append.mp hnd).2.1).1
  have hturn : turnState W name s = (tickEach W pre s []).1.lua := by
    simp only [turnState]
    rw [hsplit, takeWhile_ne_of_split pre post name hpre]
  rw [hturn]
  obtain ⟨h1d, e1, h1t, h1c⟩ := tickEach_other W pre s [] name hpre
  have h1d' : name ∉ (tickEach W pre s []).2 := fun h => by simpa using h1d.mp h
  have hmods : (tickPass W s).modules = eraseEach (tickEach W s.modules s []).2 s.modules := by
    simp [tickPass, tickEach_modules]
  have htrace : (tickPass W s).trace = (tickEach W s.modules s []).1.trace ++ [Event.sleep 5] := by
    simp [tickPass]
  have hrun : tickEach W s.modules s []
      = tickEach W (name :: post) (tickEach W pre s []).1 (tickEach W pre s []).2 := by
    conv_lhs => rw [hsplit]
    exact tickEach_append W pre (name :: post) s []
  rw [hmods, mem_eraseEach_iff _ _ hs, hrun]
  generalize tickEach W pre s [] = r1 at h1t h1d' hrun ⊢
  obtain ⟨t, d1⟩ := r1
  simp only [] at h1t h1d' hrun ⊢
  have hsince : ∀ (r : Host σ × List String) (mid e3 : List Event),
      r.1.trace = t.trace ++ mid ++ e3 → tickCount name e3 = 0 →
      tickEach W s.modules s [] = r →
      tickCount name ((tickPass W s).since s) = tickCount name mid := by
    intro r mid e3 hr h3 heq
    have : (tickPass W s).trace = s.trace ++ (e1 ++ mid ++ e3 ++ [Event.sleep 5]) := by
      rw [htrace, heq, hr, h1t]
      simp
    rw [since_of_trace this]
    simp only [tickCount_append, h1c, h3]
    simp [tickCount]
  by_cases hact : W.IsActive name t.lua = true
  · by_cases hafter : W.IsActive name (W.InvokeEvent name "tick" t.lua) = true
    · have hstep : tickEach W (name :: post) t d1 = tickEach W post
          { t with lua := W.InvokeEvent name "tick" t.lua,
                   trace := t.trace ++ [Event.invokeEvent name "tick"] } d1 := by
        simp [tickEach, hact, hafter]
      obtain ⟨h3d, e3, h3t, h3c⟩ := tickEach_other W post
        { t with lua := W.InvokeEvent name "tick" t.lua,
                 trace := t.trace ++ [Event.invokeEvent name "tick"] } d1 name hpost
      refine ⟨?_, ?_⟩
      · rw [hsince _ [Event.invokeEvent name "tick"] e3 h3t h3c (by rw [hrun, hstep])]
        simp [tickCount, hact]
      · rw [hstep]
        simp only [afterTurn, hact, if_true, hafter, iff_true]
        exact ⟨hin, fun h => h1d' (h3d.mp h)⟩
    · simp only [Bool.not_eq_true] at hafter
      have hstep : tickEach W (name :: post) t d1 = tickEach W post
          { t with lua := W.InvokeEvent name "tick" t.lua,
                   trace := t.trace ++ [Event.invokeEvent name "tick"] } (d1 ++ [name]) := by
        simp [tickEach, hact, hafter]
      obtain ⟨h3d, e3, h3t, h3c⟩ := tickEach_other W post
        { t with lua := W.InvokeEvent name "tick" t.lua,
                 trace := t.trace ++ [Event.invokeEvent name "tick"] } (d1 ++ [name]) name hpost
      refine ⟨?_, ?_⟩
      · rw [hsince _ [Event.invokeEvent name "tick"] e3 h3t h3c (by rw [hrun, hstep])]
        simp [tickCount, hact]
      · rw [hstep]
        simp only [afterTurn, hact, if_true, hafter]
        constructor
        · rintro ⟨_, h⟩
          exact absurd (h3d.mpr (by simp)) h
        · intro h
          exact absurd h (by simp)
  · simp only [Bool.not_eq_true] at hact
    have hstep : tickEach W (name :: post) t d1 = tickEach W post t (d1 ++ [name]) := by
      simp [tickEach, hact]
    obtain ⟨h3d, e3, h3t, h3c⟩ := tickEach_other W post t (d1 ++ [name]) name hpost
    refine ⟨?_, ?_⟩
    · rw [hsince _ [] e3 (by simpa using h3t) h3c (by rw [hrun, hstep])]
      simp [tickCount, hact]
    · rw [hstep]
      simp only [afterTurn, hact]
      constructor
      · rintro ⟨_, h⟩
        exact absurd (h3d.mpr (by simp)) h
      · intro h
        simp only [Bool.false_eq_true, if_false] at h
        rw [hact] at h
        exact absurd h (by simp)

/-! ## The tick passes one after the other -/

theorem nodup_tickPass {σ : Type} (W : LuaModule σ) (s : Host σ) (hs : s.modules.Nodup) :
    (tickPass W s).modules.Nodup := by
  have : (tickPass W s).modules = eraseEach (tickEach W s.modules s []).2 s.modules := by
    simp [tickPass, tickEach_modules]
  rw [this]
  exact nodup_eraseEach _ _ hs

/-- One pass: its calls end with the one sleep, and it makes no call on a
module that is not registered. -/
theorem tickPass_counts {σ : Type} (W : LuaModule σ) (s : Host σ) :
    ∃ es, (tickPass W s).trace = s.trace ++ es ∧ passCount es = 1 ∧
      ∀ name, name ∉ s.modules → tickCount name es = 0 := by
  obtain ⟨es, he, hp, hc⟩ := tickEach_counts W s.modules s []
  refine ⟨es ++ [Event.sleep 5], by simp [tickPass, he], ?_, ?_⟩
  · rw [passCount_append, hp]
    simp [passCount]
  · intro name hname
    rw [tickCount_append, hc name hname]
    simp [tickCount]

theorem nodup_passes {σ : Type} (W : LuaModule σ) (p : Nat) (s : Host σ)
    (hs : s.modules.Nodup) : ((tickPass W)^[p] s).modules.Nodup := by
  induction p with
  | zero => exact hs
  | succ p ih =>
    rw [Function.iterate_succ_apply']
    exact nodup_tickPass W _ ih

/-- The first `p` passes make exactly `p` sleeps. -/
theorem passes_trace {σ : Type} (W : LuaModule σ) (p : Nat) (s : Host σ) :
    ∃ es, ((tickPass W)^[p] s).trace = s.trace ++ es ∧ passCount es = p := by
  induction p with
  | zero => exact ⟨[], by simp, by simp [passCount]⟩
  | succ p ih =>
    obtain ⟨es, he, hp⟩ := ih
    obtain ⟨fs, hf, hq, _⟩ := tickPass_counts W ((tickPass W)^[p] s)
    rw [Function.iterate_succ_apply']
    refine ⟨es ++ fs, by rw [hf, he, List.append_assoc], ?_⟩
    rw [passCount_append, hp, hq]

theorem passes_modules_subset {σ : Type} (W : LuaModule σ) (p : Nat) (s : Host σ) {x : String}
    (h : x ∈ ((tickPass W)^[p] s).modules) : x ∈ s.modules := by
  induction p with
  | zero => exact h
  | succ p ih =>
    rw [Function.iterate_succ_apply'] at h
    exact ih (tickPass_modules_subset W _ h)

/-- The calls of pass `p + 1` follow those of the first `p` passes. -/
theorem since_passes_succ {σ : Type} (W : LuaModule σ) (p : Nat) (s : Host σ) :
    ((tickPass W)^[p + 1] s).since s =
      ((tickPass W)^[p] s).since s
        ++ (tickPass W ((tickPass W)^[p] s)).since ((tickPass W)^[p] s) := by
  obtain ⟨es, he, _⟩ := passes_trace W p s
  obtain ⟨fs, hf, _, _⟩ := tickPass_counts W ((tickPass W)^[p] s)
  rw [Function.iterate_succ_apply', since_of_trace he, since_of_trace hf]
  have : (tickPass W ((tickPass W)^[p] s)).trace = s.trace ++ (es ++ fs) := by
    rw [hf, he, List.append_assoc]
  rw [since_of_trace this]

/-- A module that needs `k` tick invocations to become inactive is registered
at the head of pass `p + 1` exactly when `p < max k 1`, and has received
`min p k` tick invocations by then. -/
theorem presence_of_stopsAtTick {σ : Type} (W : LuaModule σ) (s : Host σ) (name : String)
    (k : Nat) (hs : s.modules.Nodup) (hin : name ∈ s.modules)
    (h : StopsAtTick W name k s) (p : Nat) :
    (name ∈ ((tickPass W)^[p] s).modules ↔ p < max k 1) ∧
      tickCount name (((tickPass W)^[p] s).since s) = min p k := by
  induction p with
  | zero =>
    refine ⟨?_, ?_⟩
    · simp only [Function.iterate_zero, id_eq, hin, true_iff]
      omega
    · simp [Host.since, tickCount]
  | succ p ih =>
    obtain ⟨ihmem, ihcount⟩ := ih
    rw [since_passes_succ, tickCount_append, ihcount]
    by_cases hp : p < max k 1
    · have hreg := ihmem.mpr hp
      obtain ⟨hcount, hmem⟩ := tickPass_turn W ((tickPass W)^[p] s) name
        (nodup_passes W p s hs) hreg
      rw [Function.iterate_succ_apply', hmem, hcount]
      by_cases hk : k = 0
      · subst hk
        have hp0 : p = 0 := by omega
        subst hp0
        have hoff := h.2 rfl
        simp only [Function.iterate_zero, id_eq, afterTurn]
        simp [hoff]
      · have hpk : p < k := by omega
        obtain ⟨hact, hafter⟩ := h.1 p hpk
        simp only [afterTurn, hact, if_true, hafter, decide_eq_true_eq]
        refine ⟨?_, ?_⟩
        · omega
        · omega
    · have hout : name ∉ ((tickPass W)^[p] s).modules := fun hmem => hp (ihmem.mp hmem)
      obtain ⟨fs, hf, _, hnone⟩ := tickPass_counts W ((tickPass W)^[p] s)
      rw [since_of_trace hf, hnone name hout]
      refine ⟨?_, by omega⟩
      rw [Function.iterate_succ_apply']
      constructor
      · intro hmem
        exact absurd (tickPass_modules_subset W _ hmem) hout
      · intro hlt
        omega

/-- The tick loop runs pass after pass: it stands after some number `j` of
passes, each started on a registry that was not empty; if it was left the
registry is empty, and if not all the allowed passes were made. -/
theorem tickLoop_passes {σ : Type} (W : LuaModule σ) (fuel : Nat) (s : Host σ) :
    ∃ j, j ≤ fuel ∧ (tickLoop W fuel s).2 = (tickPass W)^[j] s ∧
      (∀ i, i < j → ((tickPass W)^[i] s).modules ≠ []) ∧
      ((tickLoop W fuel s).1 = true → ((tickPass W)^[j] s).modules = []) ∧
      ((tickLoop W fuel s).1 = false → j = fuel ∧ ((tickPass W)^[j] s).modules ≠ []) := by
  induction fuel generalizing s with
  | zero =>
    refine ⟨0, Nat.le_refl _, ?_, by simp, ?_, ?_⟩
    · unfold tickLoop
      split <;> rfl
    · unfold tickLoop
      split
      · simp
      · rename_i hlen
        intro _
        simpa using hlen
    · unfold tickLoop
      split
      · rename_i hlen
        intro _
        refine ⟨rfl, ?_⟩
        intro h0
        simp only [Function.iterate_zero, id_eq] at h0
        simp [h0] at hlen
      · simp
  | succ fuel ih =>
    by_cases hlen : s.modules.length > 0
    · obtain ⟨j, hj, heq, hrun, hleft, hstill⟩ := ih (tickPass W s)
      have hunf : tickLoop W (fuel + 1) s = tickLoop W fuel (tickPass W s) := by
        conv_lhs => unfold tickLoop
        simp [hlen]
      refine ⟨j + 1, by omega, ?_, ?_, ?_, ?_⟩
      · rw [hunf, heq, Function.iterate_succ_apply]
      · intro i hi
        cases i with
        | zero =>
          intro h0
          simp only [Function.iterate_zero, id_eq] at h0
          simp [h0] at hlen
        | succ i =>
          rw [Function.iterate_succ_apply]
          exact hrun i (by omega)
      · rw [hunf, Function.iterate_succ_apply]
        exact hleft
      · rw [hunf, Function.iterate_succ_apply]
        intro hf
        obtain ⟨h1, h2⟩ := hstill hf
        exact ⟨by omega, h2⟩
    · have hunf : tickLoop W (fuel + 1) s = (true, s) := by
        conv_lhs => unfold tickLoop
        simp [hlen]
      refine ⟨0, by omega, by rw [hunf]; rfl, by simp, ?_, ?_⟩
      · intro _
        simpa using hlen
      · rw [hunf]
        simp

/-! ## The tick loop within a run of `Main` -/

theorem tickHead_modules {σ : Type} (W : LuaModule σ) (s1 : Host σ) :
    (tickHead W s1).modules = s1.modules := by
  rw [tickHead, invokeAll_modules, executeAll_modules]

theorem tickHead_trace {σ : Type} (W : LuaModule σ) (s1 : Host σ) :
    (tickHead W s1).trace = s1.trace ++ s1.modules.map Event.execute
      ++ s1.modules.map (fun n => Event.invokeEvent n "init") := by
  rw [tickHead, invokeAll_trace, executeAll_trace, executeAll_modules]

/-- Calls outside the tick loop count neither as a `tick` nor as a pass. -/
theorem counts_of_not_ticking (name : String) (es : List Event)
    (h : ∀ e ∈ es, e.isTicking = false) : tickCount name es = 0 ∧ passCount es = 0 := by
  refine ⟨?_, ?_⟩
  · rw [tickCount, List.countP_eq_zero]
    intro e hmem heq
    have he : e = Event.invokeEvent name "tick" := by simpa using heq
    have := h e hmem
    rw [he] at this
    simp [Event.isTicking] at this
  · rw [passCount, List.countP_eq_zero]
    intro e hmem heq
    have he : e = Event.sleep 5 := by simpa using heq
    have := h e hmem
    rw [he] at this
    simp [Event.isTicking] at this

theorem not_ticking_of_loading {e : Event} (h : e.isLoading = true) : e.isTicking = false := by
  cases e <;> simp_all [Event.isLoading, Event.isTicking]

/-- When the argument loop has ended in `s1`, `Main` is the tick loop started
at the head state and what follows it. -/
theorem Main_of_loaded {σ : Type} (W : LuaModule σ) (fuel : Nat) (fileName : String)
    (arguments : List String) (s s1 : Host σ)
    (hload : argumentLoop W arguments.length arguments s = Parsed.done s1) :
    Main W fuel fileName arguments s = runTicks W fuel arguments (tickHead W s1) := by
  unfold Main
  rw [hload]
  rfl

/-- The calls of `runTicks`: those of the tick loop, then calls that are no
`tick` and no sleep; it returns 0 when the loop is left. -/
theorem runTicks_since {σ : Type} (W : LuaModule σ) (fuel : Nat) (arguments : List String)
    (s : Host σ) :
    ∃ post, (runTicks W fuel arguments s).host.trace =
        s.trace ++ (tickLoop W fuel s).2.since s ++ post ∧
      (∀ e ∈ post, e.isTicking = false) ∧
      ((tickLoop W fuel s).1 = true → (runTicks W fuel arguments s).code = some 0) := by
  obtain ⟨es, he, _⟩ := tickLoop_trace W fuel s
  have hleft := tickLoop_left_modules W fuel s
  rw [since_of_trace he]
  unfold runTicks
  generalize tickLoop W fuel s = r at he hleft
  obtain ⟨b, s4⟩ := r
  cases b with
  | false =>
    refine ⟨[], ?_, by simp, by simp⟩
    simpa [Outcome.host] using he
  | true =>
    obtain ⟨fs, hf, hq⟩ := finish_trace W arguments s4 (hleft rfl)
    refine ⟨fs, ?_, ?_, fun _ => rfl⟩
    · simp only [Outcome.host]
      rw [hf]
      simp only at he
      rw [he]
    · intro e hmem
      obtain ⟨_, line, hl⟩ := hq e hmem
      rw [hl]
      rfl

/-- The `tick` invocations and the passes of a whole run are those of its
tick loop. -/
theorem Main_counts {σ : Type} (W : LuaModule σ) (fuel : Nat) (fileName : String)
    (arguments : List String) (recommended : Int) (w : σ) (s1 : Host σ)
    (hload : argumentLoop W arguments.length arguments (Host.initial recommended w)
      = Parsed.done s1) (name : String) :
    tickCount name (Main W fuel fileName arguments (Host.initial recommended w)).host.trace =
      tickCount name ((tickLoop W fuel (tickHead W s1)).2.since (tickHead W s1)) ∧
    passCount (Main W fuel fileName arguments (Host.initial recommended w)).host.trace =
      passCount ((tickLoop W fuel (tickHead W s1)).2.since (tickHead W s1)) := by
  rw [Main_of_loaded W fuel fileName arguments _ s1 hload]
  obtain ⟨post, hp, hpost, _⟩ := runTicks_since W fuel arguments (tickHead W s1)
  have hload1 := argumentLoop_loading W arguments.length arguments (Host.initial recommended w)
  rw [hload] at hload1
  obtain ⟨ls, hls, hlq⟩ := hload1
  simp only [Parsed.host, Host.initial, List.nil_append] at hls
  have hhead : ∀ e ∈ (tickHead W s1).trace, e.isTicking = false := by
    intro e hmem
    rw [tickHead_trace, hls] at hmem
    rcases List.mem_append.mp hmem with h | h
    · rcases List.mem_append.mp h with h | h
      · exact not_ticking_of_loading (hlq e h)
      · obtain ⟨n, _, rfl⟩ := List.mem_map.mp h
        rfl
    · obtain ⟨n, _, rfl⟩ := List.mem_map.mp h
      rfl
  obtain ⟨h1, h2⟩ := counts_of_not_ticking name _ hhead
  obtain ⟨h3, h4⟩ := counts_of_not_ticking name _ hpost
  rw [hp, tickCount_append, tickCount_append, passCount_append, passCount_append, h1, h2, h3, h4]
  simp

/-- The registry of a run has no duplicate names at the head of the tick
loop. -/
theorem tickHead_nodup {σ : Type} (W : LuaModule σ) (arguments : List String)
    (recommended : Int) (w : σ) (s1 : Host σ)
    (hload : argumentLoop W arguments.length arguments (Host.initial recommended w)
      = Parsed.done s1) : (tickHead W s1).modules.Nodup := by
  have h := argumentLoop_nodup W arguments.length arguments (Host.initial recommended w)
    List.nodup_nil
  rw [hload] at h
  rw [tickHead_modules]
  exact h

/-- A module that needs `k` tick invocations has received exactly `k` once the
loop has been followed for `k` passes or more. -/
theorem tickLoop_tickCount {σ : Type} (W : LuaModule σ) (fuel : Nat) (s : Host σ)
    (name : String) (k : Nat) (hs : s.modules.Nodup) (hin : name ∈ s.modules)
    (h : StopsAtTick W name k s) (hfuel : k ≤ fuel) :
    tickCount name ((tickLoop W fuel s).2.since s) = k := by
  obtain ⟨j, hj, heq, _, hleft, hstill⟩ := tickLoop_passes W fuel s
  obtain ⟨hmem, hcount⟩ := presence_of_stopsAtTick W s name k hs hin h j
  rw [heq, hcount]
  cases hb : (tickLoop W fuel s).1 with
  | true =>
    have hnil := hleft hb
    have hout : ¬ j < max k 1 := by
      intro hlt
      have := hmem.mpr hlt
      rw [hnil] at this
      simp at this
    omega
  | false =>
    obtain ⟨hjf, _⟩ := hstill hb
    omega

theorem lt_foldr_max_iff (need : String → Nat) (l : List String) (p : Nat) :
    p < (l.map need).foldr max 0 ↔ ∃ n ∈ l, p < need n := by
  induction l with
  | nil => simp
  | cons a rest ih =>
    simp only [List.map_cons, List.foldr_cons, lt_max_iff, ih, List.mem_cons, exists_eq_or_imp]

theorem lt_passesNeeded_iff (need : String → Nat) (l : List String) (p : Nat) :
    p < passesNeeded need l ↔ ∃ n ∈ l, p < max (need n) 1 := by
  unfold passesNeeded
  split
  · rename_i hnil
    simp [hnil]
  · rename_i hne
    obtain ⟨a, ha⟩ := List.exists_mem_of_ne_nil l hne
    rw [lt_max_iff, lt_foldr_max_iff]
    constructor
    · rintro (h | ⟨n, hn, hlt⟩)
      · exact ⟨a, ha, lt_max_iff.mpr (Or.inr h)⟩
      · exact ⟨n, hn, lt_max_iff.mpr (Or.inl hlt)⟩
    · rintro ⟨n, hn, hlt⟩
      rcases lt_max_iff.mp hlt with h | h
      · exact Or.inr ⟨n, hn, h⟩
      · exact Or.inl h

/-- When every registered module needs finitely many tick invocations, the
registry at the head of pass `p + 1` is not empty exactly when `p` is below the
number of passes needed. -/
theorem passes_nonempty_iff {σ : Type} (W : LuaModule σ) (s : Host σ) (need : String → Nat)
    (hs : s.modules.Nodup) (h : ∀ n ∈ s.modules, StopsAtTick W n (need n) s) (p : Nat) :
    ((tickPass W)^[p] s).modules ≠ [] ↔ p < passesNeeded need s.modules := by
  rw [lt_passesNeeded_iff]
  constructor
  · intro hne
    obtain ⟨n, hn⟩ := List.exists_mem_of_ne_nil _ hne
    have hreg := passes_modules_subset W p s hn
    exact ⟨n, hreg, (presence_of_stopsAtTick W s n (need n) hs hreg (h n hreg) p).1.mp hn⟩
  · rintro ⟨n, hn, hlt⟩
    have := (presence_of_stopsAtTick W s n (need n) hs hn (h n hn) p).1.mpr hlt
    exact List.ne_nil_of_mem this

/-- When every registered module needs finitely many tick invocations and the
loop is followed long enough, it is left after exactly the passes needed. -/
theorem tickLoop_of_stopsAtTick {σ : Type} (W : LuaModule σ) (fuel : Nat) (s : Host σ)
    (need : String → Nat) (hs : s.modules.Nodup)
    (h : ∀ n ∈ s.modules, StopsAtTick W n (need n) s)
    (hfuel : passesNeeded need s.modules ≤ fuel) :
    (tickLoop W fuel s).1 = true ∧
      (tickLoop W fuel s).2 = (tickPass W)^[passesNeeded need s.modules] s ∧
      passCount ((tickLoop W fuel s).2.since s) = passesNeeded need s.modules := by
  obtain ⟨j, hj, heq, hrun, hleft, hstill⟩ := tickLoop_passes W fuel s
  have hiff := passes_nonempty_iff W s need hs h
  have hjle : j ≤ passesNeeded need s.modules := by
    by_contra hlt
    have hlt1 : passesNeeded need s.modules < j := by omega
    have := (hiff _).mp (hrun _ hlt1)
    omega
  have hb : (tickLoop W fuel s).1 = true := by
    cases hb : (tickLoop W fuel s).1 with
    | true => rfl
    | false =>
      obtain ⟨hjf, hne⟩ := hstill hb
      have := (hiff j).mp hne
      omega
  have hjeq : j = passesNeeded need s.modules := by
    have hnil := hleft hb
    have : ¬ j < passesNeeded need s.modules := by
      intro hlt
      exact (hiff j).mpr hlt hnil
    omega
  refine ⟨hb, by rw [heq, hjeq], ?_⟩
  rw [heq, hjeq]
  obtain ⟨es, he, hp⟩ := passes_trace W (passesNeeded need s.modules) s
  rw [since_of_trace he, hp]

/-! ## What the two passes before the tick loop do to the modules -/

/-- The `Execute` loop applies `Execute()` to the modules in turn. -/
theorem executeAll_lua {σ : Type} (W : LuaModule σ) (l : List String) (s : Host σ) :
    (executeAll W l s).lua = l.foldl (fun v n => W.Execute n v) s.lua := by
  induction l generalizing s with
  | nil => simp [executeAll]
  | cons name rest ih => simp [executeAll, ih]

/-- The `InvokeEvent` loop applies `InvokeEvent(event)` to the modules in
turn. -/
theorem invokeAll_lua {σ : Type} (W : LuaModule σ) (event : String) (l : List String)
    (s : Host σ) :
    (invokeAll W event l s).lua = l.foldl (fun v n => W.InvokeEvent n event v) s.lua := by
  induction l generalizing s with
  | nil => simp [invokeAll]
  | cons name rest ih => simp [invokeAll, ih]

theorem tickHead_lua {σ : Type} (W : LuaModule σ) (s1 : Host σ) :
    (tickHead W s1).lua =
      s1.modules.foldl (fun v n => W.InvokeEvent n "init" v)
        (s1.modules.foldl (fun v n => W.Execute n v) s1.lua) := by
  rw [tickHead, invokeAll_lua, executeAll_lua, executeAll_modules]

theorem tickHead_libraries {σ : Type} (W : LuaModule σ) (s1 : Host σ) :
    (tickHead W s1).libraries = s1.libraries := by
  rw [tickHead, invokeAll_libraries, executeAll_libraries]

/-! # The claims -/

/-! ## C1 -/

/-- C1.  `Main` makes two complete, separate passes over the registry as it
stands when the argument loop ends: its calls are those of argument processing
(none of them an `Execute` or an `InvokeEvent("init")`), then one `Execute` per
registered module, then one `InvokeEvent("init")` per registered module, then
calls that are neither; the registry holds no name twice.  The passes act on
the modules as they are logged: `Main` enters the tick loop in the state
`tickHead`, which has the same registry, and whose Lua state is the one
argument processing left, with `Execute()` applied for every registered module
in turn and then `InvokeEvent("init")` applied for every registered module in
turn.  When argument processing is cut short by the exception `std::stoi`
throws, no module is called at all and `Main` ends in the state reached
then. -/
theorem execute_pass_precedes_init_pass {σ : Type} (W : LuaModule σ) (fuel : Nat)
    (fileName : String) (arguments : List String) (recommended : Int) (w : σ) :
    match argumentLoop W arguments.length arguments (Host.initial recommended w) with
    | Parsed.uncaught s1 =>
      (Main W fuel fileName arguments (Host.initial recommended w)).host.trace = s1.trace ∧
        (∀ e ∈ s1.trace, e.isExecute = false ∧ e.isInvoke "init" = false) ∧
        (Main W fuel fileName arguments (Host.initial recommended w)).host.lua = s1.lua
    | Parsed.done s1 =>
      s1.modules.Nodup ∧
      (∃ later,
        (Main W fuel fileName arguments (Host.initial recommended w)).host.trace =
          s1.trace ++ s1.modules.map Event.execute
            ++ s1.modules.map (fun n => Event.invokeEvent n "init") ++ later ∧
        (∀ e ∈ s1.trace, e.isExecute = false ∧ e.isInvoke "init" = false) ∧
        (∀ e ∈ later, e.isExecute = false ∧ e.isInvoke "init" = false)) ∧
      Main W fuel fileName arguments (Host.initial recommended w)
        = runTicks W fuel arguments (tickHead W s1) ∧
      (executeAll W s1.modules s1).lua = s1.modules.foldl (fun v n => W.Execute n v) s1.lua ∧
      (executeAll W s1.modules s1).trace = s1.trace ++ s1.modules.map Event.execute ∧
      (tickHead W s1).lua =
        s1.modules.foldl (fun v n => W.InvokeEvent n "init" v)
          (s1.modules.foldl (fun v n => W.Execute n v) s1.lua) ∧
      (tickHead W s1).trace =
        s1.trace ++ s1.modules.map Event.execute
          ++ s1.modules.map (fun n => Event.invokeEvent n "init") ∧
      (tickHead W s1).modules = s1.modules ∧
      (tickHead W s1).libraries = s1.libraries := by
  have hload := argumentLoop_loading W arguments.length arguments (Host.initial recommended w)
  have hnodup := argumentLoop_nodup W arguments.length arguments (Host.initial recommended w)
    (by simp [Host.initial])
  have hclass : ∀ e : Event, e.isLoading = true → e.isExecute = false ∧ e.isInvoke "init" = false := by
    intro e he
    cases e <;> simp_all [Event.isLoading, Event.isExecute, Event.isInvoke]
  have hpre : ∀ e ∈ (argumentLoop W arguments.length arguments (Host.initial recommended w)).host.trace,
      e.isExecute = false ∧ e.isInvoke "init" = false := by
    obtain ⟨es, he, hp⟩ := hload
    intro e hmem
    rw [he] at hmem
    simp only [Host.initial, List.nil_append] at hmem
    exact hclass e (hp e hmem)
  unfold Main
  generalize argumentLoop W arguments.length arguments (Host.initial recommended w) = r
    at hnodup hpre
  cases r with
  | uncaught s1 => exact ⟨rfl, hpre, rfl⟩
  | done s1 =>
    obtain ⟨later, hl, hq⟩ := runModules_trace W fuel arguments s1
    refine ⟨hnodup, ⟨later, hl, hpre, ?_⟩, rfl, executeAll_lua W _ s1, executeAll_trace W _ s1,
      tickHead_lua W s1, tickHead_trace W s1, tickHead_modules W s1, tickHead_libraries W s1⟩
    intro e hmem
    rcases hq e hmem with h | ⟨n, _, h⟩ | ⟨_, line, h⟩ <;> subst h <;>
      simp [Event.isExecute, Event.isInvoke]

/-- C1 on a run of `-m a.lua b.lua` with modules that keep a journal of what is
done to them: both are executed before either receives `init`, each once, and
the calls logged are the calls made. -/
theorem execute_pass_precedes_init_pass_example :
    (Main journalWorld 3 "moonlightcontroller" ["-m", "a.lua", "b.lua"]
        (Host.initial 0 [])).host.lua =
      [ ("a.lua", "new"), ("b.lua", "new"),
        ("a.lua", "Execute"), ("b.lua", "Execute"),
        ("a.lua", "init"), ("b.lua", "init"),
        ("a.lua", "tick"), ("b.lua", "tick") ] ∧
    (Main journalWorld 3 "moonlightcontroller" ["-m", "a.lua", "b.lua"]
        (Host.initial 0 [])).host.trace =
      [ Event.call "-m" ["a.lua", "b.lua"],
        Event.construct "a.lua" 0 NewResult.built, Event.construct "b.lua" 0 NewResult.built,
        Event.ret true,
        Event.execute "a.lua", Event.execute "b.lua",
        Event.invokeEvent "a.lua" "init", Event.invokeEvent "b.lua" "init",
        Event.invokeEvent "a.lua" "tick", Event.invokeEvent "b.lua" "tick", Event.sleep 5 ] ∧
    (Main journalWorld 3 "moonlightcontroller" ["-m", "a.lua", "b.lua"]
        (Host.initial 0 [])).code = some 0 := by
  decide

/-! ## C2 -/

/-- C2, evaluated on the code where it fails.  With `-m a.lua` and a module
whose `tick` handler makes it inactive on its third call, `Main` returns 0
after three tick passes and its calls are exactly the ones listed: the module
is erased at the end of the third pass, the tick loop ends on the empty
registry, and the `exit` loop dispatches to nothing.  No
`InvokeEvent("exit")` is made. -/
theorem exit_not_dispatched_after_third_tick :
    (Main (sampleWorld (fun _ => some 3)) 3 "moonlightcontroller" ["-m", "a.lua"]
        (Host.initial 0 [])).code = some 0 ∧
    (Main (sampleWorld (fun _ => some 3)) 3 "moonlightcontroller" ["-m", "a.lua"]
        (Host.initial 0 [])).host.trace =
      [ Event.call "-m" ["a.lua"],
        Event.construct "a.lua" 0 NewResult.built,
        Event.ret true,
        Event.execute "a.lua",
        Event.invokeEvent "a.lua" "init",
        Event.invokeEvent "a.lua" "tick", Event.sleep 5,
        Event.invokeEvent "a.lua" "tick", Event.sleep 5,
        Event.invokeEvent "a.lua" "tick", Event.sleep 5 ] := by
  decide

/-! ## C3 -/

/-- C3.  Take any state `s` at the head of a tick pass and a module `name`
registered in it that the pass erases.  Then whatever `Main` does after that
pass (further passes, the `exit` loop, the teardown) contains no `InvokeEvent`
call on `name`. -/
theorem removed_module_receives_no_call {σ : Type} (W : LuaModule σ) (s : Host σ)
    (name : String) (fuel : Nat) (arguments : List String)
    (_hin : name ∈ s.modules) (hout : name ∉ (tickPass W s).modules) :
    ∃ es, (runTicks W fuel arguments (tickPass W s)).host.trace = (tickPass W s).trace ++ es ∧
      ∀ e ∈ es, e.isInvokeOn name = false := by
  obtain ⟨es, he, hp⟩ := runTicks_trace W fuel arguments (tickPass W s)
  refine ⟨es, he, ?_⟩
  intro e hmem
  rcases hp e hmem with h | ⟨n, hn, h⟩ | ⟨_, line, h⟩
  · subst h
    rfl
  · subst h
    have hne : n ≠ name := fun heq => hout (heq ▸ hn)
    simpa [Event.isInvokeOn] using hne
  · subst h
    rfl

/-- C3 at a concrete state: module `a` is erased by the pass, module `b` is
not; the calls that follow contain none on `a`. -/
theorem removed_module_receives_no_call_witness :
    ("a" ∈ sampleTicking.modules ∧
      "a" ∉ (tickPass (sampleWorld (fun _ => some 0)) sampleTicking).modules) ∧
    ∃ es, (runTicks (sampleWorld (fun _ => some 0)) 5 ["-m", "a", "b"]
        (tickPass (sampleWorld (fun _ => some 0)) sampleTicking)).host.trace =
        (tickPass (sampleWorld (fun _ => some 0)) sampleTicking).trace ++ es ∧
      ∀ e ∈ es, e.isInvokeOn "a" = false :=
  ⟨⟨by decide, by decide⟩,
    removed_module_receives_no_call (sampleWorld (fun _ => some 0)) sampleTicking "a" 5
      ["-m", "a", "b"] (by decide) (by decide)⟩

/-! ## C4 -/

/-- C4 as stated fails.  `-m a a` with a module `a` that is constructed
inactive: it is deleted instead of being registered, so the second request
finds no entry and constructs it again; the registry ends with no entry for
`a`, and the constructor has run twice. -/
theorem second_load_constructs_again :
    (Main (sampleWorld (fun _ => some 0)) 3 "moonlightcontroller" ["-m", "a", "a"]
        (Host.initial 0 [])).host.trace =
      [ Event.call "-m" ["a", "a"],
        Event.construct "a" 0 NewResult.built, Event.delete "a",
        Event.construct "a" 0 NewResult.built, Event.delete "a",
        Event.ret true ] ∧
    ((Main (sampleWorld (fun _ => some 0)) 3 "moonlightcontroller" ["-m", "a", "a"]
        (Host.initial 0 [])).host.trace.filter (Event.isConstructOf "a")).length = 2 ∧
    (argumentLoop (sampleWorld (fun _ => some 0)) 3 ["-m", "a", "a"]
        (Host.initial 0 [])).host.modules.count "a" = 0 := by
  decide

/-- C4, amended.  Let a batch `pre ++ name :: post` be loaded from a state
whose registry holds no name twice (`pre`, or an earlier flag, may have
requested `name` before).  Then the registry never ends with two entries for
`name`.  If `name` is registered once the loop has dealt with `pre`, the
registry ends with exactly one entry for `name`, and from that point on the
batch makes no constructor call for `name`.  If the loop reaches the request
(no construction failed in `pre`) and `name` is not registered then, the next
call is a constructor call for `name`; and if that call builds a module that
is inactive, the module is deleted and the request leaves the registry as it
was, without `name`. -/
theorem repeated_request_constructs_iff_unregistered {σ : Type} (W : LuaModule σ) (s : Host σ)
    (pre post : List String) (name : String) (hs : s.modules.Nodup) :
    (AddModules W (pre ++ name :: post) s).2.modules.count name ≤ 1 ∧
    (name ∈ (addEach W pre s).modules →
      (AddModules W (pre ++ name :: post) s).2.modules.count name = 1 ∧
      ∃ es, (AddModules W (pre ++ name :: post) s).2.trace = (addEach W pre s).trace ++ es ∧
        ∀ e ∈ es, e.isConstructOf name = false) ∧
    ((∀ e ∈ (addEach W pre s).since s, e.isFailedConstruct = false) →
      name ∉ (addEach W pre s).modules →
      (∃ es, (AddModules W (pre ++ name :: post) s).2.trace =
        (addEach W pre s).trace ++
          Event.construct name (addEach W pre s).libraries
            (W.construct name true (addEach W pre s).libraries (addEach W pre s).lua).1 :: es) ∧
      ((W.construct name true (addEach W pre s).libraries (addEach W pre s).lua).1
          = NewResult.built →
        W.IsActive name
          (W.construct name true (addEach W pre s).libraries (addEach W pre s).lua).2 = false →
        (addEach W (pre ++ [name]) s).modules = (addEach W pre s).modules ∧
        name ∉ (addEach W (pre ++ [name]) s).modules ∧
        (addEach W (pre ++ [name]) s).trace =
          (addEach W pre s).trace ++
            [Event.construct name (addEach W pre s).libraries NewResult.built]
            ++ [Event.delete name])) := by
  have hbatch : (AddModules W (pre ++ name :: post) s).2 = addEach W (pre ++ name :: post) s := by
    simp [AddModules]
  rw [hbatch]
  have hnodup := (nodup_batchInvariant W).of_addEach (pre ++ name :: post) s hs
  refine ⟨List.nodup_iff_count_le_one.mp hnodup name, ?_, ?_⟩
  · intro hreg
    have key : name ∈ (addEach W (pre ++ name :: post) s).modules ∧
        Extends (fun e => !e.isConstructOf name) (addEach W pre s)
          (addEach W (pre ++ name :: post) s) := by
      rcases addEach_append W pre (name :: post) s with h | h
      · rw [h]
        exact ⟨hreg, Extends.refl _ _⟩
      · rw [h]
        exact (registered_batchInvariant W name (addEach W pre s)).of_addEach (name :: post) _
          ⟨hreg, Extends.refl _ _⟩
    refine ⟨List.count_eq_one_of_mem hnodup key.1, ?_⟩
    obtain ⟨es, he, hp⟩ := key.2
    exact ⟨es, he, fun e hmem => by simpa using hp e hmem⟩
  · intro hpre hnot
    refine ⟨?_, ?_⟩
    · rw [addEach_through W pre (name :: post) s hpre]
      exact addEach_cons_trace W name post (addEach W pre s) hnot
    · intro hb hact
      rw [addEach_through W pre [name] s hpre,
        addEach_cons_of_inactive W name [] (addEach W pre s) hnot hb hact]
      exact ⟨rfl, hnot, rfl⟩

/-- C4, amended, at two concrete batches: in `b a b` with both modules active
the second request for `b` finds it registered and constructs nothing; in
`a a` with `a` built inactive the second request is reached with `a` not
registered, and the next call constructs `a` again. -/
theorem repeated_request_constructs_iff_unregistered_witness :
    (([] : List String).Nodup ∧
      "b" ∈ (addEach (sampleWorld (fun _ => some 1)) ["b", "a"] (Host.initial 0 [])).modules) ∧
    ((AddModules (sampleWorld (fun _ => some 1)) (["b", "a"] ++ "b" :: []) (Host.initial 0 [])).2.modules.count "b" = 1 ∧
      ∃ es, (AddModules (sampleWorld (fun _ => some 1)) (["b", "a"] ++ "b" :: [])
          (Host.initial 0 [])).2.trace =
          (addEach (sampleWorld (fun _ => some 1)) ["b", "a"] (Host.initial 0 [])).trace ++ es ∧
        ∀ e ∈ es, e.isConstructOf "b" = false) ∧
    "a" ∉ (addEach (sampleWorld (fun _ => some 0)) ["a"] (Host.initial 0 [])).modules ∧
    (∃ es, (AddModules (sampleWorld (fun _ => some 0)) (["a"] ++ "a" :: []) (Host.initial 0 [])).2.trace =
      (addEach (sampleWorld (fun _ => some 0)) ["a"] (Host.initial 0 [])).trace ++
        Event.construct "a"
          (addEach (sampleWorld (fun _ => some 0)) ["a"] (Host.initial 0 [])).libraries
          ((sampleWorld (fun _ => some 0)).construct "a" true
            (addEach (sampleWorld (fun _ => some 0)) ["a"] (Host.initial 0 [])).libraries
            (addEach (sampleWorld (fun _ => some 0)) ["a"] (Host.initial 0 [])).lua).1 :: es) :=
  ⟨⟨List.nodup_nil, by decide⟩,
    (repeated_request_constructs_iff_unregistered (sampleWorld (fun _ => some 1))
      (Host.initial 0 []) ["b", "a"] [] "b" List.nodup_nil).2.1 (by decide),
    by decide,
    ((repeated_request_constructs_iff_unregistered (sampleWorld (fun _ => some 0))
      (Host.initial 0 []) ["a"] [] "a" List.nodup_nil).2.2 (by decide) (by decide)).1⟩

/-- A repeated request that is not reached: in `-m a bad a` the module `a` is
built inactive and discarded, the construction of `bad` throws and ends the
batch, so `a` is constructed once only. -/
theorem request_after_throw_not_reached :
    (AddModules (sampleWorld (fun n => if n = "bad" then none else some 0))
        ["a", "bad", "a"] (Host.initial 0 [])).2.trace =
      [ Event.construct "a" 0 NewResult.built, Event.delete "a",
        Event.construct "bad" 0 (NewResult.threwException "cannot open bad"),
        Event.cerr "cannot open bad" ] ∧
    (AddModules (sampleWorld (fun n => if n = "bad" then none else some 0))
        ["a", "bad", "a"] (Host.initial 0 [])).2.modules = [] := by
  decide

/-! ## C5 -/

/-- C5.  In every run of `Main`, the flags are dispatched in command-line
order, each with the arguments of its flag group, and every constructor call
passes the library bitmask set by the most recent `-l`/`--libraries` dispatch
that precedes it, or `ELuaModuleLibraries_Recommended` (the initial value of
`libraries`) when none precedes it.  In particular `-l 7 -m scriptC.lua` first
dispatches `-l`, then `-m`, and constructs `scriptC.lua` with bitmask 7. -/
theorem modules_constructed_with_latest_libraries {σ : Type} (W : LuaModule σ) (fuel : Nat)
    (fileName : String) (arguments : List String) (recommended : Int) (w : σ) :
    calls (Main W fuel fileName arguments (Host.initial recommended w)).host.trace =
      expectedDispatch arguments ∧
    ConstructsUseLatest recommended
      (Main W fuel fileName arguments (Host.initial recommended w)).host.trace ∧
    ∃ later,
      (Main W fuel fileName ["-l", "7", "-m", "scriptC.lua"] (Host.initial recommended w)).host.trace =
        [ Event.call "-l" ["7"], Event.ret true, Event.call "-m" ["scriptC.lua"],
          Event.construct "scriptC.lua" 7 (W.construct "scriptC.lua" true 7 w).1 ] ++ later := by
  refine ⟨calls_Main W fuel fileName arguments recommended w, ?_⟩
  constructor
  · obtain ⟨es, he, hp⟩ := Main_trace W fuel fileName arguments (Host.initial recommended w)
    rw [he]
    refine (argumentLoop_constructsUseLatest W recommended _ _ _ ⟨rfl, ?_⟩).append es ?_
    · intro t1 t2 name libs r h
      simp [Host.initial] at h
    · intro e hmem
      have := hp e hmem
      cases e <;> simp_all [Event.isRunning, Event.isConstruct]
  · obtain ⟨es, he, _⟩ := Main_trace W fuel fileName ["-l", "7", "-m", "scriptC.lua"]
      (Host.initial recommended w)
    obtain ⟨fs, hf⟩ := addEach_cons_trace W "scriptC.lua" []
      { Host.initial recommended w with
        libraries := 7,
        trace := (Host.initial recommended w).trace ++ [Event.call "-l" ["7"], Event.ret true,
          Event.call "-m" ["scriptC.lua"]] } (by simp [Host.initial])
    refine ⟨fs ++ [Event.ret true] ++ es, ?_⟩
    rw [he]
    have hlen : ["-l", "7", "-m", "scriptC.lua"].length = 4 := rfl
    rw [hlen, argumentLoop_scenarioC]
    simp only [Parsed.host, Host.emit]
    rw [hf]
    simp [Host.initial]

/-- C5 on a concrete run: two batches under different bitmasks. -/
theorem modules_constructed_with_latest_libraries_example :
    (Main (sampleWorld (fun _ => some 0)) 0 "moonlightcontroller"
        ["-m", "a", "-l", "3", "--libraries", "7", "--modules", "b"] (Host.initial 5 [])).host.trace =
      [ Event.call "-m" ["a"], Event.construct "a" 5 NewResult.built, Event.delete "a",
        Event.ret true,
        Event.call "-l" ["3"], Event.ret true,
        Event.call "--libraries" ["7"], Event.ret true,
        Event.call "--modules" ["b"], Event.construct "b" 7 NewResult.built, Event.delete "b",
        Event.ret true ] := by
  decide

/-! ## C6 -/

/-- C6.  Let the first token of the command line not begin with `-`, or let
argument processing reach a flag that is not registered (every flag group
before it has a registered flag whose handler returns `true`).  Then the
argument loop ends with an empty registry, `Main` returns 0 whatever the
number of tick passes allowed, the help topic is in its output, and no module
receives `Execute` or any `InvokeEvent`. -/
theorem unregistered_flag_clears_and_renders_help {σ : Type} (W : LuaModule σ) (fuel : Nat)
    (fileName : String) (arguments : List String) (recommended : Int) (w : σ)
    (h : (∃ tok rest, arguments = tok :: rest ∧ isFlagToken tok = false) ∨
      (∃ gs x a rest, flagGroups arguments = gs ++ (x, a) :: rest ∧ registered x = false ∧
        ∀ g ∈ gs, registered g.1 = true ∧ continues g.1 g.2 = true)) :
    ∃ s1, argumentLoop W arguments.length arguments (Host.initial recommended w) = Parsed.done s1 ∧
      s1.modules = [] ∧
      (Main W fuel fileName arguments (Host.initial recommended w)).code = some 0 ∧
      helpTopic <:+: (Main W fuel fileName arguments (Host.initial recommended w)).host.trace ∧
      ∀ e ∈ (Main W fuel fileName arguments (Host.initial recommended w)).host.trace,
        e.isModuleCall = false := by
  obtain ⟨hargs, s', hs'⟩ :=
    argumentLoop_of_unregistered W arguments (Host.initial recommended w) h
  obtain ⟨hm, hcode, hhelp, htrace⟩ :=
    Main_of_help_after_clear W fuel fileName arguments _ s' hargs hs'
  refine ⟨_, hs', hm, hcode, hhelp, ?_⟩
  intro e hmem
  rw [htrace] at hmem
  obtain ⟨es, he, hp⟩ :=
    argumentLoop_loading W arguments.length arguments (Host.initial recommended w)
  rw [he] at hmem
  simp only [Host.initial, List.nil_append] at hmem
  have := hp e hmem
  cases e <;> simp_all [Event.isLoading, Event.isModuleCall]

/-- C6 on `-m b -x`: module `b` is loaded by `-m`, then `-x` is met. -/
theorem unregistered_flag_clears_and_renders_help_witness :
    ∃ s1, argumentLoop (sampleWorld (fun _ => some 2)) ["-m", "b", "-x"].length ["-m", "b", "-x"]
        (Host.initial 0 []) = Parsed.done s1 ∧
      s1.modules = [] ∧
      (Main (sampleWorld (fun _ => some 2)) 0 "moonlightcontroller" ["-m", "b", "-x"]
        (Host.initial 0 [])).code = some 0 ∧
      helpTopic <:+: (Main (sampleWorld (fun _ => some 2)) 0 "moonlightcontroller"
        ["-m", "b", "-x"] (Host.initial 0 [])).host.trace ∧
      ∀ e ∈ (Main (sampleWorld (fun _ => some 2)) 0 "moonlightcontroller" ["-m", "b", "-x"]
        (Host.initial 0 [])).host.trace, e.isModuleCall = false :=
  unregistered_flag_clears_and_renders_help (sampleWorld (fun _ => some 2)) 0
    "moonlightcontroller" ["-m", "b", "-x"] 0 []
    (Or.inr ⟨[("-m", ["b"])], "-x", [], [], by decide, by decide, by decide⟩)

/-! ## C7 -/

/-- C7.  Let the loop of `AddModules` over the batch `pre ++ bad :: post`
get through `pre` without a failed construction, let `bad` not be registered
then, and let its construction throw.  Then the batch ends there: its calls
are those for `pre`, the constructor call for `bad` and one line on `cerr`
(so nothing of `post` is constructed), and the registry is what it was when
`bad` was reached (so nothing of `post` is registered by the batch, and
whatever was registered before the throw, by an earlier flag or within `pre`,
still is). -/
theorem throwing_construction_ends_batch {σ : Type} (W : LuaModule σ) (s : Host σ)
    (pre post : List String) (bad : String)
    (hpre : ∀ e ∈ (addEach W pre s).since s, e.isFailedConstruct = false)
    (hnew : bad ∉ (addEach W pre s).modules)
    (hthrow : (W.construct bad true (addEach W pre s).libraries (addEach W pre s).lua).1.threw
      = true) :
    (AddModules W (pre ++ bad :: post) s).2.modules = (addEach W pre s).modules ∧
    (AddModules W (pre ++ bad :: post) s).2.trace =
      (addEach W pre s).trace ++
        [ Event.construct bad s.libraries
            (W.construct bad true (addEach W pre s).libraries (addEach W pre s).lua).1,
          Event.cerr
            (W.construct bad true (addEach W pre s).libraries (addEach W pre s).lua).1.message ] ∧
    ∀ n ∈ s.modules, n ∈ (AddModules W (pre ++ bad :: post) s).2.modules := by
  have hbatch : (AddModules W (pre ++ bad :: post) s).2 = addEach W (pre ++ bad :: post) s := by
    simp [AddModules]
  rw [hbatch, addEach_through W pre (bad :: post) s hpre]
  have hlib := addEach_libraries W pre s
  have hkeep := addEach_keeps_registered W pre s
  generalize addEach W pre s = s1 at hnew hthrow hlib hkeep ⊢
  simp only [addEach, hnew, if_false]
  generalize W.construct bad true s1.libraries s1.lua = r at hthrow ⊢
  obtain ⟨res, lua'⟩ := r
  cases res with
  | built => simp [NewResult.threw] at hthrow
  | null => simp [NewResult.threw] at hthrow
  | threwException what =>
    refine ⟨rfl, ?_, fun n hn => hkeep n hn⟩
    simp [Host.emit, NewResult.message, hlib]
  | threwOther =>
    refine ⟨rfl, ?_, fun n hn => hkeep n hn⟩
    simp [Host.emit, NewResult.message, hlib]

/-- C7 on the batch of `-m scriptBad.lua scriptGood.lua`, where the
construction of `scriptBad.lua` throws: neither module is registered and
`scriptGood.lua` is not constructed. -/
theorem throwing_construction_ends_batch_witness :
    (AddModules scenarioE ([] ++ "scriptBad.lua" :: ["scriptGood.lua"])
        (Host.initial 0 [])).2.modules = [] ∧
    (AddModules scenarioE ([] ++ "scriptBad.lua" :: ["scriptGood.lua"])
        (Host.initial 0 [])).2.trace =
      [] ++ [ Event.construct "scriptBad.lua" 0 (NewResult.threwException "cannot open scriptBad.lua"),
        Event.cerr "cannot open scriptBad.lua" ] ∧
    ∀ n ∈ ([] : List String),
      n ∈ (AddModules scenarioE ([] ++ "scriptBad.lua" :: ["scriptGood.lua"])
        (Host.initial 0 [])).2.modules :=
  throwing_construction_ends_batch scenarioE (Host.initial 0 [])
    [] ["scriptGood.lua"] "scriptBad.lua" (by decide) (by decide) (by decide)

/-- Scenario E as a run of `Main`: `-m scriptBad.lua scriptGood.lua` with a
throwing `scriptBad.lua` registers nothing and never constructs
`scriptGood.lua`. -/
theorem scenarioE_registers_neither :
    (argumentLoop scenarioE 3
        ["-m", "scriptBad.lua", "scriptGood.lua"] (Host.initial 0 [])).host.modules = [] ∧
    (Main scenarioE 5
        "moonlightcontroller" ["-m", "scriptBad.lua", "scriptGood.lua"]
        (Host.initial 0 [])).host.trace =
      [ Event.call "-m" ["scriptBad.lua", "scriptGood.lua"],
        Event.construct "scriptBad.lua" 0 (NewResult.threwException "cannot open scriptBad.lua"),
        Event.cerr "cannot open scriptBad.lua",
        Event.ret true ] := by
  decide

/-! ## C8 -/

/-- C8 as stated fails.  On `foo -m a` the token `-m` is a flag, its flag is
registered, no handler has returned `false` and no unregistered flag is met,
yet `Main` dispatches no handler at all: the first token does not begin with
`-`, so the argument loop stops at once. -/
theorem flag_after_plain_first_token_not_dispatched :
    calls (Main (sampleWorld (fun _ => some 1)) 5 "moonlightcontroller" ["foo", "-m", "a"]
      (Host.initial 0 [])).host.trace ≠ dispatched (flagGroups ["foo", "-m", "a"]) ∧
    flagGroups ["foo", "-m", "a"] = [("-m", ["a"])] ∧
    dispatched (flagGroups ["foo", "-m", "a"]) = [("-m", ["a"])] ∧
    calls (Main (sampleWorld (fun _ => some 1)) 5 "moonlightcontroller" ["foo", "-m", "a"]
      (Host.initial 0 [])).host.trace = [] := by
  decide

/-- C8, amended.  The handlers `Main` dispatches, with their argument vectors,
are: none when the first token does not begin with `-`; otherwise the flag
groups of the command line from left to right (each flag with exactly the
tokens between it and the next token beginning with `-`), up to and including
the first whose handler does not return `true`, and stopping before the first
flag that is not registered.  In every case they are an initial segment of the
flag groups of the command line. -/
theorem dispatch_follows_flag_groups {σ : Type} (W : LuaModule σ) (fuel : Nat)
    (fileName : String) (arguments : List String) (recommended : Int) (w : σ) :
    calls (Main W fuel fileName arguments (Host.initial recommended w)).host.trace =
      expectedDispatch arguments ∧
    calls (Main W fuel fileName arguments (Host.initial recommended w)).host.trace
      <+: flagGroups arguments := by
  have hcalls := calls_Main W fuel fileName arguments recommended w
  refine ⟨hcalls, ?_⟩
  rw [hcalls]
  cases arguments with
  | nil => exact List.nil_prefix
  | cons tok rest =>
    by_cases htok : isFlagToken tok = true
    · simp only [expectedDispatch, htok, if_true]
      exact dispatched_prefix _
    · simp only [Bool.not_eq_true] at htok
      simp only [expectedDispatch, htok]
      exact List.nil_prefix

/-- C8, amended, on a concrete command line: the arguments of `-m` are not
carried over to `-l`, and `-x` stops the dispatching. -/
theorem dispatch_follows_flag_groups_example :
    calls (Main (sampleWorld (fun _ => some 0)) 5 "moonlightcontroller"
      ["-m", "a", "b", "-l", "7", "-x", "-m", "c"] (Host.initial 0 [])).host.trace =
      [("-m", ["a", "b"]), ("-l", ["7"])] ∧
    flagGroups ["-m", "a", "b", "-l", "7", "-x", "-m", "c"] =
      [("-m", ["a", "b"]), ("-l", ["7"]), ("-x", []), ("-m", ["c"])] := by
  decide

/-! ## C9 -/

/-- C9 as stated fails.  On `-m` without a path, and on `-l` with two
arguments, the handler returns `false`, the argument loop stops, and `Main`
returns 0 without having written anything: the help topic is not rendered. -/
theorem missing_path_renders_no_help :
    ((Main (sampleWorld (fun _ => some 1)) 5 "moonlightcontroller" ["-m"]
        (Host.initial 0 [])).code = some 0 ∧
      (Main (sampleWorld (fun _ => some 1)) 5 "moonlightcontroller" ["-m"]
        (Host.initial 0 [])).host.trace = [Event.call "-m" [], Event.ret false] ∧
      ¬ helpTopic <:+: (Main (sampleWorld (fun _ => some 1)) 5 "moonlightcontroller" ["-m"]
        (Host.initial 0 [])).host.trace) ∧
    ((Main (sampleWorld (fun _ => some 1)) 5 "moonlightcontroller" ["-l", "1", "2"]
        (Host.initial 0 [])).code = some 0 ∧
      (Main (sampleWorld (fun _ => some 1)) 5 "moonlightcontroller" ["-l", "1", "2"]
        (Host.initial 0 [])).host.trace = [Event.call "-l" ["1", "2"], Event.ret false] ∧
      ¬ helpTopic <:+: (Main (sampleWorld (fun _ => some 1)) 5 "moonlightcontroller"
        ["-l", "1", "2"] (Host.initial 0 [])).host.trace) := by
  decide

/-- C9, amended.  When the first token does not begin with `-`, or argument
processing reaches a flag that is not registered, `Main` returns 0 with the
help topic rendered.  When instead processing reaches `-m`/`--modules` without
a path, or `-l`/`--libraries` with a number of arguments other than one, the
handler returns `false` and `Main` writes nothing to `cout`, however long it
runs: the help topic is not rendered. -/
theorem help_only_for_unregistered_flag {σ : Type} (W : LuaModule σ) (fuel : Nat)
    (fileName : String) (arguments : List String) (recommended : Int) (w : σ) :
    (((∃ tok rest, arguments = tok :: rest ∧ isFlagToken tok = false) ∨
      (∃ gs x a rest, flagGroups arguments = gs ++ (x, a) :: rest ∧ registered x = false ∧
        ∀ g ∈ gs, registered g.1 = true ∧ continues g.1 g.2 = true)) →
      (Main W fuel fileName arguments (Host.initial recommended w)).code = some 0 ∧
      helpTopic <:+: (Main W fuel fileName arguments (Host.initial recommended w)).host.trace) ∧
    ((∀ tok rest, arguments = tok :: rest → isFlagToken tok = true) →
      (∃ gs f a rest, flagGroups arguments = gs ++ (f, a) :: rest ∧
        (∀ g ∈ gs, registered g.1 = true ∧ continues g.1 g.2 = true) ∧
        ((isModulesFlag f = true ∧ a = []) ∨ (isLibrariesFlag f = true ∧ a.length ≠ 1))) →
      ∀ e ∈ (Main W fuel fileName arguments (Host.initial recommended w)).host.trace,
        ∀ line, e ≠ Event.cout line) := by
  constructor
  · intro h
    obtain ⟨hargs, s', hs'⟩ :=
      argumentLoop_of_unregistered W arguments (Host.initial recommended w) h
    obtain ⟨_, hcode, hhelp, _⟩ :=
      Main_of_help_after_clear W fuel fileName arguments _ s' hargs hs'
    exact ⟨hcode, hhelp⟩
  · intro hfirst h e hmem line heq
    have hargs : arguments ≠ [] := by
      obtain ⟨gs, f, a, rest, hg, _⟩ := h
      intro h0
      rw [h0] at hg
      simp [flagGroups] at hg
    obtain ⟨es, he, hp⟩ := argumentLoop_quiet_of_rejected W arguments
      (Host.initial recommended w) hfirst h
    obtain ⟨fs, hf, hq⟩ := Main_trace_cases W fuel fileName arguments (Host.initial recommended w)
    rw [hf, he] at hmem
    simp only [Host.initial, List.nil_append, List.mem_append] at hmem
    subst heq
    rcases hmem with h1 | h1
    · have := hp _ h1
      simp [Event.isQuiet] at this
    · rcases hq _ h1 with h2 | h2 | ⟨h2, _⟩
      · simp [Event.isModuleCall] at h2
      · simp at h2
      · exact hargs h2

/-- C9, amended, on concrete command lines: `-m b -x` ends with the help
topic; `-m b --libraries`, where `--libraries` has no argument, runs module
`b` and ends without a line of output. -/
theorem help_only_for_unregistered_flag_example :
    helpTopic <:+: (Main (sampleWorld (fun _ => some 1)) 5 "moonlightcontroller"
      ["-m", "b", "-x"] (Host.initial 0 [])).host.trace ∧
    (Main (sampleWorld (fun _ => some 1)) 5 "moonlightcontroller"
      ["-m", "b", "--libraries"] (Host.initial 0 [])).host.trace =
      [ Event.call "-m" ["b"], Event.construct "b" 0 NewResult.built, Event.ret true,
        Event.call "--libraries" [], Event.ret false,
        Event.execute "b", Event.invokeEvent "b" "init",
        Event.invokeEvent "b" "tick", Event.sleep 5 ] := by
  decide

/-! ## C10 -/

/-- C10.  In every run of `Main`, nothing that follows a handler's `false`
return is a handler dispatch, whatever flags remain on the command line.  In
particular, on a command line that starts with `-h` or `--help` no
constructor is called and `libraries` keeps its initial value. -/
theorem false_return_stops_dispatch {σ : Type} (W : LuaModule σ) (fuel : Nat)
    (fileName : String) (arguments : List String) (recommended : Int) (w : σ) :
    (∀ t1 t2, (Main W fuel fileName arguments (Host.initial recommended w)).host.trace =
        t1 ++ Event.ret false :: t2 → ∀ e ∈ t2, e.isCall = false) ∧
    (∀ flag rest, arguments = flag :: rest → isHelpFlag flag = true →
      (∀ e ∈ (Main W fuel fileName arguments (Host.initial recommended w)).host.trace,
        e.isConstruct = false) ∧
      (Main W fuel fileName arguments (Host.initial recommended w)).host.libraries
        = recommended) := by
  obtain ⟨es, he, hp⟩ := Main_trace W fuel fileName arguments (Host.initial recommended w)
  constructor
  · intro t1 t2 heq
    have hlast := argumentLoop_false_return_last W arguments.length arguments
      (Host.initial recommended w) (by simp [Host.initial])
    rw [he] at heq
    rcases List.append_eq_append_iff.mp heq with ⟨a', _, ha'⟩ | ⟨c', hc, hc'⟩
    · exfalso
      have := hp (Event.ret false) (by rw [ha']; simp)
      simp [Event.isRunning] at this
    · cases c' with
      | nil =>
        exfalso
        simp only [List.nil_append] at hc'
        have := hp (Event.ret false) (by rw [← hc']; simp)
        simp [Event.isRunning] at this
      | cons x c'' =>
        simp only [List.cons_append, List.cons.injEq] at hc'
        obtain ⟨hx, ht2⟩ := hc'
        subst hx
        have hnil := hlast t1 c'' hc
        subst hnil
        simp only [List.nil_append] at ht2
        intro e hmem
        rw [ht2] at hmem
        exact not_call_of_running (hp e hmem)
  · intro flag rest harg hflag
    subst harg
    have hloop := argumentLoop_of_help W rest.length flag rest (Host.initial recommended w) hflag
    constructor
    · intro e hmem
      rw [he, List.length_cons, hloop] at hmem
      simp only [Parsed.host, Host.emit, Host.initial, List.nil_append, List.mem_append,
        List.mem_singleton] at hmem
      rcases hmem with ((h | h) | h) | h
      · subst h; rfl
      · obtain ⟨line, rfl⟩ := helpTopic_cout e h
        rfl
      · subst h; rfl
      · exact not_construct_of_running (hp e h)
    · rw [Main_libraries, List.length_cons, hloop]
      rfl

/-- C10 on `-h -l 7 -m a`: the help is rendered, `-l` and `-m` are never
dispatched. -/
theorem false_return_stops_dispatch_example :
    (Main (sampleWorld (fun _ => some 1)) 5 "moonlightcontroller" ["-h", "-l", "7", "-m", "a"]
        (Host.initial 0 [])).host.trace =
      [Event.call "-h" []] ++ helpTopic ++ [Event.ret false] ∧
    (Main (sampleWorld (fun _ => some 1)) 5 "moonlightcontroller" ["-h", "-l", "7", "-m", "a"]
        (Host.initial 0 [])).host.libraries = 0 := by
  decide

/-! ## C11 -/

/-- C11, evaluated on the code where it fails.  For the single token `abc`
`std::stoi` throws, so `ChangeLibraries` does not return at all: nothing
catches the exception and it leaves `Main` on `-l abc`, before any help is
rendered.  For the single token `7abc`, which is no integer, `ChangeLibraries`
returns `true` and sets the bitmask to 7.  (For an argument vector of any
other length it does return `false` and leaves the state alone.) -/
theorem ChangeLibraries_throws_on_plain_token {σ : Type} (W : LuaModule σ) (fuel : Nat)
    (s : Host σ) (recommended : Int) (w : σ) :
    ChangeLibraries ["abc"] s = none ∧
    (Main W fuel "moonlightcontroller" ["-l", "abc"] (Host.initial recommended w)).isUncaught
      = true ∧
    (Main W fuel "moonlightcontroller" ["-l", "abc"] (Host.initial recommended w)).host.trace
      = [Event.call "-l" ["abc"]] ∧
    (ChangeLibraries ["7abc"] s).map (fun r => (r.1, r.2.libraries)) = some (true, 7) ∧
    (ChangeLibraries ([] : List String) s).map (fun r => (r.1, r.2.libraries))
      = some (false, s.libraries) ∧
    (ChangeLibraries ["1", "2"] s).map (fun r => (r.1, r.2.libraries))
      = some (false, s.libraries) := by
  have h1 : stoi "abc" = none := by decide
  have h2 : stoi "7abc" = some 7 := by decide
  have h3 : mapFind "-l" argumentFunctions
      = some ⟨Handler.changeLibraries, "Change the required Lua libraries", true⟩ := by decide
  have h4 : isFlagToken "-l" = true := by decide
  have h5 : isFlagToken "abc" = false := by decide
  refine ⟨by simp [ChangeLibraries, h1], ?_, ?_, by simp [ChangeLibraries, h2],
    by simp [ChangeLibraries], by simp [ChangeLibraries]⟩
  · simp [Main, argumentLoop, collectArgs, h1, h3, h4, h5, Handler.run, ChangeLibraries,
      Outcome.isUncaught]
  · simp [Main, argumentLoop, collectArgs, h1, h3, h4, h5, Handler.run, ChangeLibraries,
      Outcome.host, Host.emit, Host.initial]

/-! ## C12 -/

/-- C12.  Take a run of `Main` whose argument loop ends in `s1` with `name`
registered, and let the tick handler of `name` make it inactive during its
`k`-th tick invocation and not earlier (`k ≥ 1`).  Then `name` is in the
registry at the head of pass `p + 1` exactly when `p < k`, that is for the
passes 1 to `k` and for none after; it has received `min p k` tick invocations
after `p` passes; and once the run has been followed for `k` passes or more it
has received exactly `k` tick invocations in total. -/
theorem module_stopping_at_tick_k_gets_k_ticks {σ : Type} (W : LuaModule σ) (fuel : Nat)
    (fileName : String) (arguments : List String) (recommended : Int) (w : σ) (s1 : Host σ)
    (name : String) (k : Nat)
    (hload : argumentLoop W arguments.length arguments (Host.initial recommended w)
      = Parsed.done s1)
    (hin : name ∈ s1.modules) (hk : 1 ≤ k) (hstop : StopsAtTick W name k (tickHead W s1)) :
    (∀ p, name ∈ ((tickPass W)^[p] (tickHead W s1)).modules ↔ p < k) ∧
    (∀ p, tickCount name (((tickPass W)^[p] (tickHead W s1)).since (tickHead W s1))
      = min p k) ∧
    (k ≤ fuel →
      tickCount name (Main W fuel fileName arguments (Host.initial recommended w)).host.trace
        = k) := by
  have hs := tickHead_nodup W arguments recommended w s1 hload
  have hin1 : name ∈ (tickHead W s1).modules := by
    rw [tickHead_modules]
    exact hin
  refine ⟨?_, ?_, ?_⟩
  · intro p
    rw [(presence_of_stopsAtTick W _ name k hs hin1 hstop p).1]
    omega
  · intro p
    exact (presence_of_stopsAtTick W _ name k hs hin1 hstop p).2
  · intro hfuel
    rw [(Main_counts W fuel fileName arguments recommended w s1 hload name).1]
    exact tickLoop_tickCount W fuel _ name k hs hin1 hstop hfuel

/-- C12 on scenario B: a module that becomes inactive during its third `tick`
is registered for the passes 1 to 3 and receives exactly three tick
invocations in a run of `-m b.lua`. -/
theorem module_stopping_at_tick_k_gets_k_ticks_witness :
    (∀ p, "b.lua" ∈ ((tickPass (sampleWorld (fun _ => some 3)))^[p]
        (tickHead (sampleWorld (fun _ => some 3))
          { lua := [("b.lua", 3)], libraries := 0, modules := ["b.lua"],
            trace := [Event.call "-m" ["b.lua"], Event.construct "b.lua" 0 NewResult.built,
              Event.ret true] })).modules ↔ p < 3) ∧
    tickCount "b.lua" (Main (sampleWorld (fun _ => some 3)) 10 "moonlightcontroller"
        ["-m", "b.lua"] (Host.initial 0 [])).host.trace = 3 :=
  ⟨(module_stopping_at_tick_k_gets_k_ticks (sampleWorld (fun _ => some 3)) 10
      "moonlightcontroller" ["-m", "b.lua"] 0 []
      { lua := [("b.lua", 3)], libraries := 0, modules := ["b.lua"],
        trace := [Event.call "-m" ["b.lua"], Event.construct "b.lua" 0 NewResult.built,
          Event.ret true] }
      "b.lua" 3 rfl (by decide) (by decide) (by unfold StopsAtTick; decide)).1,
   (module_stopping_at_tick_k_gets_k_ticks (sampleWorld (fun _ => some 3)) 10
      "moonlightcontroller" ["-m", "b.lua"] 0 []
      { lua := [("b.lua", 3)], libraries := 0, modules := ["b.lua"],
        trace := [Event.call "-m" ["b.lua"], Event.construct "b.lua" 0 NewResult.built,
          Event.ret true] }
      "b.lua" 3 rfl (by decide) (by decide) (by unfold StopsAtTick; decide)).2.2
      (by decide)⟩

/-- Scenario B run through: the calls of `-m b.lua` when `b.lua` becomes
inactive during its third `tick`. -/
theorem scenarioB_three_ticks :
    (Main (sampleWorld (fun _ => some 3)) 10 "moonlightcontroller" ["-m", "b.lua"]
        (Host.initial 0 [])).host.trace =
      [ Event.call "-m" ["b.lua"], Event.construct "b.lua" 0 NewResult.built, Event.ret true,
        Event.execute "b.lua", Event.invokeEvent "b.lua" "init",
        Event.invokeEvent "b.lua" "tick", Event.sleep 5,
        Event.invokeEvent "b.lua" "tick", Event.sleep 5,
        Event.invokeEvent "b.lua" "tick", Event.sleep 5 ] ∧
    (Main (sampleWorld (fun _ => some 3)) 10 "moonlightcontroller" ["-m", "b.lua"]
        (Host.initial 0 [])).code = some 0 := by
  decide

/-! ## C13 -/

/-- C13.  Take a `-m` batch in which no construction fails (none throws; a
null pointer, which `new` does not yield, is excluded too).  Then the registry
after the batch holds exactly the names registered before it and the names of
the batch that, when their request was reached, were not registered and were
built into a module reporting `IsActive()`.  A module that is built inactive
is deleted, the registry stays as it was, and the loop goes on with the names
after it.  A registry without duplicates stays so. -/
theorem batch_registers_active_modules {σ : Type} (W : LuaModule σ) (s : Host σ)
    (args : List String)
    (hall : ∀ e ∈ (addEach W args s).since s, e.isFailedConstruct = false) :
    (∀ x, x ∈ (AddModules W args s).2.modules ↔
      x ∈ s.modules ∨ ∃ pre post, args = pre ++ x :: post ∧ x ∉ (addEach W pre s).modules ∧
        W.IsActive x (W.construct x true s.libraries (addEach W pre s).lua).2 = true) ∧
    (∀ pre x post, args = pre ++ x :: post → x ∉ (addEach W pre s).modules →
      W.IsActive x (W.construct x true s.libraries (addEach W pre s).lua).2 = false →
      (AddModules W args s).2 = addEach W post
        { addEach W pre s with
          lua := W.destruct x (W.construct x true s.libraries (addEach W pre s).lua).2,
          trace := (addEach W pre s).trace ++ [Event.construct x s.libraries NewResult.built]
            ++ [Event.delete x] }) ∧
    (s.modules.Nodup → (AddModules W args s).2.modules.Nodup) := by
  rw [AddModules_snd]
  refine ⟨?_, ?_, ?_⟩
  · intro x
    constructor
    · exact registered_of_batch W x args s hall
    · rintro (h | ⟨pre, post, hsplit, hnot, hact⟩)
      · exact addEach_keeps_registered W args s x h
      · subst hsplit
        obtain ⟨hthrough, _⟩ := addEach_split_of_no_failure W pre (x :: post) s hall
        rw [hthrough]
        rw [hthrough] at hall
        have hlib := addEach_libraries W pre s
        have hall' : ∀ e ∈ (addEach W (x :: post) (addEach W pre s)).since (addEach W pre s),
            e.isFailedConstruct = false := by
          intro e he
          apply hall
          obtain ⟨es, hes, _⟩ := addEach_loading W pre s
          obtain ⟨fs, hfs, _⟩ := addEach_loading W (x :: post) (addEach W pre s)
          rw [since_of_trace hfs] at he
          have hfull : (addEach W (x :: post) (addEach W pre s)).trace = s.trace ++ (es ++ fs) := by
            rw [hfs, hes, List.append_assoc]
          rw [since_of_trace hfull]
          exact List.mem_append_right _ he
        rw [← hlib] at hact
        have hb := built_of_no_failure W x post _ hnot hall'
        rw [addEach_cons_of_active W x post _ hnot hb hact]
        exact addEach_keeps_registered W post _ x (mem_insertKey_self _ _)
  · intro pre x post hsplit hnot hact
    subst hsplit
    obtain ⟨hthrough, _⟩ := addEach_split_of_no_failure W pre (x :: post) s hall
    rw [hthrough]
    rw [hthrough] at hall
    have hlib := addEach_libraries W pre s
    have hall' : ∀ e ∈ (addEach W (x :: post) (addEach W pre s)).since (addEach W pre s),
        e.isFailedConstruct = false := by
      intro e he
      apply hall
      obtain ⟨es, hes, _⟩ := addEach_loading W pre s
      obtain ⟨fs, hfs, _⟩ := addEach_loading W (x :: post) (addEach W pre s)
      rw [since_of_trace hfs] at he
      have hfull : (addEach W (x :: post) (addEach W pre s)).trace = s.trace ++ (es ++ fs) := by
        rw [hfs, hes, List.append_assoc]
      rw [since_of_trace hfull]
      exact List.mem_append_right _ he
    rw [← hlib] at hact ⊢
    have hb := built_of_no_failure W x post _ hnot hall'
    rw [addEach_cons_of_inactive W x post _ hnot hb hact]
  · intro hs
    exact (nodup_batchInvariant W).of_addEach args s hs

/-- C13 on the batch of scenario A, `-m scriptA.lua scriptB.lua` with two
modules that are built active. -/
theorem batch_registers_active_modules_witness :
    (∀ x, x ∈ (AddModules (sampleWorld (fun _ => some 1)) ["scriptA.lua", "scriptB.lua"]
        (Host.initial 0 [])).2.modules ↔
      x ∈ ([] : List String) ∨ ∃ pre post, ["scriptA.lua", "scriptB.lua"] = pre ++ x :: post ∧
        x ∉ (addEach (sampleWorld (fun _ => some 1)) pre (Host.initial 0 [])).modules ∧
        (sampleWorld (fun _ => some 1)).IsActive x
          ((sampleWorld (fun _ => some 1)).construct x true 0
            (addEach (sampleWorld (fun _ => some 1)) pre (Host.initial 0 [])).lua).2 = true) ∧
    (AddModules (sampleWorld (fun _ => some 1)) ["scriptA.lua", "scriptB.lua"]
        (Host.initial 0 [])).2.modules = ["scriptA.lua", "scriptB.lua"] :=
  ⟨(batch_registers_active_modules (sampleWorld (fun _ => some 1)) (Host.initial 0 [])
      ["scriptA.lua", "scriptB.lua"] (by decide)).1, by decide⟩

/-- Scenario A as a run of `Main`: both modules are registered, both receive
`Execute`, then both receive `init`.  With an inactive module in between,
`-m a off b` still loads `b`. -/
theorem scenarioA_registers_both :
    (argumentLoop (sampleWorld (fun _ => some 1)) 3 ["-m", "scriptA.lua", "scriptB.lua"]
        (Host.initial 0 [])).host.modules = ["scriptA.lua", "scriptB.lua"] ∧
    (Main (sampleWorld (fun _ => some 1)) 0 "moonlightcontroller"
        ["-m", "scriptA.lua", "scriptB.lua"] (Host.initial 0 [])).host.trace =
      [ Event.call "-m" ["scriptA.lua", "scriptB.lua"],
        Event.construct "scriptA.lua" 0 NewResult.built,
        Event.construct "scriptB.lua" 0 NewResult.built,
        Event.ret true,
        Event.execute "scriptA.lua", Event.execute "scriptB.lua",
        Event.invokeEvent "scriptA.lua" "init", Event.invokeEvent "scriptB.lua" "init" ] ∧
    (argumentLoop (sampleWorld (fun n => if n = "off" then some 0 else some 1)) 4
        ["-m", "a", "off", "b"] (Host.initial 0 [])).host.modules = ["a", "b"] := by
  decide

/-! ## C14 -/

/-- C14.  For every argument vector `RenderHelp` returns `false`, changes
nothing but the output, and writes exactly these lines: the heading, then for
`-h`, for `-l` and for `-m` (in this order, each once) the flag and its help
text, then the closing line.  None of `--help`, `--libraries`, `--modules` is
listed. -/
theorem RenderHelp_lists_canonical_flags {σ : Type} (args : List String) (s : Host σ) :
    (RenderHelp args s).1 = false ∧
    (RenderHelp args s).2.trace = s.trace ++
      [ Event.cout "Moonlight controller help:",
        Event.cout "\t-h", Event.cout "\t\tShows this help topic",
        Event.cout "\t-l", Event.cout "\t\tChange the required Lua libraries",
        Event.cout "\t-m", Event.cout "\t\tAdd Lua modules to load",
        Event.cout "End of help topic" ] ∧
    (RenderHelp args s).2.modules = s.modules ∧
    (RenderHelp args s).2.libraries = s.libraries ∧
    (RenderHelp args s).2.lua = s.lua ∧
    (argumentFunctions.filter (fun e => e.2.isUnique)).map (fun e => (e.1, e.2.help)) =
      [ ("-h", "Shows this help topic"), ("-l", "Change the required Lua libraries"),
        ("-m", "Add Lua modules to load") ] := by
  have hhelp : helpTopic =
      [ Event.cout "Moonlight controller help:",
        Event.cout "\t-h", Event.cout "\t\tShows this help topic",
        Event.cout "\t-l", Event.cout "\t\tChange the required Lua libraries",
        Event.cout "\t-m", Event.cout "\t\tAdd Lua modules to load",
        Event.cout "End of help topic" ] := by decide
  refine ⟨rfl, ?_, rfl, rfl, rfl, by decide⟩
  rw [RenderHelp_trace, hhelp]

/-! ## C15 -/

/-- C15.  The copy constructor and `operator=` both yield a snapshot equal to
the one they are given, field by field; the constructor with twelve parameters
stores each argument in the field of the same name; the default constructor
yields the gamepad type and subtype, no feature flag, no button, and zero in
the eight `float` fields.  (The `float` values are only copied, so their type
is left open; equal means the same value.) -/
theorem XInputCapabilities_value_semantics {F : Type} [Zero F]
    (c self : XInputCapabilities F) (dt dst df b : Nat) (lt rt lx ly rx ry lm rm : F)
    (gamepadType gamepadSubType : Nat) :
    XInputCapabilities.copy c = c ∧
    XInputCapabilities.assign self c = c ∧
    XInputCapabilities.make dt dst df b lt rt lx ly rx ry lm rm =
      { deviceType := dt, deviceSubType := dst, deviceFeatures := df, buttons := b,
        leftTrigger := lt, rightTrigger := rt, thumbLX := lx, thumbLY := ly,
        thumbRX := rx, thumbRY := ry, leftMotor := lm, rightMotor := rm } ∧
    (XInputCapabilities.default gamepadType gamepadSubType : XInputCapabilities F) =
      { deviceType := gamepadType, deviceSubType := gamepadSubType, deviceFeatures := 0,
        buttons := 0, leftTrigger := 0, rightTrigger := 0, thumbLX := 0, thumbLY := 0,
        thumbRX := 0, thumbRY := 0, leftMotor := 0, rightMotor := 0 } := by
  refine ⟨?_, ?_, rfl, rfl⟩
  · cases c
    rfl
  · cases c
    cases self
    rfl

/-! ## C16 -/

/-- C16.  Whenever the tick loop has been left the registry is empty, and in
every run of `Main`, for every argument list, every implementation of the
modules and every number of tick passes, no call is an
`InvokeEvent("exit")`. -/
theorem exit_never_dispatched {σ : Type} (W : LuaModule σ) (fuel : Nat) (fileName : String)
    (arguments : List String) (s : Host σ) (recommended : Int) (w : σ) :
    ((tickLoop W fuel s).1 = true → (tickLoop W fuel s).2.modules = []) ∧
    ∀ e ∈ (Main W fuel fileName arguments (Host.initial recommended w)).host.trace,
      e.isInvoke "exit" = false := by
  refine ⟨tickLoop_left_modules W fuel s, ?_⟩
  have hload := argumentLoop_loading W arguments.length arguments (Host.initial recommended w)
  have hpre : ∀ e ∈ (argumentLoop W arguments.length arguments
      (Host.initial recommended w)).host.trace, e.isInvoke "exit" = false := by
    obtain ⟨es, he, hp⟩ := hload
    intro e hmem
    rw [he] at hmem
    simp only [Host.initial, List.nil_append] at hmem
    have := hp e hmem
    cases e <;> simp_all [Event.isLoading, Event.isInvoke]
  unfold Main
  generalize argumentLoop W arguments.length arguments (Host.initial recommended w) = r at hpre
  cases r with
  | uncaught s1 => exact hpre
  | done s1 =>
    obtain ⟨later, hl, hq⟩ := runModules_trace W fuel arguments s1
    intro e hmem
    rw [hl] at hmem
    simp only [List.mem_append, List.mem_map] at hmem
    rcases hmem with ((h | ⟨n, _, h⟩) | ⟨n, _, h⟩) | h
    · exact hpre e h
    · subst h
      rfl
    · subst h
      simp only [Event.isInvoke]
      decide
    · rcases hq e h with h | ⟨n, _, h⟩ | ⟨_, line, h⟩ <;> subst h
      · rfl
      · simp only [Event.isInvoke]
        decide
      · rfl

/-! ## C17 -/

/-- C17.  In the tick pass that starts in `s`, on a registry without duplicate
names (as `std::map` keeps it): a registered module found inactive when its
turn comes receives no `tick` in the pass, one found active receives exactly
one, and the registry after the pass consists of exactly the registered
modules that were active right after their own turn. -/
theorem tick_pass_keeps_modules_active_after_turn {σ : Type} (W : LuaModule σ) (s : Host σ)
    (hs : s.modules.Nodup) :
    (∀ name ∈ s.modules, W.IsActive name (turnState W name s) = false →
      tickCount name ((tickPass W s).since s) = 0) ∧
    (∀ name ∈ s.modules, W.IsActive name (turnState W name s) = true →
      tickCount name ((tickPass W s).since s) = 1) ∧
    (∀ name, name ∈ (tickPass W s).modules ↔
      name ∈ s.modules ∧ W.IsActive name (afterTurn W name (turnState W name s)) = true) ∧
    (tickPass W s).modules.Nodup := by
  refine ⟨?_, ?_, ?_, nodup_tickPass W s hs⟩
  · intro name hin hoff
    rw [(tickPass_turn W s name hs hin).1, hoff]
    simp
  · intro name hin hon
    rw [(tickPass_turn W s name hs hin).1, hon]
    simp
  · intro name
    constructor
    · intro hmem
      have hin := tickPass_modules_subset W s hmem
      exact ⟨hin, (tickPass_turn W s name hs hin).2.mp hmem⟩
    · rintro ⟨hin, hact⟩
      exact (tickPass_turn W s name hs hin).2.mpr hact

/-- C17 on a pass over the modules `a` (one `tick` left) and `b` (two left):
both receive one `tick`, and only `b` stays registered. -/
theorem tick_pass_keeps_modules_active_after_turn_witness :
    sampleTicking.modules.Nodup ∧
    tickCount "a" ((tickPass (sampleWorld (fun _ => some 0)) sampleTicking).since sampleTicking)
      = 1 ∧
    tickCount "b" ((tickPass (sampleWorld (fun _ => some 0)) sampleTicking).since sampleTicking)
      = 1 ∧
    (tickPass (sampleWorld (fun _ => some 0)) sampleTicking).modules = ["b"] ∧
    ∀ name, name ∈ (tickPass (sampleWorld (fun _ => some 0)) sampleTicking).modules ↔
      name ∈ sampleTicking.modules ∧
        (sampleWorld (fun _ => some 0)).IsActive name
          (afterTurn (sampleWorld (fun _ => some 0)) name
            (turnState (sampleWorld (fun _ => some 0)) name sampleTicking)) = true :=
  ⟨by decide,
   (tick_pass_keeps_modules_active_after_turn (sampleWorld (fun _ => some 0)) sampleTicking
      (by decide)).2.1 "a" (by decide) (by decide),
   (tick_pass_keeps_modules_active_after_turn (sampleWorld (fun _ => some 0)) sampleTicking
      (by decide)).2.1 "b" (by decide) (by decide),
   by decide,
   (tick_pass_keeps_modules_active_after_turn (sampleWorld (fun _ => some 0)) sampleTicking
      (by decide)).2.2.1⟩

/-- C17 for a module that is inactive before the first pass (as after
deactivating itself in `init`): it receives no `tick` and is removed by the
pass, while the other module is ticked once and stays. -/
theorem inactive_module_removed_without_tick :
    tickCount "a"
      ((tickPass (sampleWorld (fun _ => some 0))
          { lua := [("a", 0), ("b", 2)], libraries := 0, modules := ["a", "b"], trace := [] }).trace)
      = 0 ∧
    (tickPass (sampleWorld (fun _ => some 0))
        { lua := [("a", 0), ("b", 2)], libraries := 0, modules := ["a", "b"], trace := [] }).trace
      = [Event.invokeEvent "b" "tick", Event.sleep 5] ∧
    (tickPass (sampleWorld (fun _ => some 0))
        { lua := [("a", 0), ("b", 2)], libraries := 0, modules := ["a", "b"], trace := [] }).modules
      = ["b"] := by
  decide

/-! ## C18 -/

/-- C18, evaluated on the code where it fails.  With `-m a.lua` and a module
that becomes inactive at its first `tick`, `Main` returns 0 and its calls are
exactly the ones listed: `a.lua` is constructed, and erased from the registry
after the first pass, but `delete` is never called on it (the tick loop only
erases the map entry, and `ClearModules` then finds the registry empty). -/
theorem evicted_module_never_deleted :
    (Main (sampleWorld (fun _ => some 1)) 2 "moonlightcontroller" ["-m", "a.lua"]
        (Host.initial 0 [])).code = some 0 ∧
    (Main (sampleWorld (fun _ => some 1)) 2 "moonlightcontroller" ["-m", "a.lua"]
        (Host.initial 0 [])).host.trace =
      [ Event.call "-m" ["a.lua"],
        Event.construct "a.lua" 0 NewResult.built,
        Event.ret true,
        Event.execute "a.lua",
        Event.invokeEvent "a.lua" "init",
        Event.invokeEvent "a.lua" "tick", Event.sleep 5 ] ∧
    (Main (sampleWorld (fun _ => some 1)) 2 "moonlightcontroller" ["-m", "a.lua"]
        (Host.initial 0 [])).host.trace.filter Event.isDelete = [] := by
  decide

/-! ## C19 -/

/-- C19.  Take a run of `Main` whose argument loop ends in `s1`, and let every
registered module `n` become inactive after `need n` tick invocations.  Then
the tick loop is left, with an empty registry, after exactly
`passesNeeded need s1.modules` passes: the largest `need n`, one pass when all
modules are inactive from the start, no pass when no module is registered.
Followed for that many passes or more, `Main` returns 0 and has slept once per
pass. -/
theorem tick_loop_ends_after_passes_needed {σ : Type} (W : LuaModule σ) (fuel : Nat)
    (fileName : String) (arguments : List String) (recommended : Int) (w : σ) (s1 : Host σ)
    (need : String → Nat)
    (hload : argumentLoop W arguments.length arguments (Host.initial recommended w)
      = Parsed.done s1)
    (hstop : ∀ n ∈ s1.modules, StopsAtTick W n (need n) (tickHead W s1))
    (hfuel : passesNeeded need s1.modules ≤ fuel) :
    (tickLoop W fuel (tickHead W s1)).1 = true ∧
    (tickLoop W fuel (tickHead W s1)).2.modules = [] ∧
    (tickLoop W fuel (tickHead W s1)).2
      = (tickPass W)^[passesNeeded need s1.modules] (tickHead W s1) ∧
    (∀ p, p < passesNeeded need s1.modules →
      ((tickPass W)^[p] (tickHead W s1)).modules ≠ []) ∧
    (Main W fuel fileName arguments (Host.initial recommended w)).code = some 0 ∧
    passCount (Main W fuel fileName arguments (Host.initial recommended w)).host.trace
      = passesNeeded need s1.modules ∧
    (s1.modules = [] → passesNeeded need s1.modules = 0) ∧
    (s1.modules ≠ [] → (∀ n ∈ s1.modules, need n = 0) → passesNeeded need s1.modules = 1) ∧
    (∀ n ∈ s1.modules, need n ≤ passesNeeded need s1.modules) ∧
    (1 < passesNeeded need s1.modules →
      ∃ n ∈ s1.modules, need n = passesNeeded need s1.modules) := by
  have hs := tickHead_nodup W arguments recommended w s1 hload
  have hstop1 : ∀ n ∈ (tickHead W s1).modules, StopsAtTick W n (need n) (tickHead W s1) := by
    intro n hn
    rw [tickHead_modules] at hn
    exact hstop n hn
  have hfuel1 : passesNeeded need (tickHead W s1).modules ≤ fuel := by
    rw [tickHead_modules]
    exact hfuel
  obtain ⟨hleft, heq, hcount⟩ :=
    tickLoop_of_stopsAtTick W fuel (tickHead W s1) need hs hstop1 hfuel1
  rw [tickHead_modules] at heq hcount
  have hiff := passes_nonempty_iff W (tickHead W s1) need hs hstop1
  rw [tickHead_modules] at hiff
  refine ⟨hleft, tickLoop_left_modules W fuel _ hleft, heq, fun p hp => (hiff p).mpr hp,
    ?_, ?_, ?_, ?_, ?_, ?_⟩
  · rw [Main_of_loaded W fuel fileName arguments _ s1 hload]
    obtain ⟨_, _, _, hcode⟩ := runTicks_since W fuel arguments (tickHead W s1)
    exact hcode hleft
  · rw [(Main_counts W fuel fileName arguments recommended w s1 hload "").2, hcount]
  · intro hnil
    simp [passesNeeded, hnil]
  · intro hne hzero
    have h1 : ¬ 1 < passesNeeded need s1.modules := by
      intro hlt
      obtain ⟨n, hn, h⟩ := (lt_passesNeeded_iff need s1.modules 1).mp hlt
      rw [hzero n hn] at h
      simp at h
    have h0 : 0 < passesNeeded need s1.modules := by
      obtain ⟨a, ha⟩ := List.exists_mem_of_ne_nil _ hne
      exact (lt_passesNeeded_iff need s1.modules 0).mpr ⟨a, ha, by simp⟩
    omega
  · intro n hn
    by_contra hlt
    have hlt1 : passesNeeded need s1.modules < need n := by omega
    have : ¬ passesNeeded need s1.modules < passesNeeded need s1.modules := by omega
    exact this ((lt_passesNeeded_iff need s1.modules _).mpr
      ⟨n, hn, lt_max_iff.mpr (Or.inl hlt1)⟩)
  · intro hgt
    have hpred : passesNeeded need s1.modules - 1 < passesNeeded need s1.modules := by omega
    obtain ⟨n, hn, h⟩ := (lt_passesNeeded_iff need s1.modules _).mp hpred
    refine ⟨n, hn, ?_⟩
    have hle : need n ≤ passesNeeded need s1.modules := by
      by_contra hlt
      have hlt1 : passesNeeded need s1.modules < need n := by omega
      have : ¬ passesNeeded need s1.modules < passesNeeded need s1.modules := by omega
      exact this ((lt_passesNeeded_iff need s1.modules _).mpr
        ⟨n, hn, lt_max_iff.mpr (Or.inl hlt1)⟩)
    rcases lt_max_iff.mp h with h | h
    · omega
    · omega

/-- C19 on a run of `-m a.lua b.lua` where `a.lua` needs one tick invocation
and `b.lua` two: the loop is left after two passes and `Main` returns 0. -/
theorem tick_loop_ends_after_passes_needed_witness :
    passesNeeded (fun n => if n = "a.lua" then 1 else 2) ["a.lua", "b.lua"] = 2 ∧
    (Main (sampleWorld (fun n => if n = "a.lua" then some 1 else some 2)) 5
      "moonlightcontroller" ["-m", "a.lua", "b.lua"] (Host.initial 0 [])).code = some 0 ∧
    passCount (Main (sampleWorld (fun n => if n = "a.lua" then some 1 else some 2)) 5
      "moonlightcontroller" ["-m", "a.lua", "b.lua"] (Host.initial 0 [])).host.trace = 2 :=
  ⟨by decide,
   (tick_loop_ends_after_passes_needed
      (sampleWorld (fun n => if n = "a.lua" then some 1 else some 2)) 5
      "moonlightcontroller" ["-m", "a.lua", "b.lua"] 0 []
      { lua := [("a.lua", 1), ("b.lua", 2)], libraries := 0, modules := ["a.lua", "b.lua"],
        trace := [Event.call "-m" ["a.lua", "b.lua"], Event.construct "a.lua" 0 NewResult.built,
          Event.construct "b.lua" 0 NewResult.built, Event.ret true] }
      (fun n => if n = "a.lua" then 1 else 2)
      rfl (by unfold StopsAtTick; decide) (by decide)).2.2.2.2.1,
   (tick_loop_ends_after_passes_needed
      (sampleWorld (fun n => if n = "a.lua" then some 1 else some 2)) 5
      "moonlightcontroller" ["-m", "a.lua", "b.lua"] 0 []
      { lua := [("a.lua", 1), ("b.lua", 2)], libraries := 0, modules := ["a.lua", "b.lua"],
        trace := [Event.call "-m" ["a.lua", "b.lua"], Event.construct "a.lua" 0 NewResult.built,
          Event.construct "b.lua" 0 NewResult.built, Event.ret true] }
      (fun n => if n = "a.lua" then 1 else 2)
      rfl (by unfold StopsAtTick; decide) (by decide)).2.2.2.2.2.1⟩

/-- The two edge cases of C19 run through: a run without arguments makes no
pass, and a tick loop whose only module is inactive from the start makes
one. -/
theorem tick_loop_edge_cases :
    passCount (Main (sampleWorld (fun _ => some 0)) 5 "moonlightcontroller" []
      (Host.initial 0 [])).host.trace = 0 ∧
    (Main (sampleWorld (fun _ => some 0)) 5 "moonlightcontroller" []
      (Host.initial 0 [])).code = some 0 ∧
    (runTicks (sampleWorld (fun _ => some 0)) 5 ["-m", "a.lua"]
      { lua := [("a.lua", 0)], libraries := 0, modules := ["a.lua"], trace := [] }).host.trace
      = [Event.sleep 5] ∧
    (runTicks (sampleWorld (fun _ => some 0)) 5 ["-m", "a.lua"]
      { lua := [("a.lua", 0)], libraries := 0, modules := ["a.lua"], trace := [] }).code
      = some 0 := by
  decide

/-! ## C20 -/

/-- C20.  `AddModules` returns `true` exactly when its argument vector is not
empty, whatever the constructors do.  So after a `-m`/`--modules` group with
at least one path the argument loop always goes on with the flag that follows.
For example, when the construction of `bad.lua` throws and `good.lua` is then
built active, `-m bad.lua -m good.lua` dispatches both flags and leaves
`good.lua` registered. -/
theorem AddModules_true_iff_nonempty {σ : Type} (W : LuaModule σ) (fuel : Nat)
    (args : List String) (s : Host σ) (recommended : Int) (w : σ) :
    ((AddModules W args s).1 = true ↔ args ≠ []) ∧
    (∀ flag next rest, isModulesFlag flag = true → args ≠ [] →
      (∀ a ∈ args, isFlagToken a = false) → isFlagToken next = true →
      argumentLoop W (fuel + 1) (flag :: (args ++ next :: rest)) s =
        argumentLoop W fuel (next :: rest)
          ((AddModules W args (s.emit [Event.call flag args])).2.emit [Event.ret true])) ∧
    ((W.construct "bad.lua" true recommended w).1.threw = true →
      (W.construct "good.lua" true recommended
        (W.construct "bad.lua" true recommended w).2).1 = NewResult.built →
      W.IsActive "good.lua" (W.construct "good.lua" true recommended
        (W.construct "bad.lua" true recommended w).2).2 = true →
      (argumentLoop W 4 ["-m", "bad.lua", "-m", "good.lua"]
        (Host.initial recommended w)).host.modules = ["good.lua"] ∧
      calls (argumentLoop W 4 ["-m", "bad.lua", "-m", "good.lua"]
        (Host.initial recommended w)).host.trace = [("-m", ["bad.lua"]), ("-m", ["good.lua"])]) := by
  refine ⟨?_, ?_, ?_⟩
  · rw [AddModules_result]
    cases args <;> simp
  · intro flag next rest hflag hne hargs hnext
    exact argumentLoop_after_batch W fuel flag args next rest s hflag hne hargs hnext
  · intro hbad hbuilt hactive
    have hstep := argumentLoop_after_batch W 3 "-m" ["bad.lua"] "-m" ["good.lua"]
      (Host.initial recommended w) (by decide) (by simp) (by decide) (by decide)
    have hlast := argumentLoop_last_batch W 2 "-m" ["good.lua"]
      ((AddModules W ["bad.lua"] ((Host.initial recommended w).emit
        [Event.call "-m" ["bad.lua"]])).2.emit [Event.ret true]) (by decide) (by decide)
    simp only [List.cons_append, List.nil_append] at hstep
    rw [hstep, hlast]
    generalize hr : W.construct "bad.lua" true recommended w = r at hbad hbuilt hactive
    obtain ⟨res, w1⟩ := r
    generalize hq : W.construct "good.lua" true recommended w1 = q at hbuilt hactive
    obtain ⟨res2, w2⟩ := q
    simp only [] at hbad hbuilt hactive
    subst hbuilt
    cases res with
    | built => simp [NewResult.threw] at hbad
    | null => simp [NewResult.threw] at hbad
    | threwException what =>
      simp [AddModules, addEach, Host.emit, Host.initial, hr, hq, hactive, Parsed.host,
        insertKey, calls]
    | threwOther =>
      simp [AddModules, addEach, Host.emit, Host.initial, hr, hq, hactive, Parsed.host,
        insertKey, calls]

/-- C20 on a concrete run: `bad.lua` throws, `good.lua` is loaded by the next
flag and runs. -/
theorem AddModules_true_iff_nonempty_example :
    (Main badLuaWorld 3 "moonlightcontroller" ["-m", "bad.lua", "-m", "good.lua"]
        (Host.initial 0 [])).host.trace =
      [ Event.call "-m" ["bad.lua"],
        Event.construct "bad.lua" 0 (NewResult.threwException "cannot open bad.lua"),
        Event.cerr "cannot open bad.lua",
        Event.ret true,
        Event.call "-m" ["good.lua"],
        Event.construct "good.lua" 0 NewResult.built,
        Event.ret true,
        Event.execute "good.lua",
        Event.invokeEvent "good.lua" "init",
        Event.invokeEvent "good.lua" "tick", Event.sleep 5 ] := by
  decide

end MoonlightController
